import Mathlib

/-!
# Memory-Allocation-C: a shallow embedding of `malloc.c`

The allocator keeps one singly linked list of block headers carved out of the
program break.  The embedding below keeps

* every header ever written by `growHeap` in a table `blocks`, in the order
  the headers were carved (which is their address order, the break only
  moving upwards); a pointer to a header is its index in that table and
  `none` is `NULL`;
* the `next` link of every header explicitly, because `growHeap` splices the
  new header behind whatever block the search handed over as `last`;
* the payload bytes as a function of block index and byte offset;
* the statistics counters as fields of the state.

`size_t` is 64 bits wide and `int` is 32 bits wide.  Conversions between the
two follow the usual two's complement wrap.  The total `num_requested`, which
one call can carry past `INT_MAX`, wraps to 32 bits as it does in the compiled
program; the counters that only ever grow by one are unbounded integers here.
Unsigned wrap-around is written with a guard (`if s = 0 then 2^w - 1 else
s - 1`) rather than by adding the modulus to the operand.

The file defines the `malloc` of the whole process, so the C library is a
client of it: `printf("size = 0\n")` in the zero-size branch of `malloc` makes
`stdout` ask `malloc` for its stream buffer on its first write.  The state
therefore records what `stdout` holds.  `atexit` has no effect on the allocator
state and is left out, and assertions are enabled (`NDEBUG` is not defined by
the source).

Headers and payloads lie back to back in the order of the break requests.  A
payload byte is `some v`, or `none` when the program has no way of knowing it
(bytes copied from behind a payload, bytes of the stream buffer).  An access
that leaves the memory below the program break, or that writes outside the
payload it was given, has no defined result.
-/

namespace MemAlloc

/-! ## Machine arithmetic -/

/-- Number of values of `size_t`. -/
def SIZE_MOD : Nat := 18446744073709551616

/-- The macro `ALIGN4(s) = (((((s) - 1) >> 2) << 2) + 4)` on a `w`-bit
unsigned operand `s < 2^w`: the decrement wraps 0 to `2^w - 1`, the shifts
divide by 4 and multiply by 4 modulo `2^w`, and the sum is taken modulo `2^w`. -/
def ALIGN4w (w s : Nat) : Nat :=
  (((if s = 0 then 2 ^ w - 1 else s - 1) / 4 * 4) % 2 ^ w + 4) % 2 ^ w

/-- The macro `ALIGN4` on `size_t`. -/
def ALIGN4 (s : Nat) : Nat := ALIGN4w 64 s

/-- Conversion of a `size_t` value to `int`: reduction modulo `2^32` into the
signed range. -/
def toInt (n : Nat) : Int :=
  if n % 4294967296 < 2147483648 then ((n % 4294967296 : Nat) : Int)
  else ((n % 4294967296 : Nat) : Int) - 4294967296

/-- Conversion of an `int` to `size_t`, as done when an `int` meets a `size_t`
in a comparison. -/
def toSize (i : Int) : Nat := (i % 18446744073709551616).toNat

/-- Subtraction `a - b` of two `size_t` values, which wraps when `a < b`. -/
def subSize (a b : Nat) : Nat := if b ≤ a then a - b else SIZE_MOD - (b - a)

/-- Two's complement wrap of an `int` result to 32 bits. -/
def wrapInt (i : Int) : Int :=
  if i % 4294967296 < 2147483648 then i % 4294967296 else i % 4294967296 - 4294967296

/-- Whether the fields of a header of recorded size `size` lie inside the
memory that `sbrk(sizeof(struct _block) + size)` reserves.  The header takes 32
bytes (`size` in bytes 0 to 7, two pointers, `free` in byte 24, padding), the
sum is taken in `size_t` and handed over as an `intptr_t`.  Below `2^63 - 32`
the break moves up by the header and the whole payload.  From `2^64 - 7` on the
sum has wrapped to 25 to 31 bytes, which still hold the fields.  In between the
increment is negative or too short. -/
@[reducible] def headerFits (size : Nat) : Prop :=
  size < 9223372036854775776 ∨ 18446744073709551609 ≤ size

/-- The number of payload bytes that the break request reserved for a block of
recorded size `size`: all of them, or none when the sum wrapped. -/
def reserved (size : Nat) : Nat := if size < 9223372036854775776 then size else 0

/-- The number of bytes by which the break request for a block of recorded size
`size` moved the break. -/
def breakStep (size : Nat) : Nat :=
  if size < 9223372036854775776 then 32 + size else size - 18446744073709551584

/-- The constant `INT_MAX`. -/
def INT_MAX : Int := 2147483647

/-- The constant `INT_MIN`. -/
def INT_MIN : Int := -2147483648

/-! ## Data model -/

/-- The header `struct _block`.  The field `prev` is never read or written by
the program and is left out, as is the padding. -/
structure Block where
  size : Nat
  next : Option Nat
  free : Bool
deriving DecidableEq, Repr

/-- What the C library's stream `stdout` holds.
* `fresh n`: no buffer yet; its first write asks `malloc` for `n` bytes;
* `buffered buf n`: its buffer is the payload of block `buf`, `n` bytes long;
* `unbuffered`: it writes through, its request for a buffer having been
  refused or the program having switched buffering off. -/
inductive Stdout where
  | fresh (request : Nat)
  | buffered (buf request : Nat)
  | unbuffered
deriving DecidableEq, Repr

/-- The process-wide allocator state: heap memory, the file's globals, and the
stream the file prints to. -/
structure State where
  blocks : List Block
  mem : Nat → Nat → Option Nat
  stdout : Stdout
  heapList : Option Nat
  lastList : Option Nat
  atexit_registered : Int
  num_mallocs : Int
  num_frees : Int
  num_reuses : Int
  num_grows : Int
  num_splits : Int
  num_coalesces : Int
  num_blocks : Int
  num_requested : Int
  max_heap : Int
  num_requested_temp : Int

/-- The state of a freshly started process whose `stdout` is a pipe or a file,
for which the C library takes a buffer of 4096 bytes.  Memory handed out by the
OS is zero-filled. -/
def State.init : State where
  blocks := []
  mem := fun _ _ => some 0
  stdout := .fresh 4096
  heapList := none
  lastList := none
  atexit_registered := 0
  num_mallocs := 0
  num_frees := 0
  num_reuses := 0
  num_grows := 0
  num_splits := 0
  num_coalesces := 0
  num_blocks := 0
  num_requested := 0
  max_heap := 0
  num_requested_temp := 0

/-- The placement policy selected at build time by one of the macros
`FIT`, `BEST`, `WORST`, `NEXT`. -/
inductive Policy where
  | FIT
  | BEST
  | WORST
  | NEXT
deriving DecidableEq, Repr

/-- What the two consecutive calls `sbrk(0)` and `sbrk(sizeof(struct _block) + size)`
of `growHeap` answer.
* `grown`: both return the old break and the break has moved up;
* `denied`: `sbrk(0)` returns the break, the extension returns `(void *)-1`;
* `dead`: both return `(void *)-1`. -/
inductive Sbrk where
  | grown
  | denied
  | dead
deriving DecidableEq, Repr

/-- How a call of one of the allocator's functions ends.
* `ret v s`: it returns `v` in state `s`;
* `abort s`: an `assert` fails in state `s` and the process is aborted;
* `stuck`: the call has no defined result (a header pointer outside the
  block table is dereferenced, bytes are written through `NULL` or outside a
  payload, bytes are read from beyond the program break, a header is written
  outside the reserved memory, or a list scan does not come to an end). -/
inductive Outcome (α : Type) where
  | ret (v : α) (s : State)
  | abort (s : State)
  | stuck

/-- The state in which a call ended, when it has one. -/
def Outcome.state? {α : Type} : Outcome α → Option State
  | .ret _ s => some s
  | .abort s => some s
  | .stuck => none

/-- The value a call returned, when it returned. -/
def Outcome.value? {α : Type} : Outcome α → Option α
  | .ret v _ => some v
  | .abort _ => none
  | .stuck => none

/-- Whether the call returned to its caller. -/
def Outcome.returned {α : Type} : Outcome α → Bool
  | .ret _ _ => true
  | .abort _ => false
  | .stuck => false

/-- The macro `BLOCK_DATA(b)`: the payload of block `b`.  A payload pointer is
identified with the index of its block. -/
@[simp] def BLOCK_DATA (b : Nat) : Nat := b

/-- The macro `BLOCK_HEADER(ptr)`: the header in front of payload `ptr`. -/
@[simp] def BLOCK_HEADER (ptr : Nat) : Nat := ptr

/-! ## `findFreeBlock` -/

/-- The result of a list scan: the block found (`curr`), the out-parameter
`*last`, and the counter `num_blocks`. -/
structure Scan where
  curr : Option Nat
  last : Option Nat
  num_blocks : Int
deriving DecidableEq, Repr

/-- The first-fit loop
`while (curr && !(curr->free && curr->size >= size))`. -/
def firstFitLoop (bs : List Block) (size : Nat) :
    Nat → Option Nat → Option Nat → Int → Option Scan
  | 0, _, _, _ => none
  | _ + 1, none, last, nb => some ⟨none, last, nb⟩
  | fuel + 1, some c, last, nb =>
    match bs[c]? with
    | none => none
    | some b =>
      if b.free && decide (b.size ≥ size) then some ⟨some c, last, nb⟩
      else firstFitLoop bs size fuel b.next (some c) (if b.free then nb + 1 else nb)

/-- The best-fit loop `while (curr)`, with the locals `winner` and
`spaceRemaining`; it ends with `curr = winner`. -/
def bestFitLoop (bs : List Block) (size : Nat) :
    Nat → Option Nat → Option Nat → Option Nat → Int → Int → Option Scan
  | 0, _, _, _, _, _ => none
  | _ + 1, none, last, winner, _, nb => some ⟨winner, last, nb⟩
  | fuel + 1, some c, _, winner, spaceRemaining, nb =>
    match bs[c]? with
    | none => none
    | some b =>
      let better : Bool := b.free && decide (b.size > size)
        && decide (subSize b.size size < toSize spaceRemaining)
      bestFitLoop bs size fuel b.next (some c)
        (if better then some c else winner)
        (if better then toInt (subSize b.size size) else spaceRemaining)
        (if b.free then nb + 1 else nb)

/-- The worst-fit loop `while (curr)`; it does not write `*last`. -/
def worstFitLoop (bs : List Block) (size : Nat) :
    Nat → Option Nat → Option Nat → Option Nat → Int → Int → Option Scan
  | 0, _, _, _, _, _ => none
  | _ + 1, none, last, winner, _, nb => some ⟨winner, last, nb⟩
  | fuel + 1, some c, last, winner, spaceRemaining, nb =>
    match bs[c]? with
    | none => none
    | some b =>
      let better : Bool := b.free && decide (b.size > size)
        && decide (subSize b.size size < toSize spaceRemaining)
      worstFitLoop bs size fuel b.next last
        (if better then some c else winner)
        (if better then toInt (subSize b.size size) else spaceRemaining)
        (if b.free then nb + 1 else nb)

/-- The first loop of next-fit, from the list head:
`while (curr && !((curr->size >= size) && (curr->free)))`. -/
def nextFitHeadLoop (bs : List Block) (size : Nat) :
    Nat → Option Nat → Option Nat → Option (Option Nat × Option Nat)
  | 0, _, _ => none
  | _ + 1, none, last => some (none, last)
  | fuel + 1, some c, last =>
    match bs[c]? with
    | none => none
    | some b =>
      if decide (b.size ≥ size) && b.free then some (some c, last)
      else nextFitHeadLoop bs size fuel b.next (some c)

/-- The second loop of next-fit, which walks the cursor `lastList`:
`while (lastList && !((lastList->size >= size) && (lastList->free)))`. -/
def nextFitCursorLoop (bs : List Block) (size : Nat) :
    Nat → Option Nat → Option Nat → Int → Option Scan
  | 0, _, _, _ => none
  | _ + 1, none, last, nb => some ⟨none, last, nb⟩
  | fuel + 1, some c, last, nb =>
    match bs[c]? with
    | none => none
    | some b =>
      if decide (b.size ≥ size) && b.free then some ⟨some c, last, nb⟩
      else nextFitCursorLoop bs size fuel b.next (some c) (if b.free then nb + 1 else nb)

/-- What `findFreeBlock` hands back: the returned block, the out-parameter
`*last`, and the state with the globals it has written. -/
structure Search where
  curr : Option Nat
  last : Option Nat
  st : State

/-- The function `findFreeBlock(&last, size)` under policy `pol`.  Every loop
gets one step more than there are headers, which is enough whenever the links
are acyclic; `none` means that a scan did not end within that budget or left
the block table. -/
def findFreeBlock (pol : Policy) (s : State) (last : Option Nat) (size : Nat) :
    Option Search :=
  let fuel := s.blocks.length + 1
  match pol with
  | .FIT =>
    match firstFitLoop s.blocks size fuel s.heapList last s.num_blocks with
    | none => none
    | some r => some ⟨r.curr, r.last, { s with num_blocks := r.num_blocks }⟩
  | .BEST =>
    match bestFitLoop s.blocks size fuel s.heapList last none INT_MAX s.num_blocks with
    | none => none
    | some r => some ⟨r.curr, r.last, { s with num_blocks := r.num_blocks }⟩
  | .WORST =>
    match worstFitLoop s.blocks size fuel s.heapList last none INT_MIN s.num_blocks with
    | none => none
    | some r => some ⟨r.curr, r.last, { s with num_blocks := r.num_blocks }⟩
  | .NEXT =>
    match nextFitHeadLoop s.blocks size fuel s.heapList last with
    | none => none
    | some (curr, last1) =>
      let cursor := match s.lastList with
        | none => curr
        | some c => some c
      match nextFitCursorLoop s.blocks size fuel cursor last1 s.num_blocks with
      | none => none
      | some r =>
        some ⟨r.curr, r.last, { s with lastList := r.curr, num_blocks := r.num_blocks }⟩

/-! ## `growHeap`, `malloc`, `free`, `realloc`, `calloc` -/

/-- The function `growHeap(last, size)`.  When the break request came back
with the old break, the header is written there; that has a defined result only
if its fields lie inside the memory the request reserved. -/
def growHeap (os : Sbrk) (s : State) (last : Option Nat) (size : Nat) :
    Outcome (Option Nat) :=
  match os with
  | .denied => .abort s
  | .dead => .ret none s
  | .grown =>
    if headerFits size then
      let curr := s.blocks.length
      let head := match s.heapList with
        | none => some curr
        | some h => some h
      let fresh : Block := ⟨size, none, false⟩
      match last with
      | none =>
        .ret (some curr)
          { s with blocks := s.blocks ++ [fresh], heapList := head,
                   num_grows := s.num_grows + 1 }
      | some l =>
        match s.blocks[l]? with
        | none => .stuck
        | some b =>
          .ret (some curr)
            { s with blocks := s.blocks.set l { b with next := some curr } ++ [fresh],
                     heapList := head, num_grows := s.num_grows + 1 }
    else .stuck

/-- The tail of `malloc`: `next->free = false; num_mallocs++; return BLOCK_DATA(next);`. -/
def markUsed (s : State) (next : Nat) : Outcome (Option Nat) :=
  match s.blocks[next]? with
  | none => .stuck
  | some b =>
    .ret (some (BLOCK_DATA next))
      { s with blocks := s.blocks.set next { b with free := false },
               num_mallocs := s.num_mallocs + 1 }

/-- The statistics prologue of `malloc`, up to the registration of the exit
handler.  The sum and the difference that go into `num_requested` are `int`
operations and wrap to 32 bits. -/
def recordRequest (s : State) (size : Nat) : State :=
  let s1 : State :=
    { s with max_heap := if size > toSize s.num_requested_temp then toInt size else s.max_heap }
  let s2 : State :=
    { s1 with num_requested_temp := toInt size,
              num_requested := wrapInt (s1.num_requested + toInt size) }
  if s2.atexit_registered = 0 then
    { s2 with num_requested := wrapInt (s2.num_requested - 1024), atexit_registered := 1 }
  else s2

/-- The part of `malloc` below the zero-size test, for the aligned size
`size`: the search, the heap growth, and the marking of the block. -/
def allocate (pol : Policy) (os : Sbrk) (s1 : State) (size : Nat) : Outcome (Option Nat) :=
  match findFreeBlock pol s1 s1.heapList size with
  | none => .stuck
  | some r =>
    match r.curr with
    | none =>
      match growHeap os r.st r.last size with
      | .ret (some next) s2 => markUsed s2 next
      | .ret none s2 => .ret none s2
      | .abort s2 => .abort s2
      | .stuck => .stuck
    | some next => markUsed { r.st with num_reuses := r.st.num_reuses + 1 } next

/-- The stream writes into the first `n` bytes of the payload of block `b`,
which the program cannot know afterwards. -/
def scribble (s : State) (b n : Nat) : Option State :=
  match s.blocks[b]? with
  | none => none
  | some d =>
    if n ≤ reserved d.size then
      some { s with mem := fun k i => if k = b ∧ i < n then none else s.mem k i }
    else none

/-- The call `printf("size = 0\n")` of the zero-size branch.  A stream that has
its buffer writes into it.  A fresh stream first calls `malloc(n)` for its
buffer, which runs the statistics prologue and the part of `malloc` below the
zero-size test, with the answer `os` of the OS to a break request; a request
that aligns to 0 would print again and has no defined result here.  A stream
whose request was refused writes through from then on. -/
def printf (pol : Policy) (os : Sbrk) (s : State) : Outcome Unit :=
  match s.stdout with
  | .unbuffered => .ret () s
  | .buffered b n =>
    match scribble s b n with
    | none => .stuck
    | some s1 => .ret () s1
  | .fresh n =>
    if ALIGN4 n = 0 then .stuck
    else
      match allocate pol os (recordRequest s n) (ALIGN4 n) with
      | .ret (some b) s1 =>
        match scribble { s1 with stdout := .buffered b n } b n with
        | none => .stuck
        | some s2 => .ret () s2
      | .ret none s1 => .ret () { s1 with stdout := .unbuffered }
      | .abort s1 => .abort s1
      | .stuck => .stuck

/-- The function `malloc(size)`. -/
def malloc (pol : Policy) (os : Sbrk) (s : State) (size : Nat) : Outcome (Option Nat) :=
  let s1 := recordRequest s size
  let size := ALIGN4 size
  if size = 0 then
    match printf pol os s1 with
    | .ret _ s2 => .ret none s2
    | .abort s2 => .abort s2
    | .stuck => .stuck
  else allocate pol os s1 size

/-- The function `free(ptr)`. -/
def free (s : State) (ptr : Option Nat) : Outcome Unit :=
  match ptr with
  | none => .ret () s
  | some p =>
    match s.blocks[BLOCK_HEADER p]? with
    | none => .stuck
    | some curr =>
      if curr.free then .abort s
      else
        .ret ()
          { s with blocks := s.blocks.set (BLOCK_HEADER p) { curr with free := true },
                   num_frees := s.num_frees + 1 }

/-- The offset of header `k` from the start of the heap: the headers are
carved one behind the other, each where the break stood. -/
def headerAddr (bs : List Block) (k : Nat) : Nat :=
  ((bs.take k).map fun b => breakStep b.size).sum

/-- The program break, as an offset from the start of the heap. -/
def heapEnd (bs : List Block) : Nat :=
  (bs.map fun b => breakStep b.size).sum

/-- The call `memcpy(dst, src, n)` on the payloads of blocks `dst` and `src`.
The `n` bytes written must lie in the payload of `dst`.  The `n` bytes read
must lie in the payload of `src` or, failing that, below the program break: the
bytes read from behind the payload of `src` belong to the headers and payloads
that follow it, and the program cannot know them.  Outside these bounds the
call has no defined result. -/
def memcpy (s : State) (dst src n : Nat) : Option State :=
  match s.blocks[dst]?, s.blocks[src]? with
  | some d, some b =>
    if n ≤ reserved d.size ∧
        (n ≤ reserved b.size ∨ headerAddr s.blocks src + 32 + n ≤ heapEnd s.blocks) then
      some { s with
        mem := fun k i =>
          if k = dst ∧ i < n then (if i < reserved b.size then s.mem src i else none)
          else s.mem k i }
    else none
  | _, _ => none

/-- The call `memset(dst, c, n)` on the payload of block `dst`, in which the
`n` bytes must lie. -/
def memset (s : State) (dst c n : Nat) : Option State :=
  match s.blocks[dst]? with
  | none => none
  | some d =>
    if n ≤ reserved d.size then
      some { s with mem := fun k i => if k = dst ∧ i < n then some c else s.mem k i }
    else none

/-- The function `realloc(ptr, size)`.  A copy or fill of zero bytes does
nothing, whatever its destination. -/
def realloc (pol : Policy) (os : Sbrk) (s : State) (ptr : Option Nat) (size : Nat) :
    Outcome (Option Nat) :=
  match ptr with
  | none => malloc pol os s size
  | some p =>
    match malloc pol os s size with
    | .stuck => .stuck
    | .abort s1 => .abort s1
    | .ret nPtr s1 =>
      let copied : Option State :=
        if size = 0 then some s1
        else match nPtr with
          | none => none
          | some q => memcpy s1 q p size
      match copied with
      | none => .stuck
      | some s2 =>
        match free { s2 with num_reuses := s2.num_reuses + 1 } (some p) with
        | .stuck => .stuck
        | .abort s3 => .abort s3
        | .ret _ s3 => .ret nPtr { s3 with num_frees := s3.num_frees + 1 }

/-- The function `calloc(n_items, size)`. -/
def calloc (pol : Policy) (os : Sbrk) (s : State) (n_items size : Nat) :
    Outcome (Option Nat) :=
  let newSize := (n_items * size) % SIZE_MOD
  match malloc pol os s newSize with
  | .stuck => .stuck
  | .abort s1 => .abort s1
  | .ret ptr s1 =>
    if newSize = 0 then .ret ptr s1
    else match ptr with
      | none => .stuck
      | some q =>
        match memset s1 q 0 newSize with
        | none => .stuck
        | some s2 => .ret (some q) s2

/-! ## Vocabulary of the statements -/

/-- Block `k` is a free block of capacity at least `size`. -/
def Fits (bs : List Block) (size k : Nat) : Prop :=
  ∃ b, bs[k]? = some b ∧ b.free = true ∧ size ≤ b.size

/-- One call of the public interface. -/
inductive Call where
  | malloc (size : Nat)
  | free (ptr : Option Nat)
  | calloc (n_items size : Nat)
  | realloc (ptr : Option Nat) (size : Nat)
deriving DecidableEq, Repr

/-- Performing one call; `free` is given the return value `NULL`. -/
def Call.exec (pol : Policy) (os : Sbrk) (s : State) : Call → Outcome (Option Nat)
  | .malloc size => MemAlloc.malloc pol os s size
  | .free ptr =>
    match MemAlloc.free s ptr with
    | .ret _ s1 => .ret none s1
    | .abort s1 => .abort s1
    | .stuck => .stuck
  | .calloc n_items size => MemAlloc.calloc pol os s n_items size
  | .realloc ptr size => MemAlloc.realloc pol os s ptr size

/-- A program run: the calls are performed in order, each with the answer the
OS gives to its break request; the run has a final state when every call
returns. -/
def runCalls (pol : Policy) : State → List (Sbrk × Call) → Option State
  | s, [] => some s
  | s, (os, c) :: rest =>
    match c.exec pol os s with
    | .ret _ s1 => runCalls pol s1 rest
    | .abort _ => none
    | .stuck => none

/-- The values returned by the calls of a program run, in order, up to the
first call that does not return. -/
def returns (pol : Policy) : State → List (Sbrk × Call) → List (Option Nat)
  | _, [] => []
  | s, (os, c) :: rest =>
    match c.exec pol os s with
    | .ret v s1 => v :: returns pol s1 rest
    | .abort _ => []
    | .stuck => []

/-- Whether the call ended in a failed `assert`. -/
def Outcome.aborted {α : Type} : Outcome α → Bool
  | .ret _ _ => false
  | .abort _ => true
  | .stuck => false

/-- Whether the call has no defined result. -/
def Outcome.undefined {α : Type} : Outcome α → Bool
  | .ret _ _ => false
  | .abort _ => false
  | .stuck => true

/-- A program run that consists of `malloc` calls only, given by the answer of
the OS and the requested size of each call. -/
def mallocCalls (reqs : List (Sbrk × Nat)) : List (Sbrk × Call) :=
  reqs.map fun q => (q.1, Call.malloc q.2)

/-- The number of bytes that the stream asks `malloc` for during a run of
`malloc` calls: the size of its buffer, once, when the stream has no buffer yet
and one of the requests aligns to 0, so that its call prints. -/
def streamRequest (out : Stdout) (reqs : List (Sbrk × Nat)) : Nat :=
  match out with
  | .fresh n => if reqs.any (fun q => decide (ALIGN4 q.2 = 0)) then n else 0
  | .buffered _ _ => 0
  | .unbuffered => 0

/-! ## The linked list as a list -/

/-- Every `next` link of the table points to a header further up in the table:
the links follow the address order and cannot form a cycle. -/
@[reducible] def LinksOk (bs : List Block) : Prop :=
  ∀ i, i < bs.length →
    ((bs[i]?).bind Block.next).all (fun j => decide (i < j) && decide (j < bs.length)) = true

/-- A well-formed state: the links are in order and the list head and the
cursor, when set, are headers of the table. -/
@[reducible] def State.WF (s : State) : Prop :=
  LinksOk s.blocks ∧
  s.heapList.all (fun h => decide (h < s.blocks.length)) = true ∧
  s.lastList.all (fun c => decide (c < s.blocks.length)) = true

/-- The headers met when following `next` from `c`, at most `fuel` of them. -/
def listFrom (bs : List Block) : Nat → Option Nat → List Nat
  | 0, _ => []
  | _ + 1, none => []
  | fuel + 1, some c =>
    match bs[c]? with
    | none => []
    | some b => c :: listFrom bs fuel b.next

/-- The block list of a state: the headers reachable from `heapList`, in list
order. -/
def State.list (s : State) : List Nat := listFrom s.blocks s.blocks.length s.heapList

/-- The comparator `curr->free && curr->size >= size` on header `c`. -/
def fitsB (bs : List Block) (size c : Nat) : Bool :=
  match bs[c]? with
  | none => false
  | some b => b.free && decide (b.size ≥ size)

/-- The test `curr->free` on header `c`. -/
def isFreeB (bs : List Block) (c : Nat) : Bool :=
  match bs[c]? with
  | none => false
  | some b => b.free

/-! ## Heaps built by appending at the tail -/

/-- Every header is linked to the header carved right after it, and the last
header ends the list. -/
@[reducible] def LinearLinks (bs : List Block) : Prop :=
  ∀ i, i < bs.length →
    (bs[i]?).bind Block.next = if i + 1 < bs.length then some (i + 1) else none

/-- The list runs through all headers in address order, starting at the first
one, and the cursor, when set, is one of them. -/
@[reducible] def State.Linear (s : State) : Prop :=
  s.heapList = (if s.blocks.length = 0 then none else some 0) ∧
  LinearLinks s.blocks ∧
  s.lastList.all (fun c => decide (c < s.blocks.length)) = true

/-- The last header of the table, `NULL` for the empty table. -/
def tailOf (bs : List Block) : Option Nat :=
  if bs.length = 0 then none else some (bs.length - 1)

/-- The states a process can be in: those reached by a program run from the
initial state, whatever `stdout` is at the start. -/
def Reachable (pol : Policy) (s : State) : Prop :=
  ∃ out tr, runCalls pol { State.init with stdout := out } tr = some s

/-! ## Block sizes, counters and leftovers -/

/-- Every header of the table has a capacity that is a non-zero multiple of 4. -/
@[reducible] def SizesOk (bs : List Block) : Prop :=
  ∀ b ∈ bs, b.size ≠ 0 ∧ b.size % 4 = 0

/-- The number of `realloc` calls of a run whose pointer is not `NULL`. -/
def reallocMoves (tr : List (Sbrk × Call)) : Nat :=
  tr.countP fun q =>
    match q.2 with
    | .realloc (some _) _ => true
    | _ => false

/-- The capacity recorded in header `c`; 0 outside the table. -/
def sizeAt (bs : List Block) (c : Nat) : Nat :=
  match bs[c]? with
  | none => 0
  | some b => b.size

/-- The test `curr->free && curr->size > size` of the best-fit and worst-fit
loops on header `c`. -/
def largerB (bs : List Block) (size c : Nat) : Bool :=
  match bs[c]? with
  | none => false
  | some b => b.free && decide (b.size > size)

/-- Whether header `c` beats the winner `w`: there is no winner yet, or the
leftover of `c` is smaller than the winner's. -/
def beatsB (bs : List Block) (size c : Nat) : Option Nat → Bool
  | none => true
  | some k => decide (sizeAt bs c - size < sizeAt bs k - size)

/-- One pass over the headers `l` that keeps a winner `w`: a header replaces
the winner when it is free and larger than the request and either there is no
winner yet or its leftover is smaller than the winner's. -/
def leftoverScan (bs : List Block) (size : Nat) : List Nat → Option Nat → Option Nat
  | [], w => w
  | c :: rest, w =>
    leftoverScan bs size rest (if largerB bs size c && beatsB bs size c w then some c else w)

/-- The block described by the words "the lowest-address free block whose
leftover `block.size - size` is the smallest strictly positive leftover, or
no-match when no free block is strictly larger than the request": among the
free blocks of the list with a positive leftover, those whose leftover is not
above any other's, and of these the one with the lowest address. -/
def smallestLeftoverBlock (s : State) (size : Nat) : Option Nat :=
  let cands := s.list.filter fun c =>
    isFreeB s.blocks c && decide (0 < sizeAt s.blocks c - size)
  (cands.filter fun c =>
    cands.all fun j => decide (sizeAt s.blocks c - size ≤ sizeAt s.blocks j - size)).min?

/-! ## Example states -/

/-- A heap holding one allocated block of 8 bytes with the two `int`s 10 and 20
in its payload. -/
def heapTwoInts : State :=
  { State.init with
    blocks := [⟨8, none, false⟩]
    mem := fun b i =>
      if b = 0 ∧ i = 0 then some 10 else if b = 0 ∧ i = 4 then some 20 else some 0
    heapList := some 0
    atexit_registered := 1
    num_mallocs := 1
    num_grows := 1 }

/-- A heap holding one free block of 8 bytes whose payload is filled with
the byte 255. -/
def heapDirtyFree : State :=
  { State.init with
    blocks := [⟨8, none, true⟩]
    mem := fun _ _ => some 255
    heapList := some 0
    atexit_registered := 1
    num_mallocs := 1
    num_frees := 1
    num_grows := 1 }

/-- A heap of four blocks in list order: 8 bytes in use, then free blocks of 4,
16 and 16 bytes. -/
def heapFourBlocks : State :=
  { State.init with
    blocks := [⟨8, some 1, false⟩, ⟨4, some 2, true⟩, ⟨16, some 3, true⟩, ⟨16, none, true⟩]
    heapList := some 0
    atexit_registered := 1
    num_mallocs := 4
    num_frees := 3
    num_grows := 4 }

/-- The next-fit heap after `malloc(8)`, `malloc(4)`, `free` of the second
block, `malloc(4)` and `free` of the first block: a free block of 8 bytes in
front of the cursor, which stands on the allocated block of 4 bytes. -/
def heapNextFit : State :=
  { State.init with
    blocks := [⟨8, some 1, true⟩, ⟨4, none, false⟩]
    heapList := some 0
    lastList := some 1
    atexit_registered := 1
    num_mallocs := 3
    num_frees := 2
    num_reuses := 1
    num_grows := 2
    num_requested := -1008
    max_heap := 8
    num_requested_temp := 4 }

/-- The state `heapNextFit` after `malloc(8)`, which grew the heap. -/
def heapNextFitGrown : State :=
  { State.init with
    blocks := [⟨8, some 1, true⟩, ⟨4, some 2, false⟩, ⟨8, none, false⟩]
    heapList := some 0
    lastList := none
    atexit_registered := 1
    num_mallocs := 4
    num_frees := 2
    num_reuses := 1
    num_grows := 3
    num_requested := -1000
    max_heap := 8
    num_requested_temp := 8 }

/-- The heap after the first call `malloc(4)` of a process under first-fit. -/
def heapAfterMalloc4 : State :=
  { State.init with
    blocks := [⟨4, none, false⟩]
    heapList := some 0
    atexit_registered := 1
    num_mallocs := 1
    num_grows := 1
    num_requested := -1020
    max_heap := 4
    num_requested_temp := 4 }

/-- The next-fit heap after `malloc(8)`, `malloc(4)`, `free` of the second
block, `malloc(4)` and `free` of the second block again: the cursor stands on
the free block of 4 bytes. -/
def heapNextFitCursor : State :=
  { State.init with
    blocks := [⟨8, some 1, false⟩, ⟨4, none, true⟩]
    heapList := some 0
    lastList := some 1
    atexit_registered := 1
    num_mallocs := 3
    num_frees := 2
    num_reuses := 1
    num_grows := 2
    num_requested := -1008
    max_heap := 8
    num_requested_temp := 4 }

/-- The first-fit heap after `malloc(8)`, `malloc(4)` and `malloc(6)`. -/
def heapThreeMallocs : State :=
  { State.init with
    blocks := [⟨8, some 1, false⟩, ⟨4, some 2, false⟩, ⟨8, none, false⟩]
    heapList := some 0
    atexit_registered := 1
    num_mallocs := 3
    num_grows := 3
    num_requested := -1006
    max_heap := 6
    num_requested_temp := 6 }

/-! ## Lemmas -/

theorem ALIGN4_eq (s : Nat) :
    ALIGN4 s = (((if s = 0 then 18446744073709551615 else s - 1) / 4 * 4)
      % 18446744073709551616 + 4) % 18446744073709551616 := by
  simp only [ALIGN4, ALIGN4w]
  norm_num

theorem ALIGN4_lt (s : Nat) : ALIGN4 s < SIZE_MOD := by
  rw [ALIGN4_eq]; unfold SIZE_MOD; omega

theorem ALIGN4_zero : ALIGN4 0 = 0 := by
  rw [ALIGN4_eq]; rfl

theorem ALIGN4_ge (s : Nat) (h : ALIGN4 s ≠ 0) (hs : s < SIZE_MOD) : s ≤ ALIGN4 s := by
  rw [ALIGN4_eq] at *
  unfold SIZE_MOD at *
  split_ifs at * with h0 <;> omega

theorem set_self (bs : List Block) (p : Nat) (b : Block) (h : bs[p]? = some b) : bs.set p b = bs := by
  apply List.ext_getElem?
  intro i
  by_cases hi : p = i
  · subst hi
    have hp : p < bs.length := by
      by_contra hc
      rw [List.getElem?_eq_none (by omega)] at h
      cases h
    rw [List.getElem?_set_self hp, h]
  · rw [List.getElem?_set_ne hi]

theorem getElem?_lt {bs : List Block} {p : Nat} {b : Block} (h : bs[p]? = some b) : p < bs.length := by
  by_contra hc
  rw [List.getElem?_eq_none (by omega)] at h
  cases h

theorem firstFitLoop_found (bs : List Block) (size : Nat) :
    ∀ (f : Nat) (c last : Option Nat) (nb : Int) (r : Scan),
      firstFitLoop bs size f c last nb = some r → ∀ k, r.curr = some k → Fits bs size k := by
  intro f
  induction f with
  | zero => intro c last nb r h; simp [firstFitLoop] at h
  | succ f ih =>
    intro c last nb r h k hk
    cases c with
    | none =>
      simp only [firstFitLoop, Option.some.injEq] at h
      subst h; simp at hk
    | some c =>
      simp only [firstFitLoop] at h
      split at h
      · cases h
      · rename_i b hb
        split at h
        · rename_i hfit
          simp only [Option.some.injEq] at h
          subst h
          simp only [Option.some.injEq] at hk
          subst hk
          simp only [Bool.and_eq_true, decide_eq_true_eq] at hfit
          exact ⟨b, hb, hfit.1, hfit.2⟩
        · exact ih _ _ _ _ h k hk

theorem nextFitCursorLoop_found (bs : List Block) (size : Nat) :
    ∀ (f : Nat) (c last : Option Nat) (nb : Int) (r : Scan),
      nextFitCursorLoop bs size f c last nb = some r → ∀ k, r.curr = some k → Fits bs size k := by
  intro f
  induction f with
  | zero => intro c last nb r h; simp [nextFitCursorLoop] at h
  | succ f ih =>
    intro c last nb r h k hk
    cases c with
    | none =>
      simp only [nextFitCursorLoop, Option.some.injEq] at h
      subst h; simp at hk
    | some c =>
      simp only [nextFitCursorLoop] at h
      split at h
      · cases h
      · rename_i b hb
        split at h
        · rename_i hfit
          simp only [Option.some.injEq] at h
          subst h
          simp only [Option.some.injEq] at hk
          subst hk
          simp only [Bool.and_eq_true, decide_eq_true_eq] at hfit
          exact ⟨b, hb, hfit.2, hfit.1⟩
        · exact ih _ _ _ _ h k hk

theorem bestFitLoop_found (bs : List Block) (size : Nat) :
    ∀ (f : Nat) (c last winner : Option Nat) (sr nb : Int) (r : Scan),
      bestFitLoop bs size f c last winner sr nb = some r →
      (∀ k, winner = some k → Fits bs size k) → ∀ k, r.curr = some k → Fits bs size k := by
  intro f
  induction f with
  | zero => intro c last winner sr nb r h; simp [bestFitLoop] at h
  | succ f ih =>
    intro c last winner sr nb r h hw k hk
    cases c with
    | none =>
      simp only [bestFitLoop, Option.some.injEq] at h
      subst h; exact hw k hk
    | some c =>
      simp only [bestFitLoop] at h
      split at h
      · cases h
      · rename_i b hb
        refine ih _ _ _ _ _ _ h ?_ k hk
        intro k2 hk2
        split at hk2
        · rename_i hbet
          simp only [Option.some.injEq] at hk2
          subst hk2
          simp only [Bool.and_eq_true, decide_eq_true_eq] at hbet
          exact ⟨b, hb, hbet.1.1, by omega⟩
        · exact hw k2 hk2

theorem worstFitLoop_found (bs : List Block) (size : Nat) :
    ∀ (f : Nat) (c last winner : Option Nat) (sr nb : Int) (r : Scan),
      worstFitLoop bs size f c last winner sr nb = some r →
      (∀ k, winner = some k → Fits bs size k) → ∀ k, r.curr = some k → Fits bs size k := by
  intro f
  induction f with
  | zero => intro c last winner sr nb r h; simp [worstFitLoop] at h
  | succ f ih =>
    intro c last winner sr nb r h hw k hk
    cases c with
    | none =>
      simp only [worstFitLoop, Option.some.injEq] at h
      subst h; exact hw k hk
    | some c =>
      simp only [worstFitLoop] at h
      split at h
      · cases h
      · rename_i b hb
        refine ih _ _ _ _ _ _ h ?_ k hk
        intro k2 hk2
        split at hk2
        · rename_i hbet
          simp only [Option.some.injEq] at hk2
          subst hk2
          simp only [Bool.and_eq_true, decide_eq_true_eq] at hbet
          exact ⟨b, hb, hbet.1.1, by omega⟩
        · exact hw k2 hk2

/-- What `findFreeBlock` leaves untouched, and what it returns. -/
theorem findFreeBlock_spec (pol : Policy) (s : State) (last : Option Nat) (size : Nat)
    (r : Search) (h : findFreeBlock pol s last size = some r) :
    r.st.blocks = s.blocks ∧ r.st.mem = s.mem ∧ r.st.heapList = s.heapList ∧
    r.st.num_mallocs = s.num_mallocs ∧ r.st.num_frees = s.num_frees ∧
    r.st.num_reuses = s.num_reuses ∧ r.st.num_grows = s.num_grows ∧
    (∀ k, r.curr = some k → Fits s.blocks size k) ∧
    (pol = .NEXT → r.st.lastList = r.curr) := by
  cases pol with
  | FIT =>
    simp only [findFreeBlock] at h
    split at h
    · cases h
    · rename_i r0 h0
      simp only [Option.some.injEq] at h
      subst h
      exact ⟨rfl, rfl, rfl, rfl, rfl, rfl, rfl, firstFitLoop_found _ _ _ _ _ _ _ h0, by simp⟩
  | BEST =>
    simp only [findFreeBlock] at h
    split at h
    · cases h
    · rename_i r0 h0
      simp only [Option.some.injEq] at h
      subst h
      exact ⟨rfl, rfl, rfl, rfl, rfl, rfl, rfl,
        bestFitLoop_found _ _ _ _ _ _ _ _ _ h0 (by simp), by simp⟩
  | WORST =>
    simp only [findFreeBlock] at h
    split at h
    · cases h
    · rename_i r0 h0
      simp only [Option.some.injEq] at h
      subst h
      exact ⟨rfl, rfl, rfl, rfl, rfl, rfl, rfl,
        worstFitLoop_found _ _ _ _ _ _ _ _ _ h0 (by simp), by simp⟩
  | NEXT =>
    simp only [findFreeBlock] at h
    split at h
    · cases h
    · rename_i c1 l1 h1
      split at h
      · cases h
      · rename_i r0 h0
        simp only [Option.some.injEq] at h
        subst h
        exact ⟨rfl, rfl, rfl, rfl, rfl, rfl, rfl, nextFitCursorLoop_found _ _ _ _ _ _ _ h0, fun _ => rfl⟩

theorem recordRequest_frame (s : State) (size : Nat) :
    (recordRequest s size).blocks = s.blocks ∧ (recordRequest s size).mem = s.mem ∧
    (recordRequest s size).heapList = s.heapList ∧
    (recordRequest s size).lastList = s.lastList ∧
    (recordRequest s size).num_mallocs = s.num_mallocs ∧
    (recordRequest s size).num_frees = s.num_frees ∧
    (recordRequest s size).num_reuses = s.num_reuses ∧
    (recordRequest s size).num_grows = s.num_grows ∧
    (recordRequest s size).num_blocks = s.num_blocks := by
  unfold recordRequest
  simp only
  split <;> exact ⟨rfl, rfl, rfl, rfl, rfl, rfl, rfl, rfl, rfl⟩

/-- A request that does not align to 0 goes past the zero-size test. -/
theorem malloc_nz (pol : Policy) (os : Sbrk) (s : State) (size : Nat) (hz : ALIGN4 size ≠ 0) :
    malloc pol os s size = allocate pol os (recordRequest s size) (ALIGN4 size) := by
  unfold malloc
  simp only
  rw [if_neg hz]

/-- A request that aligns to 0 prints and returns `NULL`. -/
theorem malloc_z (pol : Policy) (os : Sbrk) (s : State) (size : Nat) (hz : ALIGN4 size = 0) :
    malloc pol os s size =
      match printf pol os (recordRequest s size) with
      | .ret _ s2 => .ret none s2
      | .abort s2 => .abort s2
      | .stuck => .stuck := by
  unfold malloc
  simp only
  rw [if_pos hz]

theorem malloc_z_none (pol : Policy) (os : Sbrk) (s s' : State) (size : Nat) (v : Option Nat)
    (hz : ALIGN4 size = 0) (h : malloc pol os s size = .ret v s') : v = none := by
  rw [malloc_z _ _ _ _ hz] at h
  cases hp : printf pol os (recordRequest s size) with
  | stuck => rw [hp] at h; cases h
  | abort s1 => rw [hp] at h; cases h
  | ret u s1 =>
    rw [hp] at h
    simp only [Outcome.ret.injEq] at h
    exact h.1.symm

/-- The two ways in which `malloc` hands out a block: an existing free block
is taken over as it is, or a header is appended by `growHeap`. -/
theorem malloc_ret_some (pol : Policy) (os : Sbrk) (s s' : State) (size p : Nat)
    (h : malloc pol os s size = .ret (some p) s') :
    ALIGN4 size ≠ 0 ∧ s'.mem = s.mem ∧ s'.num_mallocs = s.num_mallocs + 1 ∧
    s'.num_frees = s.num_frees ∧
    ((∃ b, s.blocks[p]? = some b ∧ b.free = true ∧ ALIGN4 size ≤ b.size ∧
        s'.blocks = s.blocks.set p { b with free := false } ∧
        s'.heapList = s.heapList ∧
        s'.num_reuses = s.num_reuses + 1 ∧ s'.num_grows = s.num_grows) ∨
     (os = .grown ∧ p = s.blocks.length ∧
        s'.num_reuses = s.num_reuses ∧ s'.num_grows = s.num_grows + 1 ∧
        ∃ X : List Block, X.length = s.blocks.length ∧
          s'.blocks = X ++ [⟨ALIGN4 size, none, false⟩] ∧
          ∀ (j : Nat) (b : Block), s.blocks[j]? = some b →
            ∃ b' : Block, X[j]? = some b' ∧ b'.size = b.size ∧ b'.free = b.free)) := by
  obtain ⟨hb, hm, hh, hl, hnm, hnf, hnr, hng, hnb⟩ := recordRequest_frame s size
  by_cases hz : ALIGN4 size = 0
  · cases malloc_z_none _ _ _ _ _ _ hz h
  · rw [malloc_nz _ _ _ _ hz] at h
    unfold allocate at h
    cases hr : findFreeBlock pol (recordRequest s size) (recordRequest s size).heapList
        (ALIGN4 size) with
    | none => rw [hr] at h; cases h
    | some r =>
      rw [hr] at h
      simp only at h
      obtain ⟨fb, fm, fh, fnm, fnf, fnr, fng, ffit, _⟩ := findFreeBlock_spec _ _ _ _ _ hr
      cases hc : r.curr with
      | none =>
        rw [hc] at h
        simp only at h
        -- heap growth
        cases os with
        | denied => simp [growHeap] at h
        | dead => simp [growHeap] at h
        | grown =>
          simp only [growHeap] at h
          by_cases hfit : headerFits (ALIGN4 size)
          swap
          · rw [if_neg hfit] at h; cases h
          rw [if_pos hfit] at h
          cases hlast : r.last with
          | none =>
            rw [hlast] at h
            simp only at h
            simp only [markUsed, List.length_append, List.length_singleton] at h
            rw [List.getElem?_append_right (le_refl _)] at h
            simp only [Nat.sub_self, List.getElem?_cons_zero, BLOCK_DATA] at h
            simp only [Outcome.ret.injEq, Option.some.injEq] at h
            obtain ⟨hp, hs⟩ := h
            subst hs
            simp only [List.set_append_right _ _ (le_refl _), Nat.sub_self, List.set_cons_zero]
            refine ⟨hz, by rw [fm, hm], by rw [fnm, hnm], by rw [fnf, hnf], Or.inr ⟨trivial, ?_, ?_, ?_, ?_⟩⟩
            · rw [← hp, fb, hb]
            · rw [fnr, hnr]
            · rw [fng, hng]
            · refine ⟨r.st.blocks, by rw [fb, hb], rfl, ?_⟩
              intro j b hj
              exact ⟨b, by rw [fb, hb]; exact hj, rfl, rfl⟩
          | some l =>
            rw [hlast] at h
            simp only at h
            cases hbl : r.st.blocks[l]? with
            | none => rw [hbl] at h; cases h
            | some bl =>
              rw [hbl] at h
              simp only [markUsed] at h
              have hlen : (r.st.blocks.set l { bl with next := some r.st.blocks.length }).length
                  = r.st.blocks.length := by simp
              rw [List.getElem?_append_right (by rw [hlen])] at h
              simp only [hlen, Nat.sub_self, List.getElem?_cons_zero, BLOCK_DATA] at h
              simp only [Outcome.ret.injEq, Option.some.injEq] at h
              obtain ⟨hp, hs⟩ := h
              subst hs
              simp only [List.set_append_right _ _ (le_of_eq hlen), hlen, Nat.sub_self,
                List.set_cons_zero]
              refine ⟨hz, by rw [fm, hm], by rw [fnm, hnm], by rw [fnf, hnf],
                Or.inr ⟨trivial, ?_, ?_, ?_, ?_⟩⟩
              · rw [← hp, fb, hb]
              · rw [fnr, hnr]
              · rw [fng, hng]
              · refine ⟨_, by rw [hlen, fb, hb], rfl, ?_⟩
                intro j b hj
                rw [← hb, ← fb] at hj
                by_cases hjl : l = j
                · subst hjl
                  rw [hbl] at hj
                  cases hj
                  exact ⟨_, List.getElem?_set_self (getElem?_lt hbl), rfl, rfl⟩
                · exact ⟨b, by rw [List.getElem?_set_ne hjl]; exact hj, rfl, rfl⟩
      | some next =>
        rw [hc] at h
        simp only at h
        have hnext := hc
        -- reuse
        obtain ⟨b, hbk, hfree, hsz⟩ := ffit next hnext
        simp only [markUsed, BLOCK_DATA] at h
        rw [fb] at h
        rw [hb] at hbk
        rw [hb, hbk] at h
        simp only [Outcome.ret.injEq, Option.some.injEq] at h
        obtain ⟨hp, hs⟩ := h
        subst hs; subst hp
        refine ⟨hz, by simp [fm, hm], by simp [fnm, hnm], by simp [fnf, hnf],
          Or.inl ⟨b, hbk, hfree, hsz, rfl, by simp [fh, hh], by simp [fnr, hnr], by simp [fng, hng]⟩⟩

theorem firstFitLoop_counter (bs : List Block) (size : Nat) :
    ∀ (f : Nat) (c last : Option Nat) (nb nb' : Int) (r : Scan),
      firstFitLoop bs size f c last nb = some r →
      ∃ n, firstFitLoop bs size f c last nb' = some ⟨r.curr, r.last, n⟩ := by
  intro f
  induction f with
  | zero => intro c last nb nb' r h; simp [firstFitLoop] at h
  | succ f ih =>
    intro c last nb nb' r h
    cases c with
    | none =>
      simp only [firstFitLoop, Option.some.injEq] at h
      subst h
      exact ⟨nb', rfl⟩
    | some c =>
      simp only [firstFitLoop] at h ⊢
      cases hb : bs[c]? with
      | none => rw [hb] at h; cases h
      | some b =>
        rw [hb] at h
        simp only at h ⊢
        by_cases hfit : (b.free && decide (b.size ≥ size)) = true
        · rw [if_pos hfit] at h ⊢
          simp only [Option.some.injEq] at h
          subst h
          exact ⟨nb', rfl⟩
        · rw [if_neg hfit] at h ⊢
          exact ih _ _ _ _ _ h

theorem bestFitLoop_counter (bs : List Block) (size : Nat) :
    ∀ (f : Nat) (c last winner : Option Nat) (sr nb nb' : Int) (r : Scan),
      bestFitLoop bs size f c last winner sr nb = some r →
      ∃ n, bestFitLoop bs size f c last winner sr nb' = some ⟨r.curr, r.last, n⟩ := by
  intro f
  induction f with
  | zero => intro c last winner sr nb nb' r h; simp [bestFitLoop] at h
  | succ f ih =>
    intro c last winner sr nb nb' r h
    cases c with
    | none =>
      simp only [bestFitLoop, Option.some.injEq] at h
      subst h
      exact ⟨nb', rfl⟩
    | some c =>
      simp only [bestFitLoop] at h ⊢
      cases hb : bs[c]? with
      | none => rw [hb] at h; cases h
      | some b =>
        rw [hb] at h
        simp only at h ⊢
        exact ih _ _ _ _ _ _ _ h

theorem worstFitLoop_counter (bs : List Block) (size : Nat) :
    ∀ (f : Nat) (c last winner : Option Nat) (sr nb nb' : Int) (r : Scan),
      worstFitLoop bs size f c last winner sr nb = some r →
      ∃ n, worstFitLoop bs size f c last winner sr nb' = some ⟨r.curr, r.last, n⟩ := by
  intro f
  induction f with
  | zero => intro c last winner sr nb nb' r h; simp [worstFitLoop] at h
  | succ f ih =>
    intro c last winner sr nb nb' r h
    cases c with
    | none =>
      simp only [worstFitLoop, Option.some.injEq] at h
      subst h
      exact ⟨nb', rfl⟩
    | some c =>
      simp only [worstFitLoop] at h ⊢
      cases hb : bs[c]? with
      | none => rw [hb] at h; cases h
      | some b =>
        rw [hb] at h
        simp only at h ⊢
        exact ih _ _ _ _ _ _ _ h

/-- The search only reads the block table, the list head and, under next-fit,
the cursor: two states that agree on these give the same block. -/
theorem findFreeBlock_congr (pol : Policy) (s t : State) (last : Option Nat) (size : Nat)
    (r : Search) (h : findFreeBlock pol s last size = some r)
    (hb : t.blocks = s.blocks) (hh : t.heapList = s.heapList)
    (hn : pol = .NEXT → ∃ k, r.curr = some k ∧ t.lastList = some k) :
    ∃ r', findFreeBlock pol t last size = some r' ∧ r'.curr = r.curr ∧
      r'.st.blocks = t.blocks ∧ r'.st.num_reuses = t.num_reuses ∧
      r'.st.num_grows = t.num_grows := by
  cases pol with
  | FIT =>
    simp only [findFreeBlock] at h ⊢
    rw [hb, hh]
    cases h0 : firstFitLoop s.blocks size (s.blocks.length + 1) s.heapList last s.num_blocks with
    | none => rw [h0] at h; cases h
    | some r0 =>
      rw [h0] at h
      simp only [Option.some.injEq] at h
      subst h
      obtain ⟨n, hn⟩ := firstFitLoop_counter _ _ _ _ _ _ t.num_blocks _ h0
      rw [hn]
      exact ⟨_, rfl, rfl, rfl, rfl, rfl⟩
  | BEST =>
    simp only [findFreeBlock] at h ⊢
    rw [hb, hh]
    cases h0 : bestFitLoop s.blocks size (s.blocks.length + 1) s.heapList last none INT_MAX
        s.num_blocks with
    | none => rw [h0] at h; cases h
    | some r0 =>
      rw [h0] at h
      simp only [Option.some.injEq] at h
      subst h
      obtain ⟨n, hn⟩ := bestFitLoop_counter _ _ _ _ _ _ _ _ t.num_blocks _ h0
      rw [hn]
      exact ⟨_, rfl, rfl, rfl, rfl, rfl⟩
  | WORST =>
    simp only [findFreeBlock] at h ⊢
    rw [hb, hh]
    cases h0 : worstFitLoop s.blocks size (s.blocks.length + 1) s.heapList last none INT_MIN
        s.num_blocks with
    | none => rw [h0] at h; cases h
    | some r0 =>
      rw [h0] at h
      simp only [Option.some.injEq] at h
      subst h
      obtain ⟨n, hn⟩ := worstFitLoop_counter _ _ _ _ _ _ _ _ t.num_blocks _ h0
      rw [hn]
      exact ⟨_, rfl, rfl, rfl, rfl, rfl⟩
  | NEXT =>
    obtain ⟨k, hk, hcur⟩ := hn rfl
    obtain ⟨_, _, _, _, _, _, _, hfit, _⟩ := findFreeBlock_spec _ _ _ _ _ h
    obtain ⟨b, hbk, hfree, hsz⟩ := hfit k hk
    simp only [findFreeBlock] at h ⊢
    rw [hb, hh, hcur]
    cases h0 : nextFitHeadLoop s.blocks size (s.blocks.length + 1) s.heapList last with
    | none => rw [h0] at h; cases h
    | some r0 =>
      obtain ⟨c1, l1⟩ := r0
      simp only [nextFitCursorLoop, hbk, hfree, hsz, ge_iff_le, decide_True, Bool.and_self,
        if_true]
      exact ⟨_, rfl, hk.symm, rfl, rfl, rfl⟩

/-- Inversion of a successful `malloc`: the search ended, and the block comes
either from the search or from `growHeap`. -/
theorem malloc_inv (pol : Policy) (os : Sbrk) (s s' : State) (size p : Nat)
    (h : malloc pol os s size = .ret (some p) s') :
    ALIGN4 size ≠ 0 ∧
    ∃ r, findFreeBlock pol (recordRequest s size) (recordRequest s size).heapList
        (ALIGN4 size) = some r ∧
      ((∃ k, r.curr = some k ∧
          markUsed { r.st with num_reuses := r.st.num_reuses + 1 } k = .ret (some p) s') ∨
       (r.curr = none ∧ os = .grown ∧ ∃ s2 k,
          growHeap .grown r.st r.last (ALIGN4 size) = .ret (some k) s2 ∧
          markUsed s2 k = .ret (some p) s')) := by
  by_cases hz : ALIGN4 size = 0
  · cases malloc_z_none _ _ _ _ _ _ hz h
  · rw [malloc_nz _ _ _ _ hz] at h
    unfold allocate at h
    refine ⟨hz, ?_⟩
    cases hr : findFreeBlock pol (recordRequest s size) (recordRequest s size).heapList
        (ALIGN4 size) with
    | none => rw [hr] at h; cases h
    | some r =>
      rw [hr] at h
      simp only at h
      refine ⟨r, rfl, ?_⟩
      cases hc : r.curr with
      | some k =>
        rw [hc] at h
        exact Or.inl ⟨k, rfl, h⟩
      | none =>
        rw [hc] at h
        simp only at h
        cases os with
        | denied => simp [growHeap] at h
        | dead => simp [growHeap] at h
        | grown =>
          cases hg : growHeap Sbrk.grown r.st r.last (ALIGN4 size) with
          | stuck => rw [hg] at h; cases h
          | abort s2 => rw [hg] at h; cases h
          | ret v s2 =>
            rw [hg] at h
            cases v with
            | none => cases h
            | some k => exact Or.inr ⟨rfl, rfl, s2, k, rfl, h⟩

/-- A `malloc` whose search finds block `k` hands out block `k`. -/
theorem malloc_of_found (pol : Policy) (os : Sbrk) (s : State) (size k : Nat) (r : Search)
    (hz : ALIGN4 size ≠ 0)
    (hr : findFreeBlock pol (recordRequest s size) (recordRequest s size).heapList
        (ALIGN4 size) = some r)
    (hk : r.curr = some k) :
    malloc pol os s size = markUsed { r.st with num_reuses := r.st.num_reuses + 1 } k := by
  rw [malloc_nz _ _ _ _ hz]
  unfold allocate
  rw [hr]
  simp only
  rw [hk]

theorem firstFitLoop_grown (bs : List Block) (size : Nat) :
    ∀ (f : Nat) (c last : Option Nat) (nb : Int) (r : Scan),
      firstFitLoop bs size f c last nb = some r → r.curr = none →
      (c = none ∧ r.last = last) ∨
      (∃ l bl, c ≠ none ∧ r.last = some l ∧ bs[l]? = some bl ∧ bl.next = none ∧
        ∀ fresh : Block, fresh.free = true → size ≤ fresh.size →
          ∃ n, firstFitLoop (bs.set l { bl with next := some bs.length } ++ [fresh]) size
            (f + 1) c last nb = some ⟨some bs.length, some l, n⟩) := by
  intro f
  induction f with
  | zero => intro c last nb r h; simp [firstFitLoop] at h
  | succ f ih =>
    intro c last nb r h hnone
    cases c with
    | none =>
      simp only [firstFitLoop, Option.some.injEq] at h
      subst h
      exact Or.inl ⟨rfl, rfl⟩
    | some k =>
      right
      simp only [firstFitLoop] at h
      cases hb : bs[k]? with
      | none => rw [hb] at h; cases h
      | some b =>
        rw [hb] at h
        simp only at h
        have hklt : k < bs.length := getElem?_lt hb
        by_cases hfit : (b.free && decide (b.size ≥ size)) = true
        · rw [if_pos hfit] at h
          simp only [Option.some.injEq] at h
          subst h
          cases hnone
        · rw [if_neg hfit] at h
          rcases ih _ _ _ _ h hnone with ⟨hn, hl⟩ | ⟨l, bl, hne, hl, hbl, hnx, hext⟩
          · -- `k` is the tail
            refine ⟨k, b, by simp, hl, hb, hn, ?_⟩
            intro fresh hfree hsz
            have hlen : (bs.set k { b with next := some bs.length }).length = bs.length := by
              simp
            have e1 : (bs.set k { b with next := some bs.length } ++ [fresh])[k]?
                = some { b with next := some bs.length } := by
              rw [List.getElem?_append_left (by rw [hlen]; exact hklt)]
              exact List.getElem?_set_self hklt
            have e2 : (bs.set k { b with next := some bs.length } ++ [fresh])[bs.length]?
                = some fresh := by
              rw [List.getElem?_append_right (by rw [hlen])]
              simp [hlen]
            cases f with
            | zero => simp [firstFitLoop] at h
            | succ f =>
              refine ⟨if b.free then nb + 1 else nb, ?_⟩
              simp only [firstFitLoop, e1, e2, hfit, hfree, hsz, ge_iff_le, decide_True,
                Bool.and_self, if_true, if_false, Bool.false_eq_true, reduceIte]
          · refine ⟨l, bl, by simp, hl, hbl, hnx, ?_⟩
            intro fresh hfree hsz
            obtain ⟨n, hn⟩ := hext fresh hfree hsz
            have hkl : l ≠ k := by
              intro e
              subst e
              rw [hb] at hbl
              cases hbl
              exact hne hnx
            have hlen : (bs.set l { bl with next := some bs.length }).length = bs.length := by
              simp
            have e1 : (bs.set l { bl with next := some bs.length } ++ [fresh])[k]? = some b := by
              rw [List.getElem?_append_left (by rw [hlen]; exact hklt)]
              rw [List.getElem?_set_ne hkl]
              exact hb
            refine ⟨n, ?_⟩
            rw [← hn]
            conv_lhs => unfold firstFitLoop
            simp only [e1, hfit, if_false, Bool.false_eq_true, reduceIte]

theorem markUsed_eq (s : State) (n : Nat) (b : Block) (hb : s.blocks[n]? = some b) :
    markUsed s n = .ret (some n)
      { s with blocks := s.blocks.set n { b with free := false },
               num_mallocs := s.num_mallocs + 1 } := by
  simp [markUsed, hb]

theorem free_eq (s : State) (p : Nat) (b : Block) (hb : s.blocks[p]? = some b)
    (hf : b.free = false) :
    free s (some p) = .ret ()
      { s with blocks := s.blocks.set p { b with free := true },
               num_frees := s.num_frees + 1 } := by
  simp [free, hb, hf]

theorem free_abort (s : State) (p : Nat) (b : Block) (hb : s.blocks[p]? = some b)
    (hf : b.free = true) : free s (some p) = .abort s := by
  simp [free, hb, hf]

theorem growHeap_grown_none (s : State) (size : Nat) (hfit : headerFits size) :
    growHeap .grown s none size = .ret (some s.blocks.length)
      { s with blocks := s.blocks ++ [⟨size, none, false⟩],
               heapList := (match s.heapList with
                 | none => some s.blocks.length
                 | some h => some h),
               num_grows := s.num_grows + 1 } := by
  simp only [growHeap]
  rw [if_pos hfit]

theorem growHeap_grown_some (s : State) (size l : Nat) (bl : Block)
    (hl : s.blocks[l]? = some bl) (hfit : headerFits size) :
    growHeap .grown s (some l) size = .ret (some s.blocks.length)
      { s with blocks := s.blocks.set l { bl with next := some s.blocks.length }
                 ++ [⟨size, none, false⟩],
               heapList := (match s.heapList with
                 | none => some s.blocks.length
                 | some h => some h),
               num_grows := s.num_grows + 1 } := by
  simp only [growHeap]
  rw [if_pos hfit]
  simp only [hl]

/-- A header is only written where its fields lie inside the reserved memory. -/
theorem growHeap_grown_fits (s s' : State) (last : Option Nat) (size : Nat) (v : Option Nat)
    (h : growHeap .grown s last size = .ret v s') : headerFits size := by
  by_contra hfit
  simp only [growHeap] at h
  rw [if_neg hfit] at h
  cases h

theorem growHeap_grown_inv (s s' : State) (last : Option Nat) (size k : Nat)
    (h : growHeap .grown s last size = .ret (some k) s') :
    k = s.blocks.length ∧ ∃ X : List Block, X.length = s.blocks.length ∧
      s' = { s with blocks := X ++ [⟨size, none, false⟩],
                    heapList := (match s.heapList with
                      | none => some s.blocks.length
                      | some h => some h),
                    num_grows := s.num_grows + 1 } ∧
      ((last = none ∧ X = s.blocks) ∨
       (∃ l bl, last = some l ∧ s.blocks[l]? = some bl ∧
          X = s.blocks.set l { bl with next := some s.blocks.length })) := by
  have hfit := growHeap_grown_fits _ _ _ _ _ h
  cases last with
  | none =>
    rw [growHeap_grown_none _ _ hfit] at h
    simp only [Outcome.ret.injEq, Option.some.injEq] at h
    exact ⟨h.1.symm, s.blocks, rfl, h.2.symm, Or.inl ⟨rfl, rfl⟩⟩
  | some l =>
    cases hl : s.blocks[l]? with
    | none =>
      simp only [growHeap] at h
      rw [if_pos hfit] at h
      simp [hl] at h
    | some bl =>
      rw [growHeap_grown_some _ _ _ _ hl hfit] at h
      simp only [Outcome.ret.injEq, Option.some.injEq] at h
      exact ⟨h.1.symm, _, by simp, h.2.symm, Or.inr ⟨l, bl, rfl, hl, rfl⟩⟩

theorem findFreeBlock_FIT_of_loop (t : State) (last l : Option Nat) (size k : Nat)
    (nb n : Int)
    (h : firstFitLoop t.blocks size (t.blocks.length + 1) t.heapList last nb
      = some ⟨some k, l, n⟩) :
    ∃ r, findFreeBlock .FIT t last size = some r ∧ r.curr = some k ∧
      r.st.blocks = t.blocks ∧ r.st.num_reuses = t.num_reuses ∧
      r.st.num_grows = t.num_grows := by
  obtain ⟨m, hm⟩ := firstFitLoop_counter _ _ _ _ _ _ t.num_blocks _ h
  simp only [findFreeBlock, hm]
  exact ⟨_, rfl, rfl, rfl, rfl, rfl⟩

/-- The block that `malloc` hands out is marked allocated and is large enough. -/
theorem malloc_block (pol : Policy) (os : Sbrk) (s s' : State) (size p : Nat)
    (h : malloc pol os s size = .ret (some p) s') :
    ∃ b, s'.blocks[p]? = some b ∧ b.free = false ∧ ALIGN4 size ≤ b.size := by
  obtain ⟨_, _, _, _, hc⟩ := malloc_ret_some _ _ _ _ _ _ h
  rcases hc with ⟨b, hb, _, hsz, hs', _⟩ | ⟨_, hp, _, _, X, hX, hs', _⟩
  · refine ⟨{ b with free := false }, ?_, rfl, hsz⟩
    rw [hs']
    exact List.getElem?_set_self (getElem?_lt hb)
  · refine ⟨⟨ALIGN4 size, none, false⟩, ?_, rfl, le_refl _⟩
    rw [hs', hp, ← hX, List.getElem?_append_right (le_refl _)]
    simp

theorem recordRequest_stdout (s : State) (size : Nat) :
    (recordRequest s size).stdout = s.stdout := by
  unfold recordRequest
  simp only
  split <;> rfl

/-- When `stdout` writes through, a request that aligns to 0 ends right after
the statistics prologue. -/
theorem malloc_zero_eq (pol : Policy) (os : Sbrk) (s : State) (size : Nat)
    (hz : ALIGN4 size = 0) (hout : s.stdout = .unbuffered) :
    malloc pol os s size = .ret none (recordRequest s size) := by
  have h1 : printf pol os (recordRequest s size) = .ret () (recordRequest s size) := by
    unfold printf
    rw [recordRequest_stdout, hout]
  rw [malloc_z _ _ _ _ hz, h1]

/-- After a first-fit `malloc`, or a `malloc` under any policy that reused a
block, freeing the block and repeating the request reuses the same block. -/
theorem malloc_free_malloc_same (pol : Policy) (os os' : Sbrk) (s s1 : State) (x p : Nat)
    (h1 : malloc pol os s x = .ret (some p) s1)
    (hcase : pol = .FIT ∨ p < s.blocks.length) :
    ∃ s2 s3, free s1 (some p) = .ret () s2 ∧ malloc pol os' s2 x = .ret (some p) s3 ∧
      s3.num_reuses = s2.num_reuses + 1 ∧ s3.num_grows = s2.num_grows := by
  obtain ⟨hz, r, hr, hcases⟩ := malloc_inv _ _ _ _ _ _ h1
  obtain ⟨hb0, hm0, hh0, hl0, hnm0, hnf0, hnr0, hng0, hnb0⟩ := recordRequest_frame s x
  obtain ⟨fb, fm, fh, fnm, fnf, fnr, fng, ffit, fnext⟩ := findFreeBlock_spec _ _ _ _ _ hr
  rcases hcases with ⟨k, hk, hmark⟩ | ⟨hnone, hos, s2a, k, hgrow, hmark⟩
  · -- the first call reused block `k`
    obtain ⟨b, hbk, hfree, hsz⟩ := ffit k hk
    rw [hb0] at hbk
    rw [markUsed_eq _ k b (by simp only [fb, hb0]; exact hbk)] at hmark
    simp only [Outcome.ret.injEq, Option.some.injEq] at hmark
    obtain ⟨hkp, hs1⟩ := hmark
    subst hkp
    have hklt : k < s.blocks.length := getElem?_lt hbk
    have hs1b : s1.blocks = s.blocks.set k { b with free := false } := by
      rw [← hs1]; simp only [fb, hb0]
    have hs1k : s1.blocks[k]? = some { b with free := false } := by
      rw [hs1b]; exact List.getElem?_set_self hklt
    have hs1l : pol = .NEXT → s1.lastList = some k := by
      intro hp
      rw [← hs1]
      simp only [fnext hp, hk]
    have hs1h : s1.heapList = s.heapList := by
      rw [← hs1]; simp only [fh, hh0]
    have hbb : ({ b with free := true } : Block) = b := by
      cases b; simp only [Block.mk.injEq, true_and]; exact hfree.symm
    rw [free_eq s1 k _ hs1k rfl]
    generalize hs2 : ({ s1 with blocks := s1.blocks.set k { b with free := true },
                                num_frees := s1.num_frees + 1 } : State) = s2
    have hs2b : s2.blocks = s.blocks := by
      rw [← hs2]
      simp only [hs1b, List.set_set]
      rw [hbb]
      exact set_self _ _ _ hbk
    have hs2h : s2.heapList = s.heapList := by rw [← hs2]; exact hs1h
    have hs2l : pol = .NEXT → s2.lastList = some k := by rw [← hs2]; exact hs1l
    obtain ⟨tb, _, th, tl, _, _, tnr, tng, _⟩ := recordRequest_frame s2 x
    obtain ⟨r', hr', hcur', hb', hre', hg'⟩ := findFreeBlock_congr pol (recordRequest s x)
      (recordRequest s2 x) (recordRequest s x).heapList (ALIGN4 x) r hr
      (by rw [tb, hs2b, hb0]) (by rw [th, hs2h, hh0])
      (fun hp => ⟨k, hk, by rw [tl]; exact hs2l hp⟩)
    have hheads : (recordRequest s x).heapList = (recordRequest s2 x).heapList := by
      rw [th, hs2h, hh0]
    rw [hheads] at hr'
    have hm2 := malloc_of_found pol os' s2 x k r' hz hr' (hcur'.trans hk)
    rw [markUsed_eq _ k b (by simp only [hb', tb, hs2b]; exact hbk)] at hm2
    exact ⟨s2, _, rfl, hm2, by simp only [hre', tnr], by simp only [hg', tng]⟩
  · -- the first call grew the heap: only first-fit is claimed
    obtain ⟨hklen, X, hXlen, hs2a, hX⟩ := growHeap_grown_inv _ _ _ _ _ hgrow
    have hXk : (X ++ [(⟨ALIGN4 x, none, false⟩ : Block)])[k]? = some ⟨ALIGN4 x, none, false⟩ := by
      rw [hklen, ← hXlen, List.getElem?_append_right (le_refl _)]
      simp
    rw [markUsed_eq s2a k ⟨ALIGN4 x, none, false⟩ (by rw [hs2a]; exact hXk)] at hmark
    simp only [Outcome.ret.injEq, Option.some.injEq] at hmark
    obtain ⟨hkp, hs1⟩ := hmark
    subst hkp
    have hpol : pol = .FIT := by
      rcases hcase with hp | hp
      · exact hp
      · rw [fb, hb0] at hklen; omega
    subst hpol
    have hs1b : s1.blocks = X ++ [⟨ALIGN4 x, none, false⟩] := by
      rw [← hs1, hs2a]
      simp only
      rw [hklen, ← hXlen, List.set_append_right _ _ (le_refl _)]
      simp
    have hs1k : s1.blocks[k]? = some ⟨ALIGN4 x, none, false⟩ := by rw [hs1b]; exact hXk
    rw [free_eq s1 k _ hs1k rfl]
    generalize hs2 : ({ s1 with blocks := s1.blocks.set k
                                  { (⟨ALIGN4 x, none, false⟩ : Block) with free := true },
                                num_frees := s1.num_frees + 1 } : State) = s2
    have hs2b : s2.blocks = X ++ [⟨ALIGN4 x, none, true⟩] := by
      rw [← hs2]
      simp only [hs1b]
      rw [hklen, ← hXlen, List.set_append_right _ _ (le_refl _)]
      simp
    have hs2h : s2.heapList = (match s.heapList with
        | none => some s.blocks.length
        | some h => some h) := by
      rw [← hs2, ← hs1, hs2a]
      simp only [fh, hh0, fb, hb0]
    obtain ⟨tb, _, th, tl, _, _, tnr, tng, _⟩ := recordRequest_frame s2 x
    -- the first search, spelled out
    simp only [findFreeBlock] at hr
    cases h0 : firstFitLoop (recordRequest s x).blocks (ALIGN4 x)
        ((recordRequest s x).blocks.length + 1) (recordRequest s x).heapList
        (recordRequest s x).heapList (recordRequest s x).num_blocks with
    | none => rw [h0] at hr; cases hr
    | some r0 =>
      rw [h0] at hr
      simp only [Option.some.injEq] at hr
      subst hr
      simp only at hnone hX fb
      rw [hb0, hh0, hnb0] at h0
      rw [hb0] at hX hXlen hklen
      have hloop : ∃ l n, firstFitLoop (recordRequest s2 x).blocks (ALIGN4 x)
          ((recordRequest s2 x).blocks.length + 1) (recordRequest s2 x).heapList
          (recordRequest s2 x).heapList s.num_blocks = some ⟨some k, l, n⟩ := by
        rw [tb, th, hs2b, hs2h]
        rcases firstFitLoop_grown _ _ _ _ _ _ _ h0 hnone with ⟨hhn, hl⟩ | ⟨l, bl, hne, hl, hbl, _, hext⟩
        · -- the list was empty: the new block is the head
          rw [hhn]
          simp only [List.length_append, List.length_singleton, hXlen]
          have e : (X ++ [(⟨ALIGN4 x, none, true⟩ : Block)])[s.blocks.length]?
              = some ⟨ALIGN4 x, none, true⟩ := by
            rw [← hXlen, List.getElem?_append_right (le_refl _)]
            simp
          refine ⟨some s.blocks.length, s.num_blocks, ?_⟩
          simp only [firstFitLoop, e, hklen, ge_iff_le, le_refl, decide_True, Bool.and_self,
            if_true]
        · -- the new block hangs behind the old tail `l`
          have hXeq : X = s.blocks.set l { bl with next := some s.blocks.length } := by
            rcases hX with ⟨hX1, _⟩ | ⟨l', bl', hX1, hX2, hX3⟩
            · rw [hl] at hX1; cases hX1
            · rw [hl] at hX1
              simp only [Option.some.injEq] at hX1
              subst hX1
              rw [hbl] at hX2
              simp only [Option.some.injEq] at hX2
              subst hX2
              exact hX3
          obtain ⟨n, hn⟩ := hext ⟨ALIGN4 x, none, true⟩ rfl (le_refl _)
          have hhead : (match s.heapList with
              | none => some s.blocks.length
              | some h => some h) = s.heapList := by
            cases hh : s.heapList with
            | none => exact absurd hh hne
            | some h => rfl
          rw [hhead]
          simp only [List.length_append, List.length_singleton, hXlen]
          rw [hXeq, hklen]
          exact ⟨_, _, hn⟩
      obtain ⟨l, n, hloop⟩ := hloop
      obtain ⟨r', hr', hcur', hb', hre', hg'⟩ := findFreeBlock_FIT_of_loop _ _ _ _ _ _ _ hloop
      have hm2 := malloc_of_found .FIT os' s2 x k r' hz hr' hcur'
      rw [markUsed_eq _ k ⟨ALIGN4 x, none, true⟩
        (by simp only [hb', tb, hs2b]; rw [hklen, ← hXlen, List.getElem?_append_right (le_refl _)]; simp)] at hm2
      exact ⟨s2, _, rfl, hm2, by simp only [hre', tnr], by simp only [hg', tng]⟩

theorem LinearLinks.next_eq {bs : List Block} (h : LinearLinks bs) {i : Nat} {b : Block}
    (hb : bs[i]? = some b) :
    b.next = if i + 1 < bs.length then some (i + 1) else none := by
  have := h i (getElem?_lt hb)
  rw [hb] at this
  simpa using this

theorem nextFitHeadLoop_found (bs : List Block) (size : Nat) :
    ∀ (f : Nat) (c last : Option Nat) (r : Option Nat × Option Nat),
      nextFitHeadLoop bs size f c last = some r → ∀ k, r.1 = some k → Fits bs size k := by
  intro f
  induction f with
  | zero => intro c last r h; simp [nextFitHeadLoop] at h
  | succ f ih =>
    intro c last r h k hk
    cases c with
    | none =>
      simp only [nextFitHeadLoop, Option.some.injEq] at h
      subst h; simp at hk
    | some c =>
      simp only [nextFitHeadLoop] at h
      cases hb : bs[c]? with
      | none => rw [hb] at h; cases h
      | some b =>
        rw [hb] at h
        simp only at h
        by_cases hfit : (decide (b.size ≥ size) && b.free) = true
        · rw [if_pos hfit] at h
          simp only [Option.some.injEq] at h
          subst h
          simp only [Option.some.injEq] at hk
          subst hk
          simp only [Bool.and_eq_true, decide_eq_true_eq] at hfit
          exact ⟨b, hb, hfit.2, hfit.1⟩
        · rw [if_neg hfit] at h
          exact ih _ _ _ h k hk

/-- On a linear table a head scan that finds nothing ends with `*last` at the
tail. -/
theorem nextFitHeadLoop_tail (bs : List Block) (size : Nat) (hl : LinearLinks bs) :
    ∀ (f c : Nat) (last : Option Nat) (r : Option Nat × Option Nat),
      nextFitHeadLoop bs size f (some c) last = some r → r.1 = none →
      r.2 = some (bs.length - 1) := by
  intro f
  induction f with
  | zero => intro c last r h; simp [nextFitHeadLoop] at h
  | succ f ih =>
    intro c last r h hnone
    simp only [nextFitHeadLoop] at h
    cases hb : bs[c]? with
    | none => rw [hb] at h; cases h
    | some b =>
      rw [hb] at h
      simp only at h
      have hc : c < bs.length := getElem?_lt hb
      by_cases hfit : (decide (b.size ≥ size) && b.free) = true
      · rw [if_pos hfit] at h
        simp only [Option.some.injEq] at h
        subst h
        cases hnone
      · rw [if_neg hfit, hl.next_eq hb] at h
        by_cases hn : c + 1 < bs.length
        · rw [if_pos hn] at h
          exact ih _ _ _ h hnone
        · rw [if_neg hn] at h
          cases f with
          | zero => simp [nextFitHeadLoop] at h
          | succ f =>
            simp only [nextFitHeadLoop, Option.some.injEq] at h
            subst h
            simp only [Option.some.injEq]
            omega

/-- On a linear table a cursor scan that finds nothing ends with `*last` at the
tail. -/
theorem nextFitCursorLoop_tail (bs : List Block) (size : Nat) (hl : LinearLinks bs) :
    ∀ (f c : Nat) (last : Option Nat) (nb : Int) (r : Scan),
      nextFitCursorLoop bs size f (some c) last nb = some r → r.curr = none →
      r.last = some (bs.length - 1) := by
  intro f
  induction f with
  | zero => intro c last nb r h; simp [nextFitCursorLoop] at h
  | succ f ih =>
    intro c last nb r h hnone
    simp only [nextFitCursorLoop] at h
    cases hb : bs[c]? with
    | none => rw [hb] at h; cases h
    | some b =>
      rw [hb] at h
      simp only at h
      have hc : c < bs.length := getElem?_lt hb
      by_cases hfit : (decide (b.size ≥ size) && b.free) = true
      · rw [if_pos hfit] at h
        simp only [Option.some.injEq] at h
        subst h
        cases hnone
      · rw [if_neg hfit, hl.next_eq hb] at h
        by_cases hn : c + 1 < bs.length
        · rw [if_pos hn] at h
          exact ih _ _ _ _ h hnone
        · rw [if_neg hn] at h
          cases f with
          | zero => simp [nextFitCursorLoop] at h
          | succ f =>
            simp only [nextFitCursorLoop, Option.some.injEq] at h
            subst h
            simp only [Option.some.injEq]
            omega

/-- Under next-fit, on a linear heap, a search without match hands the tail of
the list to `growHeap`, and leaves the cursor at `NULL`. -/
theorem findFreeBlock_NEXT_tail (s : State) (size : Nat) (r : Search) (hlin : s.Linear)
    (h : findFreeBlock .NEXT s s.heapList size = some r) (hnone : r.curr = none) :
    r.last = tailOf s.blocks ∧ r.st.lastList = none := by
  obtain ⟨hh, hl, hc⟩ := hlin
  simp only [findFreeBlock] at h
  cases h1 : nextFitHeadLoop s.blocks size (s.blocks.length + 1) s.heapList s.heapList with
  | none => rw [h1] at h; cases h
  | some r1 =>
    obtain ⟨curr1, last1⟩ := r1
    rw [h1] at h
    simp only at h
    cases hcur : s.lastList with
    | some c =>
      rw [hcur] at h
      simp only at h
      cases h2 : nextFitCursorLoop s.blocks size (s.blocks.length + 1) (some c) last1
          s.num_blocks with
      | none => rw [h2] at h; cases h
      | some r2 =>
        rw [h2] at h
        simp only [Option.some.injEq] at h
        subst h
        simp only at hnone ⊢
        have hlast := nextFitCursorLoop_tail _ _ hl _ _ _ _ _ h2 hnone
        rw [hcur] at hc
        simp only [Option.all_some, decide_eq_true_eq] at hc
        refine ⟨?_, hnone⟩
        rw [hlast, tailOf, if_neg (by omega)]
    | none =>
      rw [hcur] at h
      simp only at h
      cases h2 : nextFitCursorLoop s.blocks size (s.blocks.length + 1) curr1 last1
          s.num_blocks with
      | none => rw [h2] at h; cases h
      | some r2 =>
        rw [h2] at h
        simp only [Option.some.injEq] at h
        subst h
        simp only at hnone ⊢
        refine ⟨?_, hnone⟩
        cases hc1 : curr1 with
        | some k =>
          -- the head scan found `k`, so the cursor scan returns it: no match is impossible
          exfalso
          obtain ⟨b, hb, hfree, hsz⟩ := nextFitHeadLoop_found _ _ _ _ _ _ h1 k hc1
          rw [hc1] at h2
          simp only [nextFitCursorLoop, hb, hfree, hsz, ge_iff_le, decide_True, Bool.and_self,
            if_true, Option.some.injEq] at h2
          rw [← h2] at hnone
          cases hnone
        | none =>
          rw [hc1] at h2
          simp only [nextFitCursorLoop, Option.some.injEq] at h2
          rw [← h2]
          simp only
          by_cases hlen : s.blocks.length = 0
          · rw [hh, if_pos hlen] at h1
            simp only [nextFitHeadLoop, Option.some.injEq, Prod.mk.injEq] at h1
            rw [← h1.2, tailOf, if_pos hlen]
          · rw [hh, if_neg hlen] at h1
            have := nextFitHeadLoop_tail _ _ hl _ _ _ _ h1 hc1
            simp only at this
            rw [this, tailOf, if_neg hlen]

theorem LinearLinks.set_free {bs : List Block} (hl : LinearLinks bs) (k : Nat) (b : Block)
    (v : Bool) (hb : bs[k]? = some b) : LinearLinks (bs.set k { b with free := v }) := by
  intro i hi
  simp only [List.length_set] at hi ⊢
  have := hl i hi
  by_cases hik : k = i
  · subst hik
    rw [List.getElem?_set_self hi]
    rw [hb] at this
    simpa using this
  · rw [List.getElem?_set_ne hik]
    exact this

/-- Appending a header behind the tail keeps the table linear. -/
theorem LinearLinks.append {bs : List Block} (hl : LinearLinks bs) (X : List Block)
    (fresh : Block) (hfresh : fresh.next = none)
    (hX : (tailOf bs = none ∧ X = bs) ∨
      (∃ l bl, tailOf bs = some l ∧ bs[l]? = some bl ∧
        X = bs.set l { bl with next := some bs.length })) :
    LinearLinks (X ++ [fresh]) := by
  have hXlen : X.length = bs.length := by
    rcases hX with ⟨_, hX⟩ | ⟨l, bl, _, _, hX⟩
    · rw [hX]
    · rw [hX, List.length_set]
  intro i hi
  simp only [List.length_append, List.length_singleton, hXlen] at hi ⊢
  by_cases hlast : i = bs.length
  · subst hlast
    rw [← hXlen, List.getElem?_append_right (le_refl _)]
    simp [hfresh]
  · have hi' : i < bs.length := by omega
    rw [List.getElem?_append_left (by rw [hXlen]; exact hi')]
    have hold := hl i hi'
    rcases hX with ⟨ht, hX⟩ | ⟨l, bl, ht, hbl, hX⟩
    · -- an empty table has no such `i`
      simp only [tailOf] at ht
      split_ifs at ht
      omega
    · simp only [tailOf] at ht
      split_ifs at ht with h0
      simp only [Option.some.injEq] at ht
      rw [hX]
      by_cases hil : l = i
      · subst hil
        rw [List.getElem?_set_self hi']
        simp only [Option.some_bind]
        rw [if_pos (by omega)]
        congr 1
        omega
      · rw [List.getElem?_set_ne hil, hold]
        have : i + 1 < bs.length := by omega
        rw [if_pos this, if_pos (by omega)]

theorem free_linear (s s' : State) (ptr : Option Nat) (u : Unit) (hlin : s.Linear)
    (h : free s ptr = .ret u s') : s'.Linear := by
  cases ptr with
  | none =>
    simp only [free, Outcome.ret.injEq] at h
    rw [← h.2]; exact hlin
  | some p =>
    simp only [free, BLOCK_HEADER] at h
    cases hb : s.blocks[p]? with
    | none => rw [hb] at h; cases h
    | some b =>
      rw [hb] at h
      simp only at h
      by_cases hf : b.free = true
      · rw [if_pos hf] at h; cases h
      · rw [if_neg hf] at h
        simp only [Outcome.ret.injEq] at h
        obtain ⟨hh, hl, hc⟩ := hlin
        rw [← h.2]
        refine ⟨?_, hl.set_free p b true hb, ?_⟩
        · simp only [List.length_set]; exact hh
        · simp only [List.length_set]; exact hc

theorem scribble_eq (s s' : State) (b n : Nat) (h : scribble s b n = some s') :
    ∃ m, s' = { s with mem := m } := by
  unfold scribble at h
  cases hb : s.blocks[b]? with
  | none => rw [hb] at h; cases h
  | some d =>
    rw [hb] at h
    simp only at h
    split at h
    · simp only [Option.some.injEq] at h
      exact ⟨_, h.symm⟩
    · cases h

theorem memset_eq (s s' : State) (dst c n : Nat) (h : memset s dst c n = some s') :
    ∃ m, s' = { s with mem := m } := by
  unfold memset at h
  cases hb : s.blocks[dst]? with
  | none => rw [hb] at h; cases h
  | some d =>
    rw [hb] at h
    simp only at h
    split at h
    · simp only [Option.some.injEq] at h
      exact ⟨_, h.symm⟩
    · cases h

theorem memcpy_eq (s s' : State) (dst src n : Nat) (h : memcpy s dst src n = some s') :
    ∃ m, s' = { s with mem := m } := by
  unfold memcpy at h
  cases hd : s.blocks[dst]? with
  | none => rw [hd] at h; cases h
  | some d =>
    cases hb : s.blocks[src]? with
    | none => rw [hd, hb] at h; cases h
    | some b =>
      rw [hd, hb] at h
      simp only at h
      split at h
      · simp only [Option.some.injEq] at h
        exact ⟨_, h.symm⟩
      · cases h

/-- The ways in which the part of `malloc` below the zero-size test returns. -/
theorem allocate_cases (pol : Policy) (os : Sbrk) (s1 s' : State) (size : Nat)
    (v : Option Nat) (h : allocate pol os s1 size = .ret v s') :
    ∃ r, findFreeBlock pol s1 s1.heapList size = some r ∧
      ((∃ k, r.curr = some k ∧
          markUsed { r.st with num_reuses := r.st.num_reuses + 1 } k = .ret v s') ∨
       (r.curr = none ∧ os = .dead ∧ v = none ∧ s' = r.st) ∨
       (r.curr = none ∧ os = .grown ∧ ∃ s2 k,
          growHeap .grown r.st r.last size = .ret (some k) s2 ∧
          markUsed s2 k = .ret v s')) := by
  unfold allocate at h
  cases hr : findFreeBlock pol s1 s1.heapList size with
  | none => rw [hr] at h; cases h
  | some r =>
    rw [hr] at h
    simp only at h
    refine ⟨r, rfl, ?_⟩
    cases hc : r.curr with
    | some k =>
      rw [hc] at h
      exact Or.inl ⟨k, rfl, h⟩
    | none =>
      rw [hc] at h
      simp only at h
      cases os with
      | denied => simp [growHeap] at h
      | dead =>
        simp only [growHeap, Outcome.ret.injEq] at h
        exact Or.inr (Or.inl ⟨rfl, rfl, h.1.symm, h.2.symm⟩)
      | grown =>
        cases hg : growHeap Sbrk.grown r.st r.last size with
        | stuck => rw [hg] at h; cases h
        | abort s2 => rw [hg] at h; cases h
        | ret w s2 =>
          rw [hg] at h
          cases w with
          | none =>
            exfalso
            have hfit := growHeap_grown_fits _ _ _ _ _ hg
            cases hlast : r.last with
            | none => rw [hlast, growHeap_grown_none _ _ hfit] at hg; cases hg
            | some l =>
              rw [hlast] at hg
              cases hbl : r.st.blocks[l]? with
              | none =>
                simp only [growHeap] at hg
                rw [if_pos hfit] at hg
                simp [hbl] at hg
              | some bl => rw [growHeap_grown_some _ _ _ _ hbl hfit] at hg; cases hg
          | some k => exact Or.inr (Or.inr ⟨rfl, rfl, s2, k, rfl, h⟩)

/-- What `printf` leaves behind: the state it found, or the state after the
`malloc` call of the stream, in both cases up to payload bytes and the record
of the stream. -/
theorem printf_cases (pol : Policy) (os : Sbrk) (s s' : State) (u : Unit)
    (h : printf pol os s = .ret u s') :
    ∃ m o, s' = { s with mem := m, stdout := o } ∨
      ∃ n w s1, ALIGN4 n ≠ 0 ∧ malloc pol os s n = .ret w s1 ∧
        s' = { s1 with mem := m, stdout := o } := by
  unfold printf at h
  cases hout : s.stdout with
  | unbuffered =>
    rw [hout] at h
    simp only [Outcome.ret.injEq] at h
    refine ⟨s.mem, s.stdout, Or.inl ?_⟩
    rw [← h.2]
  | buffered b n =>
    rw [hout] at h
    simp only at h
    cases hs : scribble s b n with
    | none => rw [hs] at h; cases h
    | some s1 =>
      rw [hs] at h
      simp only [Outcome.ret.injEq] at h
      obtain ⟨m, hm⟩ := scribble_eq _ _ _ _ hs
      refine ⟨m, s.stdout, Or.inl ?_⟩
      rw [← h.2, hm]
  | fresh n =>
    rw [hout] at h
    simp only at h
    by_cases hz : ALIGN4 n = 0
    · rw [if_pos hz] at h; cases h
    · rw [if_neg hz] at h
      cases ha : allocate pol os (recordRequest s n) (ALIGN4 n) with
      | stuck => rw [ha] at h; cases h
      | abort s1 => rw [ha] at h; cases h
      | ret w s1 =>
        rw [ha] at h
        have hm : malloc pol os s n = .ret w s1 := by rw [malloc_nz _ _ _ _ hz]; exact ha
        cases w with
        | none =>
          simp only [Outcome.ret.injEq] at h
          refine ⟨s1.mem, .unbuffered, Or.inr ⟨n, none, s1, hz, hm, ?_⟩⟩
          rw [← h.2]
        | some b =>
          simp only at h
          cases hs : scribble { s1 with stdout := .buffered b n } b n with
          | none => rw [hs] at h; cases h
          | some s2 =>
            rw [hs] at h
            simp only [Outcome.ret.injEq] at h
            obtain ⟨m, hm2⟩ := scribble_eq _ _ _ _ hs
            refine ⟨m, .buffered b n, Or.inr ⟨n, some b, s1, hz, hm, ?_⟩⟩
            rw [← h.2, hm2]

/-- The ways in which `malloc` returns.  A request that aligns to 0 returns
`NULL` after the print, which leaves the state of the statistics prologue or
the state of the stream's own `malloc` call, up to payload bytes and the
record of the stream. -/
theorem malloc_cases (pol : Policy) (os : Sbrk) (s s' : State) (size : Nat) (v : Option Nat)
    (h : malloc pol os s size = .ret v s') :
    (ALIGN4 size = 0 ∧ v = none ∧
      ∃ m o, s' = { recordRequest s size with mem := m, stdout := o } ∨
        ∃ n w s1, ALIGN4 n ≠ 0 ∧ malloc pol os (recordRequest s size) n = .ret w s1 ∧
          s' = { s1 with mem := m, stdout := o }) ∨
    (ALIGN4 size ≠ 0 ∧
      ∃ r, findFreeBlock pol (recordRequest s size) (recordRequest s size).heapList
          (ALIGN4 size) = some r ∧
        ((∃ k, r.curr = some k ∧
            markUsed { r.st with num_reuses := r.st.num_reuses + 1 } k = .ret v s') ∨
         (r.curr = none ∧ os = .dead ∧ v = none ∧ s' = r.st) ∨
         (r.curr = none ∧ os = .grown ∧ ∃ s2 k,
            growHeap .grown r.st r.last (ALIGN4 size) = .ret (some k) s2 ∧
            markUsed s2 k = .ret v s'))) := by
  by_cases hz : ALIGN4 size = 0
  · refine Or.inl ⟨hz, malloc_z_none _ _ _ _ _ _ hz h, ?_⟩
    rw [malloc_z _ _ _ _ hz] at h
    cases hp : printf pol os (recordRequest s size) with
    | stuck => rw [hp] at h; cases h
    | abort s1 => rw [hp] at h; cases h
    | ret u s1 =>
      rw [hp] at h
      simp only [Outcome.ret.injEq] at h
      rw [← h.2]
      exact printf_cases _ _ _ _ _ hp
  · rw [malloc_nz _ _ _ _ hz] at h
    exact Or.inr ⟨hz, allocate_cases _ _ _ _ _ _ h⟩

theorem State.Linear.of_eq {s s' : State} (hlin : s.Linear) (hb : s'.blocks = s.blocks)
    (hh : s'.heapList = s.heapList) (hc : s'.lastList = s.lastList) : s'.Linear := by
  unfold State.Linear
  rw [hb, hh, hc]
  exact hlin

theorem markUsed_linear (s s' : State) (k : Nat) (v : Option Nat) (hlin : s.Linear)
    (h : markUsed s k = .ret v s') : s'.Linear := by
  simp only [markUsed] at h
  cases hb : s.blocks[k]? with
  | none => rw [hb] at h; cases h
  | some b =>
    rw [hb] at h
    simp only [Outcome.ret.injEq] at h
    obtain ⟨hh, hl, hc⟩ := hlin
    rw [← h.2]
    refine ⟨?_, hl.set_free k b false hb, ?_⟩
    · simp only [List.length_set]; exact hh
    · simp only [List.length_set]; exact hc

/-- Under next-fit `malloc` keeps the heap linear. -/
theorem malloc_linear_NEXT (os : Sbrk) (s s' : State) (size : Nat) (v : Option Nat)
    (hlin : s.Linear) (h : malloc .NEXT os s size = .ret v s') : s'.Linear := by
  have key : ∀ (s s' : State) (size : Nat) (v : Option Nat), ALIGN4 size ≠ 0 → s.Linear →
      malloc .NEXT os s size = .ret v s' → s'.Linear := by
    intro s s' size v hnz hlin h
    obtain ⟨hb0, _, hh0, hl0, _⟩ := recordRequest_frame s size
    have hlin0 : (recordRequest s size).Linear := hlin.of_eq hb0 hh0 hl0
    rcases malloc_cases _ _ _ _ _ _ h with ⟨hz0, _⟩ | ⟨_, r, hr, hcase⟩
    · exact absurd hz0 hnz
    · obtain ⟨fb, _, fh, _, _, _, _, ffit, fnext⟩ := findFreeBlock_spec _ _ _ _ _ hr
      have hrl : r.st.Linear := by
        obtain ⟨hh, hl, _⟩ := hlin0
        refine ⟨by rw [fh, fb]; exact hh, by rw [fb]; exact hl, ?_⟩
        rw [fnext rfl, fb]
        cases hc : r.curr with
        | none => rfl
        | some k =>
          obtain ⟨b, hbk, _, _⟩ := ffit k hc
          simp only [Option.all_some, decide_eq_true_eq]
          exact getElem?_lt hbk
      rcases hcase with ⟨k, _, hmark⟩ | ⟨_, _, _, hs'⟩ | ⟨hnone, _, s2, k, hgrow, hmark⟩
      · have hl' : ({ r.st with num_reuses := r.st.num_reuses + 1 } : State).Linear :=
          hrl.of_eq rfl rfl rfl
        exact markUsed_linear _ _ _ _ hl' hmark
      · rw [hs']; exact hrl
      · obtain ⟨htail, hcur⟩ := findFreeBlock_NEXT_tail _ _ _ hlin0 hr hnone
        obtain ⟨_, X, hXlen, hs2, hX⟩ := growHeap_grown_inv _ _ _ _ _ hgrow
        refine markUsed_linear _ _ _ _ ?_ hmark
        obtain ⟨hh, hl, _⟩ := hrl
        rw [hs2]
        refine ⟨?_, ?_, ?_⟩
        · simp only [List.length_append, List.length_singleton, hXlen]
          rw [if_neg (by omega), hh]
          by_cases hlen : r.st.blocks.length = 0
          · rw [if_pos hlen, hlen]
          · rw [if_neg hlen]
        · refine hl.append X _ rfl ?_
          rw [← fb] at htail
          rcases hX with ⟨hX1, hX2⟩ | ⟨l, bl, hX1, hX2, hX3⟩
          · exact Or.inl ⟨by rw [← htail]; exact hX1, hX2⟩
          · exact Or.inr ⟨l, bl, by rw [← htail]; exact hX1, hX2, hX3⟩
        · simp only [hcur]
          rfl
  obtain ⟨hb0, _, hh0, hl0, _⟩ := recordRequest_frame s size
  have hlin0 : (recordRequest s size).Linear := hlin.of_eq hb0 hh0 hl0
  rcases malloc_cases _ _ _ _ _ _ h with ⟨_, _, m, o, hq | ⟨n, w, s1, hn, hm, hs'⟩⟩ | ⟨hz, _⟩
  · rw [hq]; exact hlin0.of_eq rfl rfl rfl
  · rw [hs']; exact (key _ _ n w hn hlin0 hm).of_eq rfl rfl rfl
  · exact key s s' size v hz hlin h

theorem calloc_linear_NEXT (os : Sbrk) (s s' : State) (n size : Nat) (v : Option Nat)
    (hlin : s.Linear) (h : calloc .NEXT os s n size = .ret v s') : s'.Linear := by
  simp only [calloc] at h
  cases hm : malloc .NEXT os s (n * size % SIZE_MOD) with
  | stuck => rw [hm] at h; cases h
  | abort s1 => rw [hm] at h; cases h
  | ret w s1 =>
    rw [hm] at h
    simp only at h
    have h1 := malloc_linear_NEXT _ _ _ _ _ hlin hm
    by_cases hz : n * size % SIZE_MOD = 0
    · rw [if_pos hz] at h
      simp only [Outcome.ret.injEq] at h
      rw [← h.2]; exact h1
    · rw [if_neg hz] at h
      cases w with
      | none => cases h
      | some q =>
        simp only at h
        cases hms : memset s1 q 0 (n * size % SIZE_MOD) with
        | none => rw [hms] at h; cases h
        | some s2 =>
          rw [hms] at h
          simp only [Outcome.ret.injEq] at h
          obtain ⟨m, hm2⟩ := memset_eq _ _ _ _ _ hms
          rw [← h.2, hm2]
          exact h1.of_eq rfl rfl rfl

theorem realloc_linear_NEXT (os : Sbrk) (s s' : State) (ptr : Option Nat) (size : Nat)
    (v : Option Nat) (hlin : s.Linear) (h : realloc .NEXT os s ptr size = .ret v s') :
    s'.Linear := by
  cases ptr with
  | none =>
    simp only [realloc] at h
    exact malloc_linear_NEXT _ _ _ _ _ hlin h
  | some p =>
    simp only [realloc] at h
    cases hm : malloc .NEXT os s size with
    | stuck => rw [hm] at h; cases h
    | abort s1 => rw [hm] at h; cases h
    | ret w s1 =>
      rw [hm] at h
      simp only at h
      have h1 := malloc_linear_NEXT _ _ _ _ _ hlin hm
      have key : ∀ s2 : State, s2.Linear →
          (match free { s2 with num_reuses := s2.num_reuses + 1 } (some p) with
            | .stuck => Outcome.stuck
            | .abort s3 => .abort s3
            | .ret _ s3 => .ret w { s3 with num_frees := s3.num_frees + 1 }) = .ret v s' →
          s'.Linear := by
        intro s2 hs2 hf
        cases hfr : free { s2 with num_reuses := s2.num_reuses + 1 } (some p) with
        | stuck => rw [hfr] at hf; cases hf
        | abort s3 => rw [hfr] at hf; cases hf
        | ret u s3 =>
          rw [hfr] at hf
          simp only [Outcome.ret.injEq] at hf
          rw [← hf.2]
          have hl' : ({ s2 with num_reuses := s2.num_reuses + 1 } : State).Linear :=
            hs2.of_eq rfl rfl rfl
          exact (free_linear _ _ _ _ hl' hfr).of_eq rfl rfl rfl
      by_cases hz : size = 0
      · rw [if_pos hz] at h
        exact key s1 h1 h
      · rw [if_neg hz] at h
        cases w with
        | none => cases h
        | some q =>
          simp only at h
          cases hcp : memcpy s1 q p size with
          | none => rw [hcp] at h; cases h
          | some s2 =>
            rw [hcp] at h
            obtain ⟨m, hm2⟩ := memcpy_eq _ _ _ _ _ hcp
            have hl' : s2.Linear := by rw [hm2]; exact h1.of_eq rfl rfl rfl
            exact key s2 hl' h

/-- Under next-fit every reachable state is linear. -/
theorem runCalls_linear_NEXT :
    ∀ (tr : List (Sbrk × Call)) (s s' : State), s.Linear →
      runCalls .NEXT s tr = some s' → s'.Linear := by
  intro tr
  induction tr with
  | nil =>
    intro s s' hlin h
    simp only [runCalls, Option.some.injEq] at h
    rw [← h]; exact hlin
  | cons a tr ih =>
    intro s s' hlin h
    obtain ⟨os, c⟩ := a
    simp only [runCalls] at h
    cases hc : c.exec .NEXT os s with
    | stuck => rw [hc] at h; cases h
    | abort s1 => rw [hc] at h; cases h
    | ret v s1 =>
      rw [hc] at h
      simp only at h
      refine ih s1 s' ?_ h
      cases c with
      | malloc size => exact malloc_linear_NEXT _ _ _ _ _ hlin hc
      | calloc n size => exact calloc_linear_NEXT _ _ _ _ _ _ hlin hc
      | realloc ptr size => exact realloc_linear_NEXT _ _ _ _ _ _ hlin hc
      | free ptr =>
        simp only [Call.exec] at hc
        cases hf : free s ptr with
        | stuck => rw [hf] at hc; cases hc
        | abort s2 => rw [hf] at hc; cases hc
        | ret u s2 =>
          rw [hf] at hc
          simp only [Outcome.ret.injEq] at hc
          rw [← hc.2]
          exact free_linear _ _ _ _ hlin hf

theorem Reachable.linear_NEXT {s : State} (h : Reachable .NEXT s) : s.Linear := by
  obtain ⟨out, tr, htr⟩ := h
  exact runCalls_linear_NEXT tr { State.init with stdout := out } s
    ⟨rfl, fun i hi => absurd hi (Nat.not_lt_zero i), rfl⟩ htr

/-- On a linear table the head scan of next-fit, started at or below a fitting
block, finds a fitting block at or below it. -/
theorem nextFitHeadLoop_finds (bs : List Block) (size : Nat) (hl : LinearLinks bs) (j : Nat)
    (hj : Fits bs size j) :
    ∀ (f c : Nat) (last : Option Nat), c ≤ j → bs.length - c ≤ f →
      ∃ k l, nextFitHeadLoop bs size (f + 1) (some c) last = some (some k, l) ∧ k ≤ j := by
  obtain ⟨bj, hbj, hjfree, hjsz⟩ := hj
  have hjlt : j < bs.length := getElem?_lt hbj
  intro f
  induction f with
  | zero => intro c last hc hf; omega
  | succ f ih =>
    intro c last hc hf
    obtain ⟨b, hb⟩ : ∃ b, bs[c]? = some b :=
      ⟨bs[c], List.getElem?_eq_getElem (by omega)⟩
    by_cases hfit : (decide (b.size ≥ size) && b.free) = true
    · refine ⟨c, last, ?_, hc⟩
      simp only [nextFitHeadLoop, hb, if_pos hfit]
    · have hcj : c ≠ j := by
        intro e
        subst e
        rw [hbj] at hb
        cases hb
        simp [hjfree, hjsz] at hfit
      have hnext : b.next = some (c + 1) := by
        rw [hl.next_eq hb, if_pos (by omega)]
      obtain ⟨k, l, hk, hkj⟩ := ih (c + 1) (some c) (by omega) (by omega)
      refine ⟨k, l, ?_, hkj⟩
      rw [← hk]
      conv_lhs => unfold nextFitHeadLoop
      simp only [hb, if_neg hfit, hnext]

/-- Under next-fit, on a linear heap, after a `malloc` that grew the heap,
freeing the new block and repeating the request reuses a block at or below
it. -/
theorem malloc_free_malloc_next (os os' : Sbrk) (s s1 : State) (x p : Nat)
    (hlin : s.Linear) (h1 : malloc .NEXT os s x = .ret (some p) s1)
    (hge : s.blocks.length ≤ p) :
    ∃ s2 s3 q, free s1 (some p) = .ret () s2 ∧ malloc .NEXT os' s2 x = .ret (some q) s3 ∧
      q ≤ p ∧ s3.num_reuses = s2.num_reuses + 1 ∧ s3.num_grows = s2.num_grows := by
  have hlin1 : s1.Linear := malloc_linear_NEXT _ _ _ _ _ hlin h1
  obtain ⟨hz, r, hr, hcases⟩ := malloc_inv _ _ _ _ _ _ h1
  obtain ⟨hb0, _, hh0, hl0, _⟩ := recordRequest_frame s x
  have hlin0 : (recordRequest s x).Linear := hlin.of_eq hb0 hh0 hl0
  obtain ⟨fb, _, _, _, _, _, _, ffit, _⟩ := findFreeBlock_spec _ _ _ _ _ hr
  rcases hcases with ⟨k, hk, hmark⟩ | ⟨hnone, _, s2a, k, hgrow, hmark⟩
  · -- a reused block lies below the old end of the table
    exfalso
    obtain ⟨b, hbk, _, _⟩ := ffit k hk
    rw [markUsed_eq _ k b (by simp only [fb]; exact hbk)] at hmark
    simp only [Outcome.ret.injEq, Option.some.injEq] at hmark
    have := getElem?_lt hbk
    rw [hb0] at this
    omega
  · obtain ⟨_, hcur⟩ := findFreeBlock_NEXT_tail _ _ _ hlin0 hr hnone
    obtain ⟨hklen, X, hXlen, hs2a, _⟩ := growHeap_grown_inv _ _ _ _ _ hgrow
    have hXk : (X ++ [(⟨ALIGN4 x, none, false⟩ : Block)])[k]? = some ⟨ALIGN4 x, none, false⟩ := by
      rw [hklen, ← hXlen, List.getElem?_append_right (le_refl _)]
      simp
    rw [markUsed_eq s2a k ⟨ALIGN4 x, none, false⟩ (by rw [hs2a]; exact hXk)] at hmark
    simp only [Outcome.ret.injEq, Option.some.injEq] at hmark
    obtain ⟨hkp, hs1⟩ := hmark
    subst hkp
    have hs1b : s1.blocks = X ++ [⟨ALIGN4 x, none, false⟩] := by
      rw [← hs1, hs2a]
      simp only
      rw [hklen, ← hXlen, List.set_append_right _ _ (le_refl _)]
      simp
    have hs1c : s1.lastList = none := by
      rw [← hs1, hs2a]
      exact hcur
    have hs1k : s1.blocks[k]? = some ⟨ALIGN4 x, none, false⟩ := by rw [hs1b]; exact hXk
    have hfree := free_eq s1 k _ hs1k rfl
    generalize hs2 : ({ s1 with blocks := s1.blocks.set k
                                  { (⟨ALIGN4 x, none, false⟩ : Block) with free := true },
                                num_frees := s1.num_frees + 1 } : State) = s2 at hfree
    have hlin2 : s2.Linear := free_linear _ _ _ _ hlin1 hfree
    have hs2c : s2.lastList = none := by rw [← hs2]; exact hs1c
    have hklt : k < s1.blocks.length := getElem?_lt hs1k
    have hs2k : s2.blocks[k]? = some ⟨ALIGN4 x, none, true⟩ := by
      rw [← hs2]
      exact List.getElem?_set_self hklt
    obtain ⟨tb, _, th, tl, _, _, tnr, tng, _⟩ := recordRequest_frame s2 x
    obtain ⟨hh2, hl2, _⟩ := hlin2
    have hlen2 : s2.blocks.length ≠ 0 := by
      have := getElem?_lt hs2k
      omega
    have hfits : Fits (recordRequest s2 x).blocks (ALIGN4 x) k := by
      rw [tb]
      exact ⟨_, hs2k, rfl, le_refl _⟩
    obtain ⟨q, l, hloop, hqk⟩ := nextFitHeadLoop_finds (recordRequest s2 x).blocks (ALIGN4 x)
      (by rw [tb]; exact hl2) k hfits (recordRequest s2 x).blocks.length 0
      (recordRequest s2 x).heapList (Nat.zero_le _) (Nat.sub_le _ _)
    obtain ⟨bq, hbq, hqfree, hqsz⟩ := nextFitHeadLoop_found _ _ _ _ _ _ hloop q rfl
    have hhead : (recordRequest s2 x).heapList = some 0 := by
      rw [th, hh2, if_neg hlen2]
    have hfind : findFreeBlock .NEXT (recordRequest s2 x) (recordRequest s2 x).heapList
        (ALIGN4 x) = some ⟨some q, l,
          { recordRequest s2 x with lastList := some q,
                                    num_blocks := (recordRequest s2 x).num_blocks }⟩ := by
      simp only [findFreeBlock]
      rw [tl, hs2c]
      rw [hhead] at hloop ⊢
      rw [hloop]
      simp only [nextFitCursorLoop, hbq, hqfree, hqsz, ge_iff_le, decide_True, Bool.and_self,
        if_true]
    have hm2 := malloc_of_found .NEXT os' s2 x q _ hz hfind rfl
    simp only [markUsed, hbq, BLOCK_DATA] at hm2
    exact ⟨s2, _, q, hfree, hm2, hqk, by simp only [tnr], by simp only [tng]⟩

/-! ## First-fit on the list view -/

theorem LinksOk.next_lt {bs : List Block} (h : LinksOk bs) {i j : Nat} {b : Block}
    (hb : bs[i]? = some b) (hn : b.next = some j) : i < j ∧ j < bs.length := by
  have := h i (getElem?_lt hb)
  rw [hb] at this
  simp only [Option.some_bind, hn, Option.all_some, Bool.and_eq_true, decide_eq_true_eq] at this
  exact this

theorem listFrom_ge (bs : List Block) (hl : LinksOk bs) :
    ∀ (f k j : Nat), j ∈ listFrom bs f (some k) → k ≤ j := by
  intro f
  induction f with
  | zero => intro k j hj; simp [listFrom] at hj
  | succ f ih =>
    intro k j hj
    simp only [listFrom] at hj
    cases hb : bs[k]? with
    | none => rw [hb] at hj; simp at hj
    | some b =>
      rw [hb] at hj
      simp only [List.mem_cons] at hj
      rcases hj with hj | hj
      · omega
      · cases hn : b.next with
        | none =>
          rw [hn] at hj
          cases f <;> simp [listFrom] at hj
        | some k' =>
          rw [hn] at hj
          have := ih k' j hj
          have := (hl.next_lt hb hn).1
          omega

theorem listFrom_find_lowest (bs : List Block) (hl : LinksOk bs) (p : Nat → Bool) :
    ∀ (f : Nat) (c : Option Nat) (i : Nat), (listFrom bs f c).find? p = some i →
      ∀ j ∈ listFrom bs f c, p j = true → i ≤ j := by
  intro f
  induction f with
  | zero => intro c i hi; simp [listFrom] at hi
  | succ f ih =>
    intro c i hi j hj hpj
    cases c with
    | none => simp [listFrom] at hi
    | some k =>
      have hkj := listFrom_ge bs hl _ _ _ hj
      simp only [listFrom] at hi hj
      cases hb : bs[k]? with
      | none => rw [hb] at hi; simp at hi
      | some b =>
        rw [hb] at hi hj
        simp only at hi hj
        by_cases hpk : p k = true
        · rw [List.find?_cons_of_pos _ hpk] at hi
          simp only [Option.some.injEq] at hi
          omega
        · rw [List.find?_cons_of_neg _ hpk] at hi
          simp only [List.mem_cons] at hj
          rcases hj with hj | hj
          · subst hj; exact absurd hpj hpk
          · exact ih _ _ hi j hj hpj

/-- On acyclic links the first-fit loop ends within its budget, and its result
is read off the list of headers reachable from `c`. -/
theorem firstFitLoop_list (bs : List Block) (size : Nat) (hl : LinksOk bs) :
    ∀ (f : Nat) (c last : Option Nat) (nb : Int),
      (∀ k, c = some k → k < bs.length ∧ bs.length - k ≤ f) →
      ∃ l, firstFitLoop bs size (f + 1) c last nb = some
        ⟨(listFrom bs f c).find? (fitsB bs size), l,
         nb + (((listFrom bs f c).takeWhile (fun j => !fitsB bs size j)).countP
            (isFreeB bs) : Nat)⟩ := by
  intro f
  induction f with
  | zero =>
    intro c last nb hc
    cases c with
    | none => exact ⟨last, by simp [firstFitLoop, listFrom]⟩
    | some k => have := hc k rfl; omega
  | succ f ih =>
    intro c last nb hc
    cases c with
    | none => exact ⟨last, by simp [firstFitLoop, listFrom]⟩
    | some k =>
      obtain ⟨hk, hf⟩ := hc k rfl
      obtain ⟨b, hb⟩ : ∃ b, bs[k]? = some b := ⟨bs[k], List.getElem?_eq_getElem hk⟩
      have hfits : fitsB bs size k = (b.free && decide (b.size ≥ size)) := by
        simp only [fitsB, hb]
      have hfree : isFreeB bs k = b.free := by simp only [isFreeB, hb]
      by_cases hfit : (b.free && decide (b.size ≥ size)) = true
      · refine ⟨last, ?_⟩
        have e : listFrom bs (f + 1) (some k) = k :: listFrom bs f b.next := by
          simp only [listFrom, hb]
        rw [e, List.find?_cons_of_pos _ (by rw [hfits]; exact hfit)]
        rw [List.takeWhile_cons_of_neg (by simp [hfits, hfit])]
        simp only [firstFitLoop, hb, if_pos hfit, List.countP_nil, Nat.cast_zero, add_zero]
      · have hnext : ∀ k', b.next = some k' → k' < bs.length ∧ bs.length - k' ≤ f := by
          intro k' hk'
          have := hl.next_lt hb hk'
          omega
        obtain ⟨l, hloop⟩ := ih b.next (some k) (if b.free then nb + 1 else nb) hnext
        refine ⟨l, ?_⟩
        have e : listFrom bs (f + 1) (some k) = k :: listFrom bs f b.next := by
          simp only [listFrom, hb]
        rw [e, List.find?_cons_of_neg _ (by rw [hfits]; exact hfit)]
        rw [List.takeWhile_cons_of_pos (by simp [hfits, hfit])]
        conv_lhs => unfold firstFitLoop
        simp only [hb, if_neg hfit]
        rw [hloop]
        congr 2
        rw [List.countP_cons, hfree]
        cases b.free
        · simp
        · simp only [if_true, Nat.cast_add, Nat.cast_one]
          omega

/-! ## Well-formed and reachable states -/

/-- The globals that `findFreeBlock` does not write. -/
theorem findFreeBlock_stats (pol : Policy) (s : State) (last : Option Nat) (size : Nat)
    (r : Search) (h : findFreeBlock pol s last size = some r) :
    r.st.num_requested = s.num_requested ∧ r.st.max_heap = s.max_heap ∧
    r.st.num_requested_temp = s.num_requested_temp ∧
    r.st.atexit_registered = s.atexit_registered ∧
    r.st.num_splits = s.num_splits ∧ r.st.num_coalesces = s.num_coalesces ∧
    (pol ≠ .NEXT → r.st.lastList = s.lastList) := by
  cases pol with
  | FIT =>
    simp only [findFreeBlock] at h
    split at h
    · cases h
    · simp only [Option.some.injEq] at h
      subst h
      exact ⟨rfl, rfl, rfl, rfl, rfl, rfl, fun _ => rfl⟩
  | BEST =>
    simp only [findFreeBlock] at h
    split at h
    · cases h
    · simp only [Option.some.injEq] at h
      subst h
      exact ⟨rfl, rfl, rfl, rfl, rfl, rfl, fun _ => rfl⟩
  | WORST =>
    simp only [findFreeBlock] at h
    split at h
    · cases h
    · simp only [Option.some.injEq] at h
      subst h
      exact ⟨rfl, rfl, rfl, rfl, rfl, rfl, fun _ => rfl⟩
  | NEXT =>
    simp only [findFreeBlock] at h
    split at h
    · cases h
    · split at h
      · cases h
      · simp only [Option.some.injEq] at h
        subst h
        exact ⟨rfl, rfl, rfl, rfl, rfl, rfl, fun hne => absurd rfl hne⟩

theorem listFrom_cons {bs : List Block} {f k : Nat} {b : Block} (hb : bs[k]? = some b) :
    listFrom bs (f + 1) (some k) = k :: listFrom bs f b.next := by
  simp only [listFrom, hb]

/-- On a linear table the cursor scan of next-fit, started at or below a
fitting block, finds a fitting block between the cursor and that block. -/
theorem nextFitCursorLoop_finds (bs : List Block) (size : Nat) (hl : LinearLinks bs) (j : Nat)
    (hj : Fits bs size j) :
    ∀ (f c : Nat) (last : Option Nat) (nb : Int), c ≤ j → bs.length - c ≤ f →
      ∃ k l n, nextFitCursorLoop bs size (f + 1) (some c) last nb = some ⟨some k, l, n⟩ ∧
        c ≤ k ∧ k ≤ j := by
  obtain ⟨bj, hbj, hjfree, hjsz⟩ := hj
  have hjlt : j < bs.length := getElem?_lt hbj
  intro f
  induction f with
  | zero => intro c last nb hc hf; omega
  | succ f ih =>
    intro c last nb hc hf
    obtain ⟨b, hb⟩ : ∃ b, bs[c]? = some b :=
      ⟨bs[c], List.getElem?_eq_getElem (by omega)⟩
    by_cases hfit : (decide (b.size ≥ size) && b.free) = true
    · refine ⟨c, last, nb, ?_, le_refl _, hc⟩
      simp only [nextFitCursorLoop, hb, if_pos hfit]
    · have hcj : c ≠ j := by
        intro e
        subst e
        rw [hbj] at hb
        cases hb
        simp [hjfree, hjsz] at hfit
      have hnext : b.next = some (c + 1) := by
        rw [hl.next_eq hb, if_pos (by omega)]
      obtain ⟨k, l, n, hk, hck, hkj⟩ := ih (c + 1) (some c) (if b.free then nb + 1 else nb)
        (by omega) (by omega)
      refine ⟨k, l, n, ?_, by omega, hkj⟩
      rw [← hk]
      conv_lhs => unfold nextFitCursorLoop
      simp only [hb, if_neg hfit, hnext]

/-- Under next-fit, on a linear heap, the search finds a block whenever a
fitting block lies at or behind the cursor, or anywhere when the cursor is
`NULL`. -/
theorem findFreeBlock_NEXT_finds (s : State) (last : Option Nat) (size j : Nat)
    (hlin : s.Linear) (hj : Fits s.blocks size j)
    (hcur : ∀ c, s.lastList = some c → c ≤ j) :
    ∃ r k, findFreeBlock .NEXT s last size = some r ∧ r.curr = some k ∧
      Fits s.blocks size k ∧ k ≤ j ∧ (∀ c, s.lastList = some c → c ≤ k) ∧
      r.st.blocks = s.blocks ∧ r.st.num_grows = s.num_grows := by
  obtain ⟨hh, hl, _⟩ := hlin
  have hjlt : j < s.blocks.length := by
    obtain ⟨b, hb, _⟩ := hj
    exact getElem?_lt hb
  obtain ⟨k1, l1, hloop1, hk1⟩ := nextFitHeadLoop_finds s.blocks size hl j hj
    s.blocks.length 0 last (Nat.zero_le _) (Nat.sub_le _ _)
  have hhead : s.heapList = some 0 := by rw [hh, if_neg (by omega)]
  cases hc : s.lastList with
  | some c =>
    obtain ⟨k, l, n, hloop2, hck, hkj⟩ := nextFitCursorLoop_finds s.blocks size hl j hj
      s.blocks.length c l1 s.num_blocks (hcur c hc) (Nat.sub_le _ _)
    have hfit := nextFitCursorLoop_found _ _ _ _ _ _ _ hloop2 k rfl
    simp only [findFreeBlock, hhead, hloop1, hc, hloop2]
    refine ⟨_, k, rfl, rfl, hfit, hkj, ?_, rfl, rfl⟩
    intro c' hc'
    simp only [Option.some.injEq] at hc'
    omega
  | none =>
    obtain ⟨b, hb, hfree, hsz⟩ := nextFitHeadLoop_found _ _ _ _ _ _ hloop1 k1 rfl
    simp only [findFreeBlock, hhead, hloop1, hc, nextFitCursorLoop, hb, hfree, hsz,
      ge_iff_le, decide_True, Bool.and_self, if_true]
    exact ⟨_, k1, rfl, rfl, ⟨b, hb, hfree, hsz⟩, hk1, (fun c' hc' => by cases hc'), rfl, rfl⟩

/-! ## Request statistics -/

theorem toInt_small (n : Nat) (h : n < 2147483648) : toInt n = (n : Int) := by
  have hmod : n % 4294967296 = n := Nat.mod_eq_of_lt (by omega)
  simp only [toInt, hmod, if_pos h]

theorem toInt_emod (n : Nat) : toInt n % 4294967296 = (n : Int) % 4294967296 := by
  unfold toInt
  split_ifs <;> omega

theorem wrapInt_emod (x : Int) : wrapInt x % 4294967296 = x % 4294967296 := by
  unfold wrapInt
  split_ifs <;> omega

theorem wrapInt_congr (x y : Int) (h : x % 4294967296 = y % 4294967296) :
    wrapInt x = wrapInt y := by
  unfold wrapInt
  rw [h]

theorem wrapInt_small (x : Int) (h1 : -2147483648 ≤ x) (h2 : x < 2147483648) :
    wrapInt x = x := by
  unfold wrapInt
  split_ifs <;> omega

/-- A request between 1 and `2^64 - 4` bytes does not align to 0. -/
theorem ALIGN4_ne_zero (s : Nat) (h1 : 0 < s) (h2 : s ≤ 18446744073709551612) :
    ALIGN4 s ≠ 0 := by
  rw [ALIGN4_eq]
  rw [if_neg (by omega)]
  omega

/-- What the statistics prologue of `malloc` does to the request counters. -/
theorem recordRequest_stats (s : State) (size : Nat) :
    (recordRequest s size).num_requested
      = (if s.atexit_registered = 0
          then wrapInt (wrapInt (s.num_requested + toInt size) - 1024)
          else wrapInt (s.num_requested + toInt size)) ∧
    (recordRequest s size).atexit_registered
      = (if s.atexit_registered = 0 then 1 else s.atexit_registered) ∧
    (recordRequest s size).num_requested_temp = toInt size ∧
    (recordRequest s size).max_heap
      = (if size > toSize s.num_requested_temp then toInt size else s.max_heap) := by
  unfold recordRequest
  simp only
  by_cases h : s.atexit_registered = 0
  · simp only [h, if_true, and_self, and_true]
  · simp only [h, if_false, and_self]

/-- After its prologue a `malloc` that goes past the zero-size test leaves the
request counters alone. -/
theorem malloc_stats (pol : Policy) (os : Sbrk) (s s' : State) (size : Nat) (v : Option Nat)
    (hnz : ALIGN4 size ≠ 0) (h : malloc pol os s size = .ret v s') :
    s'.num_requested = (recordRequest s size).num_requested ∧
    s'.atexit_registered = (recordRequest s size).atexit_registered ∧
    s'.num_requested_temp = (recordRequest s size).num_requested_temp ∧
    s'.max_heap = (recordRequest s size).max_heap := by
  have hmark : ∀ (t t' : State) (k : Nat), markUsed t k = .ret v t' →
      t'.num_requested = t.num_requested ∧ t'.atexit_registered = t.atexit_registered ∧
      t'.num_requested_temp = t.num_requested_temp ∧ t'.max_heap = t.max_heap := by
    intro t t' k hm
    simp only [markUsed] at hm
    cases hb : t.blocks[k]? with
    | none => rw [hb] at hm; cases hm
    | some b =>
      rw [hb] at hm
      simp only [Outcome.ret.injEq] at hm
      rw [← hm.2]
      exact ⟨rfl, rfl, rfl, rfl⟩
  rcases malloc_cases _ _ _ _ _ _ h with ⟨hz0, _⟩ | ⟨_, r, hr, hcase⟩
  · exact absurd hz0 hnz
  · obtain ⟨f1, f2, f3, f4, _⟩ := findFreeBlock_stats _ _ _ _ _ hr
    rcases hcase with ⟨k, _, hmk⟩ | ⟨_, _, _, hs'⟩ | ⟨_, _, s2, k, hgrow, hmk⟩
    · obtain ⟨m1, m2, m3, m4⟩ := hmark _ _ _ hmk
      exact ⟨by rw [m1]; exact f1, by rw [m2]; exact f4, by rw [m3]; exact f3,
        by rw [m4]; exact f2⟩
    · rw [hs']; exact ⟨f1, f4, f3, f2⟩
    · obtain ⟨_, X, _, hs2, _⟩ := growHeap_grown_inv _ _ _ _ _ hgrow
      obtain ⟨m1, m2, m3, m4⟩ := hmark _ _ _ hmk
      rw [hs2] at m1 m2 m3 m4
      exact ⟨by rw [m1]; exact f1, by rw [m2]; exact f4, by rw [m3]; exact f3,
        by rw [m4]; exact f2⟩

/-! ## The alignment macro -/

/-- The macro `ALIGN4` on a word of `w ≥ 2` bits, with the modulus `2^w`
written as a multiple `4 * K` of four. -/
theorem ALIGN4w_eq (w s : Nat) (hw : 2 ≤ w) (hs : s < 2 ^ w) :
    ALIGN4w w s = if s = 0 ∨ 2 ^ w - 4 < s then 0 else (s - 1) / 4 * 4 + 4 := by
  obtain ⟨K, hK⟩ : ∃ K, 2 ^ w = 4 * K := by
    refine ⟨2 ^ (w - 2), ?_⟩
    have : w = 2 + (w - 2) := by omega
    conv_lhs => rw [this, pow_add]
    norm_num
  unfold ALIGN4w
  rw [hK] at hs ⊢
  by_cases h0 : s = 0
  · subst h0
    simp only [if_true, true_or]
    have e1 : (4 * K - 1) / 4 * 4 = 4 * K - 4 := by omega
    have e3 : (4 * K - 4) % (4 * K) = 4 * K - 4 := Nat.mod_eq_of_lt (by omega)
    have e2 : 4 * K - 4 + 4 = 4 * K := by omega
    rw [e1, e3, e2, Nat.mod_self]
  · have e3 : (s - 1) / 4 * 4 % (4 * K) = (s - 1) / 4 * 4 := Nat.mod_eq_of_lt (by omega)
    rw [if_neg h0, e3]
    by_cases hbig : 4 * K - 4 < s
    · rw [if_pos (Or.inr hbig)]
      have e2 : (s - 1) / 4 * 4 + 4 = 4 * K := by omega
      rw [e2, Nat.mod_self]
    · rw [if_neg (by tauto)]
      exact Nat.mod_eq_of_lt (by omega)

/-! ## Block sizes and the counter balance -/

theorem ALIGN4_mod4 (s : Nat) : ALIGN4 s % 4 = 0 := by
  rw [ALIGN4_eq]
  split_ifs <;> omega

theorem SizesOk.set_ok {bs : List Block} (h : SizesOk bs) (k : Nat) (b b' : Block)
    (hb : bs[k]? = some b) (hs : b'.size = b.size) : SizesOk (bs.set k b') := by
  intro x hx
  rcases List.mem_or_eq_of_mem_set hx with hx | hx
  · exact h x hx
  · subst hx
    rw [hs]
    exact h b (List.getElem?_mem hb)

/-- A returning `malloc` leaves `num_reuses + num_grows - num_mallocs` and
`num_frees` as they were, and keeps the sizes of the table non-zero multiples
of 4: a header it adds has the aligned request, which is not 0, as its size. -/
theorem malloc_effect (pol : Policy) (os : Sbrk) (s s' : State) (size : Nat) (v : Option Nat)
    (h : malloc pol os s size = .ret v s') :
    s'.num_reuses + s'.num_grows - s'.num_mallocs
      = s.num_reuses + s.num_grows - s.num_mallocs ∧
    s'.num_frees = s.num_frees ∧
    (SizesOk s.blocks → SizesOk s'.blocks) := by
  have key : ∀ (s s' : State) (size : Nat) (v : Option Nat), ALIGN4 size ≠ 0 →
      malloc pol os s size = .ret v s' →
      s'.num_reuses + s'.num_grows - s'.num_mallocs
        = s.num_reuses + s.num_grows - s.num_mallocs ∧
      s'.num_frees = s.num_frees ∧
      (SizesOk s.blocks → SizesOk s'.blocks) := by
    intro s s' size v hnz h
    obtain ⟨hb0, _, _, _, hm0, hf0, hr0, hg0, _⟩ := recordRequest_frame s size
    rcases malloc_cases _ _ _ _ _ _ h with ⟨hz0, _⟩ | ⟨hz, r, hr, hcase⟩
    · exact absurd hz0 hnz
    · obtain ⟨fb, _, _, fm, ff, fr, fg, _, _⟩ := findFreeBlock_spec _ _ _ _ _ hr
      rcases hcase with ⟨k, _, hmark⟩ | ⟨_, _, _, hs'⟩ | ⟨_, _, s2, k, hgrow, hmark⟩
      · simp only [markUsed] at hmark
        cases hb : r.st.blocks[k]? with
        | none => rw [hb] at hmark; cases hmark
        | some b =>
          rw [hb] at hmark
          simp only [Outcome.ret.injEq] at hmark
          rw [← hmark.2]
          simp only [fm, ff, fr, fg, hm0, hf0, hr0, hg0]
          refine ⟨by ring, trivial, ?_⟩
          intro hs
          have hs1 : SizesOk r.st.blocks := by rw [fb, hb0]; exact hs
          exact hs1.set_ok k b _ hb rfl
      · rw [hs', fb, fm, ff, fr, fg, hb0, hm0, hf0, hr0, hg0]
        exact ⟨rfl, rfl, id⟩
      · obtain ⟨_, X, hXlen, hs2, hX⟩ := growHeap_grown_inv _ _ _ _ _ hgrow
        subst hs2
        simp only [markUsed] at hmark
        cases hb : (X ++ [(⟨ALIGN4 size, none, false⟩ : Block)])[k]? with
        | none => rw [hb] at hmark; cases hmark
        | some b =>
          rw [hb] at hmark
          simp only [Outcome.ret.injEq] at hmark
          rw [← hmark.2]
          simp only [fm, ff, fr, fg, hm0, hf0, hr0, hg0]
          refine ⟨by ring, trivial, ?_⟩
          intro hs
          have hs1 : SizesOk r.st.blocks := by rw [fb, hb0]; exact hs
          have hX1 : SizesOk X := by
            rcases hX with ⟨_, hX2⟩ | ⟨l, bl, _, hbl, hX2⟩
            · rw [hX2]; exact hs1
            · rw [hX2]; exact hs1.set_ok l bl _ hbl rfl
          have hX2 : SizesOk (X ++ [(⟨ALIGN4 size, none, false⟩ : Block)]) := by
            intro x hx
            rcases List.mem_append.1 hx with hx | hx
            · exact hX1 x hx
            · simp only [List.mem_singleton] at hx
              subst hx
              exact ⟨hz, ALIGN4_mod4 size⟩
          exact hX2.set_ok k b _ hb rfl
  obtain ⟨hb0, _, _, _, hm0, hf0, hr0, hg0, _⟩ := recordRequest_frame s size
  rcases malloc_cases _ _ _ _ _ _ h with ⟨_, _, m, o, hq | ⟨n, w, s1, hn, hm, hs'⟩⟩ | ⟨hz, _⟩
  · rw [hq]
    simp only [hb0, hm0, hf0, hr0, hg0]
    exact ⟨trivial, trivial, id⟩
  · obtain ⟨k1, k2, k3⟩ := key _ _ n w hn hm
    rw [hs']
    simp only
    rw [k1, k2, hb0, hm0, hf0, hr0, hg0] at *
    exact ⟨rfl, rfl, k3⟩
  · exact key s s' size v hz h

theorem free_effect (s s' : State) (ptr : Option Nat) (u : Unit)
    (h : free s ptr = .ret u s') :
    s'.num_reuses = s.num_reuses ∧ s'.num_grows = s.num_grows ∧
    s'.num_mallocs = s.num_mallocs ∧ (SizesOk s.blocks → SizesOk s'.blocks) := by
  cases ptr with
  | none =>
    simp only [free, Outcome.ret.injEq] at h
    rw [← h.2]
    exact ⟨rfl, rfl, rfl, id⟩
  | some p =>
    simp only [free, BLOCK_HEADER] at h
    cases hb : s.blocks[p]? with
    | none => rw [hb] at h; cases h
    | some b =>
      rw [hb] at h
      simp only at h
      by_cases hf : b.free = true
      · rw [if_pos hf] at h; cases h
      · rw [if_neg hf] at h
        simp only [Outcome.ret.injEq] at h
        rw [← h.2]
        exact ⟨rfl, rfl, rfl, fun hs => hs.set_ok p b _ hb rfl⟩

theorem calloc_effect (pol : Policy) (os : Sbrk) (s s' : State) (n size : Nat) (v : Option Nat)
    (h : calloc pol os s n size = .ret v s') :
    s'.num_reuses + s'.num_grows - s'.num_mallocs
      = s.num_reuses + s.num_grows - s.num_mallocs ∧
    (SizesOk s.blocks → SizesOk s'.blocks) := by
  simp only [calloc] at h
  cases hm : malloc pol os s (n * size % SIZE_MOD) with
  | stuck => rw [hm] at h; cases h
  | abort s1 => rw [hm] at h; cases h
  | ret w s1 =>
    rw [hm] at h
    simp only at h
    obtain ⟨h1, _, h2⟩ := malloc_effect _ _ _ _ _ _ hm
    by_cases hz : n * size % SIZE_MOD = 0
    · rw [if_pos hz] at h
      simp only [Outcome.ret.injEq] at h
      rw [← h.2]; exact ⟨h1, h2⟩
    · rw [if_neg hz] at h
      cases w with
      | none => cases h
      | some q =>
        simp only at h
        cases hms : memset s1 q 0 (n * size % SIZE_MOD) with
        | none => rw [hms] at h; cases h
        | some s2 =>
          rw [hms] at h
          simp only [Outcome.ret.injEq] at h
          obtain ⟨m, hm2⟩ := memset_eq _ _ _ _ _ hms
          rw [← h.2, hm2]
          exact ⟨h1, h2⟩

theorem realloc_effect (pol : Policy) (os : Sbrk) (s s' : State) (p size : Nat)
    (v : Option Nat) (h : realloc pol os s (some p) size = .ret v s') :
    s'.num_reuses + s'.num_grows - s'.num_mallocs
      = s.num_reuses + s.num_grows - s.num_mallocs + 1 ∧
    (SizesOk s.blocks → SizesOk s'.blocks) := by
  simp only [realloc] at h
  cases hm : malloc pol os s size with
  | stuck => rw [hm] at h; cases h
  | abort s1 => rw [hm] at h; cases h
  | ret w s1 =>
    rw [hm] at h
    simp only at h
    obtain ⟨h1, _, h2⟩ := malloc_effect _ _ _ _ _ _ hm
    have key : ∀ s2 : State, s2.blocks = s1.blocks → s2.num_reuses = s1.num_reuses →
        s2.num_grows = s1.num_grows → s2.num_mallocs = s1.num_mallocs →
        (match free { s2 with num_reuses := s2.num_reuses + 1 } (some p) with
          | .stuck => Outcome.stuck
          | .abort s3 => .abort s3
          | .ret _ s3 => .ret w { s3 with num_frees := s3.num_frees + 1 }) = .ret v s' →
        s'.num_reuses + s'.num_grows - s'.num_mallocs
          = s.num_reuses + s.num_grows - s.num_mallocs + 1 ∧
        (SizesOk s.blocks → SizesOk s'.blocks) := by
      intro s2 e1 e2 e3 e4 hf
      cases hfr : free { s2 with num_reuses := s2.num_reuses + 1 } (some p) with
      | stuck => rw [hfr] at hf; cases hf
      | abort s3 => rw [hfr] at hf; cases hf
      | ret u s3 =>
        rw [hfr] at hf
        simp only [Outcome.ret.injEq] at hf
        rw [← hf.2]
        obtain ⟨f1, f2, f3, f4⟩ := free_effect _ _ _ _ hfr
        simp only at f1 f2 f3 f4 ⊢
        rw [f1, f2, f3, e2, e3, e4]
        refine ⟨by omega, fun hs => f4 ?_⟩
        rw [e1]; exact h2 hs
    by_cases hz : size = 0
    · rw [if_pos hz] at h
      exact key s1 rfl rfl rfl rfl h
    · rw [if_neg hz] at h
      cases w with
      | none => cases h
      | some q =>
        simp only at h
        cases hcp : memcpy s1 q p size with
        | none => rw [hcp] at h; cases h
        | some s2 =>
          rw [hcp] at h
          obtain ⟨m, hm2⟩ := memcpy_eq _ _ _ _ _ hcp
          exact key s2 (by rw [hm2]) (by rw [hm2]) (by rw [hm2]) (by rw [hm2]) h

/-- Along a program run the block sizes stay non-zero multiples of 4, and
`num_reuses + num_grows - num_mallocs` grows by one with every `realloc` of a
pointer that is not `NULL`. -/
theorem runCalls_effect (pol : Policy) :
    ∀ (tr : List (Sbrk × Call)) (s s' : State), runCalls pol s tr = some s' →
      s'.num_reuses + s'.num_grows - s'.num_mallocs
        = s.num_reuses + s.num_grows - s.num_mallocs + (reallocMoves tr : Nat) ∧
      (SizesOk s.blocks → SizesOk s'.blocks) := by
  intro tr
  induction tr with
  | nil =>
    intro s s' h
    simp only [runCalls, Option.some.injEq] at h
    rw [← h]
    simp [reallocMoves]
  | cons a tr ih =>
    intro s s' h
    obtain ⟨os, c⟩ := a
    simp only [runCalls] at h
    cases hc : c.exec pol os s with
    | stuck => rw [hc] at h; cases h
    | abort s1 => rw [hc] at h; cases h
    | ret v s1 =>
      rw [hc] at h
      simp only at h
      obtain ⟨i1, i2⟩ := ih s1 s' h
      have step : s1.num_reuses + s1.num_grows - s1.num_mallocs
            = s.num_reuses + s.num_grows - s.num_mallocs + (reallocMoves [(os, c)] : Nat) ∧
          (SizesOk s.blocks → SizesOk s1.blocks) := by
        cases c with
        | malloc size =>
          obtain ⟨h1, _, h2⟩ := malloc_effect _ _ _ _ _ _ hc
          exact ⟨by rw [h1]; simp [reallocMoves], h2⟩
        | calloc n size =>
          obtain ⟨h1, h2⟩ := calloc_effect _ _ _ _ _ _ _ hc
          exact ⟨by rw [h1]; simp [reallocMoves], h2⟩
        | realloc ptr size =>
          cases ptr with
          | none =>
            simp only [Call.exec, realloc] at hc
            obtain ⟨h1, _, h2⟩ := malloc_effect _ _ _ _ _ _ hc
            exact ⟨by rw [h1]; simp [reallocMoves], h2⟩
          | some p =>
            obtain ⟨h1, h2⟩ := realloc_effect _ _ _ _ _ _ _ hc
            exact ⟨by rw [h1]; simp [reallocMoves], h2⟩
        | free ptr =>
          simp only [Call.exec] at hc
          cases hf : free s ptr with
          | stuck => rw [hf] at hc; cases hc
          | abort s2 => rw [hf] at hc; cases hc
          | ret u s2 =>
            rw [hf] at hc
            simp only [Outcome.ret.injEq] at hc
            rw [← hc.2]
            obtain ⟨f1, f2, f3, f4⟩ := free_effect _ _ _ _ hf
            exact ⟨by rw [f1, f2, f3]; simp [reallocMoves], f4⟩
      refine ⟨?_, fun hs => i2 (step.2 hs)⟩
      rw [i1, step.1]
      have e : reallocMoves ((os, c) :: tr) = reallocMoves [(os, c)] + reallocMoves tr := by
        simp only [reallocMoves, List.countP_cons, List.countP_nil]
        omega
      rw [e]
      push_cast
      ring

/-! ## Best-fit and worst-fit as one scan -/

theorem largerB_iff (bs : List Block) (size c : Nat) :
    largerB bs size c = true ↔ isFreeB bs c = true ∧ size < sizeAt bs c := by
  unfold largerB isFreeB sizeAt
  cases bs[c]? with
  | none => simp
  | some b => simp

theorem toSize_natCast (n : Nat) (h : n < 2147483648) : toSize (n : Int) = n := by
  unfold toSize
  omega

theorem listFrom_pairwise (bs : List Block) (hl : LinksOk bs) :
    ∀ (f : Nat) (c : Option Nat), (listFrom bs f c).Pairwise (fun a b => a < b) := by
  intro f
  induction f with
  | zero => intro c; simp [listFrom]
  | succ f ih =>
    intro c
    cases c with
    | none => simp [listFrom]
    | some k =>
      cases hb : bs[k]? with
      | none => simp [listFrom, hb]
      | some b =>
        rw [listFrom_cons hb, List.pairwise_cons]
        refine ⟨?_, ih _⟩
        intro j hj
        cases hn : b.next with
        | none =>
          rw [hn] at hj
          cases f <;> simp [listFrom] at hj
        | some k' =>
          rw [hn] at hj
          have := listFrom_ge bs hl _ _ _ hj
          have := (hl.next_lt hb hn).1
          omega

/-- The comparison `curr->size - size < spaceRemaining` of both loops, for a
block below `INT_MAX` bytes: it holds when no winner has been found yet, and
otherwise compares the two leftovers. -/
theorem better_eq (bs : List Block) (size k0 : Nat) (b : Block) (w : Option Nat) (sr : Int)
    (hb : bs[k0]? = some b) (hsz : b.size < 2147483647)
    (hsr : (w = none ∧ (sr = INT_MAX ∨ sr = INT_MIN)) ∨
      (∃ k, w = some k ∧ size < sizeAt bs k ∧ sizeAt bs k < 2147483647 ∧
        sr = ((sizeAt bs k - size : Nat) : Int))) :
    (b.free && decide (b.size > size) && decide (subSize b.size size < toSize sr))
      = (largerB bs size k0 && beatsB bs size k0 w) := by
  have e1 : largerB bs size k0 = (b.free && decide (b.size > size)) := by
    simp only [largerB, hb]
  have e2 : sizeAt bs k0 = b.size := by simp only [sizeAt, hb]
  rw [e1]
  by_cases hc : (b.free && decide (b.size > size)) = true
  · rw [hc, Bool.true_and, Bool.true_and]
    simp only [Bool.and_eq_true, decide_eq_true_eq] at hc
    have e3 : subSize b.size size = b.size - size := by
      unfold subSize
      rw [if_pos (by omega)]
    rw [e3]
    rcases hsr with ⟨hw, hsr | hsr⟩ | ⟨k, hw, h1, h2, hsr⟩
    · subst hw; subst hsr
      have : toSize INT_MAX = 2147483647 := by decide
      rw [this]
      simp only [beatsB, decide_eq_true_eq]
      omega
    · subst hw; subst hsr
      have : toSize INT_MIN = 18446744071562067968 := by decide
      rw [this]
      simp only [beatsB, decide_eq_true_eq]
      omega
    · subst hw; subst hsr
      rw [toSize_natCast _ (by omega)]
      simp only [beatsB, e2]
  · simp only [Bool.not_eq_true] at hc
    rw [hc, Bool.false_and, Bool.false_and]

/-- What the winner and `spaceRemaining` are after a block has been looked at. -/
theorem better_step (bs : List Block) (size k0 : Nat) (b : Block) (w : Option Nat) (sr : Int)
    (hb : bs[k0]? = some b) (hsz : b.size < 2147483647)
    (hsr : (w = none ∧ (sr = INT_MAX ∨ sr = INT_MIN)) ∨
      (∃ k, w = some k ∧ size < sizeAt bs k ∧ sizeAt bs k < 2147483647 ∧
        sr = ((sizeAt bs k - size : Nat) : Int)))
    (bet : Bool) (hbet : bet = true → b.size > size) :
    ((if bet = true then some k0 else w) = none ∧
      ((if bet = true then toInt (subSize b.size size) else sr) = INT_MAX ∨
       (if bet = true then toInt (subSize b.size size) else sr) = INT_MIN)) ∨
    (∃ k, (if bet = true then some k0 else w) = some k ∧ size < sizeAt bs k ∧
      sizeAt bs k < 2147483647 ∧
      (if bet = true then toInt (subSize b.size size) else sr)
        = ((sizeAt bs k - size : Nat) : Int)) := by
  by_cases h : bet = true
  · have hs := hbet h
    simp only [if_pos h]
    refine Or.inr ⟨k0, rfl, ?_⟩
    have e2 : sizeAt bs k0 = b.size := by simp only [sizeAt, hb]
    have e3 : subSize b.size size = b.size - size := by
      unfold subSize
      rw [if_pos (by omega)]
    rw [e2, e3, toInt_small _ (by omega)]
    exact ⟨hs, hsz, rfl⟩
  · simp only [if_neg h]
    exact hsr

/-- On acyclic links and blocks below `INT_MAX` bytes the best-fit loop ends
within its budget with the winner of `leftoverScan`. -/
theorem bestFitLoop_scan (bs : List Block) (size : Nat) (hl : LinksOk bs) :
    ∀ (f : Nat) (c last w : Option Nat) (sr nb : Int),
      (∀ k, c = some k → k < bs.length ∧ bs.length - k ≤ f) →
      (∀ j ∈ listFrom bs f c, sizeAt bs j < 2147483647) →
      ((w = none ∧ (sr = INT_MAX ∨ sr = INT_MIN)) ∨
        (∃ k, w = some k ∧ size < sizeAt bs k ∧ sizeAt bs k < 2147483647 ∧
          sr = ((sizeAt bs k - size : Nat) : Int))) →
      ∃ r, bestFitLoop bs size (f + 1) c last w sr nb = some r ∧
        r.curr = leftoverScan bs size (listFrom bs f c) w := by
  intro f
  induction f with
  | zero =>
    intro c last w sr nb hc _ _
    cases c with
    | none => exact ⟨_, rfl, rfl⟩
    | some k => have := hc k rfl; omega
  | succ f ih =>
    intro c last w sr nb hc hsz hsr
    cases c with
    | none => exact ⟨_, rfl, rfl⟩
    | some k0 =>
      obtain ⟨hk0, hf⟩ := hc k0 rfl
      obtain ⟨b, hb⟩ : ∃ b, bs[k0]? = some b := ⟨bs[k0], List.getElem?_eq_getElem hk0⟩
      have hnext : ∀ k', b.next = some k' → k' < bs.length ∧ bs.length - k' ≤ f := by
        intro k' hk'
        have := hl.next_lt hb hk'
        omega
      rw [listFrom_cons hb] at hsz ⊢
      have hbsz : b.size < 2147483647 := by
        have := hsz k0 (List.mem_cons_self _ _)
        simpa only [sizeAt, hb] using this
      have hbe := better_eq bs size k0 b w sr hb hbsz hsr
      have hst := better_step bs size k0 b w sr hb hbsz hsr
        (b.free && decide (b.size > size) && decide (subSize b.size size < toSize sr))
        (by
          intro h
          simp only [Bool.and_eq_true, decide_eq_true_eq] at h
          exact h.1.2)
      obtain ⟨r, hr, hcurr⟩ := ih b.next (some k0)
        (if (b.free && decide (b.size > size)
            && decide (subSize b.size size < toSize sr)) = true then some k0 else w)
        (if (b.free && decide (b.size > size)
            && decide (subSize b.size size < toSize sr)) = true
          then toInt (subSize b.size size) else sr)
        (if b.free then nb + 1 else nb) hnext
        (fun j hj => hsz j (List.mem_cons_of_mem _ hj)) hst
      refine ⟨r, ?_, ?_⟩
      · rw [← hr]
        conv_lhs => unfold bestFitLoop
        simp only [hb]
      · rw [hcurr]
        conv_rhs => unfold leftoverScan
        rw [hbe]

/-- The same for the worst-fit loop. -/
theorem worstFitLoop_scan (bs : List Block) (size : Nat) (hl : LinksOk bs) :
    ∀ (f : Nat) (c last w : Option Nat) (sr nb : Int),
      (∀ k, c = some k → k < bs.length ∧ bs.length - k ≤ f) →
      (∀ j ∈ listFrom bs f c, sizeAt bs j < 2147483647) →
      ((w = none ∧ (sr = INT_MAX ∨ sr = INT_MIN)) ∨
        (∃ k, w = some k ∧ size < sizeAt bs k ∧ sizeAt bs k < 2147483647 ∧
          sr = ((sizeAt bs k - size : Nat) : Int))) →
      ∃ r, worstFitLoop bs size (f + 1) c last w sr nb = some r ∧
        r.curr = leftoverScan bs size (listFrom bs f c) w := by
  intro f
  induction f with
  | zero =>
    intro c last w sr nb hc _ _
    cases c with
    | none => exact ⟨_, rfl, rfl⟩
    | some k => have := hc k rfl; omega
  | succ f ih =>
    intro c last w sr nb hc hsz hsr
    cases c with
    | none => exact ⟨_, rfl, rfl⟩
    | some k0 =>
      obtain ⟨hk0, hf⟩ := hc k0 rfl
      obtain ⟨b, hb⟩ : ∃ b, bs[k0]? = some b := ⟨bs[k0], List.getElem?_eq_getElem hk0⟩
      have hnext : ∀ k', b.next = some k' → k' < bs.length ∧ bs.length - k' ≤ f := by
        intro k' hk'
        have := hl.next_lt hb hk'
        omega
      rw [listFrom_cons hb] at hsz ⊢
      have hbsz : b.size < 2147483647 := by
        have := hsz k0 (List.mem_cons_self _ _)
        simpa only [sizeAt, hb] using this
      have hbe := better_eq bs size k0 b w sr hb hbsz hsr
      have hst := better_step bs size k0 b w sr hb hbsz hsr
        (b.free && decide (b.size > size) && decide (subSize b.size size < toSize sr))
        (by
          intro h
          simp only [Bool.and_eq_true, decide_eq_true_eq] at h
          exact h.1.2)
      obtain ⟨r, hr, hcurr⟩ := ih b.next last
        (if (b.free && decide (b.size > size)
            && decide (subSize b.size size < toSize sr)) = true then some k0 else w)
        (if (b.free && decide (b.size > size)
            && decide (subSize b.size size < toSize sr)) = true
          then toInt (subSize b.size size) else sr)
        (if b.free then nb + 1 else nb) hnext
        (fun j hj => hsz j (List.mem_cons_of_mem _ hj)) hst
      refine ⟨r, ?_, ?_⟩
      · rw [← hr]
        conv_lhs => unfold worstFitLoop
        simp only [hb]
      · rw [hcurr]
        conv_rhs => unfold leftoverScan
        rw [hbe]

/-- The winner of `leftoverScan` on a list in address order: a candidate with
the smallest leftover, and among those the one with the lowest address. -/
theorem leftoverScan_spec (bs : List Block) (size : Nat) :
    ∀ (l : List Nat) (w : Option Nat), l.Pairwise (fun a b => a < b) →
      (∀ k, w = some k → largerB bs size k = true ∧ ∀ j ∈ l, k < j) →
      (leftoverScan bs size l w = none → w = none ∧ ∀ j ∈ l, largerB bs size j = false) ∧
      (∀ k, leftoverScan bs size l w = some k →
        (w = some k ∨ k ∈ l) ∧ largerB bs size k = true ∧
        ∀ j, (w = some j ∨ j ∈ l) → largerB bs size j = true →
          sizeAt bs k - size ≤ sizeAt bs j - size ∧
          (sizeAt bs j - size = sizeAt bs k - size → k ≤ j)) := by
  intro l
  induction l with
  | nil =>
    intro w _ hw
    simp only [leftoverScan]
    refine ⟨fun h => ⟨h, fun j hj => by cases hj⟩, ?_⟩
    intro k hk
    refine ⟨Or.inl hk, (hw k hk).1, ?_⟩
    intro j hj _
    rcases hj with hj | hj
    · rw [hk] at hj
      simp only [Option.some.injEq] at hj
      subst hj
      exact ⟨le_refl _, fun _ => le_refl _⟩
    · cases hj
  | cons c rest ih =>
    intro w hp hw
    rw [List.pairwise_cons] at hp
    obtain ⟨hc, hp⟩ := hp
    simp only [leftoverScan]
    by_cases hbet : (largerB bs size c && beatsB bs size c w) = true
    · rw [if_pos hbet]
      simp only [Bool.and_eq_true] at hbet
      obtain ⟨hlc, hcmp⟩ := hbet
      obtain ⟨ih1, ih2⟩ := ih (some c) hp (by
        intro k hk
        simp only [Option.some.injEq] at hk
        subst hk
        exact ⟨hlc, hc⟩)
      refine ⟨fun h => (by cases (ih1 h).1), ?_⟩
      intro k hk
      obtain ⟨hmem, hlk, hmin⟩ := ih2 k hk
      refine ⟨?_, hlk, ?_⟩
      · rcases hmem with hmem | hmem
        · simp only [Option.some.injEq] at hmem
          subst hmem
          exact Or.inr (List.mem_cons_self _ _)
        · exact Or.inr (List.mem_cons_of_mem _ hmem)
      · intro j hj hlj
        rcases hj with hj | hj
        · subst hj
          simp only [beatsB, decide_eq_true_eq] at hcmp
          have := hmin c (Or.inl rfl) hlc
          omega
        · rw [List.mem_cons] at hj
          rcases hj with hj | hj
          · subst hj
            exact hmin j (Or.inl rfl) hlj
          · exact hmin j (Or.inr hj) hlj
    · rw [if_neg hbet]
      obtain ⟨ih1, ih2⟩ := ih w hp (by
        intro k hk
        exact ⟨(hw k hk).1, fun j hj => (hw k hk).2 j (List.mem_cons_of_mem _ hj)⟩)
      constructor
      · intro h
        obtain ⟨hwn, hall⟩ := ih1 h
        refine ⟨hwn, ?_⟩
        intro j hj
        rw [List.mem_cons] at hj
        rcases hj with hj | hj
        · subst hj
          subst hwn
          simpa [beatsB] using hbet
        · exact hall j hj
      · intro k hk
        obtain ⟨hmem, hlk, hmin⟩ := ih2 k hk
        refine ⟨?_, hlk, ?_⟩
        · rcases hmem with hmem | hmem
          · exact Or.inl hmem
          · exact Or.inr (List.mem_cons_of_mem _ hmem)
        · intro j hj hlj
          rcases hj with hj | hj
          · exact hmin j (Or.inl hj) hlj
          · rw [List.mem_cons] at hj
            rcases hj with hj | hj
            · subst hj
              cases hwe : w with
              | none =>
                subst hwe
                simp only [beatsB, Bool.and_true] at hbet
                exact absurd hlj hbet
              | some k1 =>
                subst hwe
                simp only [beatsB, Bool.and_eq_true, decide_eq_true_eq, not_and, not_lt] at hbet
                have h1 := hbet hlj
                have h2 := hmin k1 (Or.inl rfl) (hw k1 rfl).1
                have h3 := (hw k1 rfl).2 j (List.mem_cons_self _ _)
                omega
            · exact hmin j (Or.inr hj) hlj

/-! ## The print of the zero-size branch -/

/-- When `stdout` has its buffer or writes through, a request that aligns to 0
changes nothing but the request statistics and the bytes of the buffer. -/
theorem malloc_zero_quiet (pol : Policy) (os : Sbrk) (s s' : State) (size : Nat)
    (v : Option Nat) (hz : ALIGN4 size = 0) (hout : ∀ n, s.stdout ≠ .fresh n)
    (h : malloc pol os s size = .ret v s') :
    ∃ m, s' = { recordRequest s size with mem := m } := by
  rw [malloc_z _ _ _ _ hz] at h
  cases hp : printf pol os (recordRequest s size) with
  | stuck => rw [hp] at h; cases h
  | abort s1 => rw [hp] at h; cases h
  | ret u s1 =>
    rw [hp] at h
    simp only [Outcome.ret.injEq] at h
    rw [← h.2]
    unfold printf at hp
    rw [recordRequest_stdout] at hp
    cases hs : s.stdout with
    | fresh n => exact absurd hs (hout n)
    | unbuffered =>
      rw [hs] at hp
      simp only [Outcome.ret.injEq] at hp
      exact ⟨_, by rw [← hp.2]⟩
    | buffered b n =>
      rw [hs] at hp
      simp only at hp
      cases hsc : scribble (recordRequest s size) b n with
      | none => rw [hsc] at hp; cases hp
      | some s2 =>
        rw [hsc] at hp
        simp only [Outcome.ret.injEq] at hp
        obtain ⟨m, hm⟩ := scribble_eq _ _ _ _ hsc
        exact ⟨m, by rw [← hp.2, hm]⟩

theorem findFreeBlock_stdout (pol : Policy) (s : State) (last : Option Nat) (size : Nat)
    (r : Search) (h : findFreeBlock pol s last size = some r) : r.st.stdout = s.stdout := by
  cases pol with
  | FIT =>
    simp only [findFreeBlock] at h
    split at h
    · cases h
    · simp only [Option.some.injEq] at h
      subst h
      rfl
  | BEST =>
    simp only [findFreeBlock] at h
    split at h
    · cases h
    · simp only [Option.some.injEq] at h
      subst h
      rfl
  | WORST =>
    simp only [findFreeBlock] at h
    split at h
    · cases h
    · simp only [Option.some.injEq] at h
      subst h
      rfl
  | NEXT =>
    simp only [findFreeBlock] at h
    split at h
    · cases h
    · split at h
      · cases h
      · simp only [Option.some.injEq] at h
        subst h
        rfl

/-- A `malloc` that goes past the zero-size test leaves the stream alone. -/
theorem malloc_stdout (pol : Policy) (os : Sbrk) (s s' : State) (size : Nat) (v : Option Nat)
    (hnz : ALIGN4 size ≠ 0) (h : malloc pol os s size = .ret v s') :
    s'.stdout = s.stdout := by
  have hmark : ∀ (t t' : State) (k : Nat), markUsed t k = .ret v t' →
      t'.stdout = t.stdout := by
    intro t t' k hm
    simp only [markUsed] at hm
    cases hb : t.blocks[k]? with
    | none => rw [hb] at hm; cases hm
    | some b =>
      rw [hb] at hm
      simp only [Outcome.ret.injEq] at hm
      rw [← hm.2]
  have h0 := recordRequest_stdout s size
  rcases malloc_cases _ _ _ _ _ _ h with ⟨hz0, _⟩ | ⟨_, r, hr, hcase⟩
  · exact absurd hz0 hnz
  · have f1 := findFreeBlock_stdout _ _ _ _ _ hr
    rcases hcase with ⟨k, _, hmk⟩ | ⟨_, _, _, hs'⟩ | ⟨_, _, s2, k, hgrow, hmk⟩
    · rw [hmark _ _ _ hmk]
      exact f1.trans h0
    · rw [hs']
      exact f1.trans h0
    · obtain ⟨_, X, _, hs2, _⟩ := growHeap_grown_inv _ _ _ _ _ hgrow
      rw [hmark _ _ _ hmk, hs2]
      exact f1.trans h0

/-- The print of a request that aligns to 0, on a stream that has no buffer
yet: the request of the stream for its buffer goes through the statistics
prologue, and the stream has its buffer, or writes through, from then on. -/
theorem malloc_zero_fresh (pol : Policy) (os : Sbrk) (s s' : State) (size n : Nat)
    (v : Option Nat) (hz : ALIGN4 size = 0) (hout : s.stdout = .fresh n)
    (h : malloc pol os s size = .ret v s') :
    s'.num_requested = (recordRequest (recordRequest s size) n).num_requested ∧
    s'.atexit_registered = (recordRequest (recordRequest s size) n).atexit_registered ∧
    ∀ m, s'.stdout ≠ .fresh m := by
  rw [malloc_z _ _ _ _ hz] at h
  cases hp : printf pol os (recordRequest s size) with
  | stuck => rw [hp] at h; cases h
  | abort s1 => rw [hp] at h; cases h
  | ret u s1 =>
    rw [hp] at h
    simp only [Outcome.ret.injEq] at h
    rw [← h.2]
    unfold printf at hp
    rw [recordRequest_stdout, hout] at hp
    simp only at hp
    by_cases hzn : ALIGN4 n = 0
    · rw [if_pos hzn] at hp; cases hp
    · rw [if_neg hzn] at hp
      cases ha : allocate pol os (recordRequest (recordRequest s size) n) (ALIGN4 n) with
      | stuck => rw [ha] at hp; cases hp
      | abort s2 => rw [ha] at hp; cases hp
      | ret w s2 =>
        rw [ha] at hp
        have hm : malloc pol os (recordRequest s size) n = .ret w s2 := by
          rw [malloc_nz _ _ _ _ hzn]; exact ha
        obtain ⟨m1, m2, _, _⟩ := malloc_stats _ _ _ _ _ _ hzn hm
        cases w with
        | none =>
          simp only [Outcome.ret.injEq] at hp
          rw [← hp.2]
          exact ⟨m1, m2, fun m hne => by cases hne⟩
        | some b =>
          simp only at hp
          cases hs : scribble { s2 with stdout := .buffered b n } b n with
          | none => rw [hs] at hp; cases hp
          | some s3 =>
            rw [hs] at hp
            simp only [Outcome.ret.injEq] at hp
            obtain ⟨m, hm3⟩ := scribble_eq _ _ _ _ hs
            rw [← hp.2, hm3]
            exact ⟨m1, m2, fun m hne => by cases hne⟩

theorem streamRequest_quiet (out : Stdout) (reqs : List (Sbrk × Nat))
    (h : ∀ n, out ≠ .fresh n) : streamRequest out reqs = 0 := by
  cases out with
  | fresh n => exact absurd rfl (h n)
  | buffered b n => rfl
  | unbuffered => rfl

/-- What a returning `malloc` does to the total of the requests: it adds the
size, takes 1024 off when it registers the exit handler, and adds the size of
the buffer of the stream when it is the call at which the stream asks for it;
all of it in 32 bits. -/
theorem malloc_requested (pol : Policy) (os : Sbrk) (s s' : State) (size : Nat)
    (v : Option Nat) (h : malloc pol os s size = .ret v s') :
    s'.atexit_registered ≠ 0 ∧
    wrapInt s'.num_requested = s'.num_requested ∧
    s'.num_requested % 4294967296
      = (s.num_requested + (size : Int) + (streamRequest s.stdout [(os, size)] : Nat)
          - (if s.atexit_registered = 0 then 1024 else 0)) % 4294967296 ∧
    ∀ reqs, streamRequest s.stdout ((os, size) :: reqs)
      = streamRequest s.stdout [(os, size)] + streamRequest s'.stdout reqs := by
  obtain ⟨r1, r2, _, _⟩ := recordRequest_stats s size
  have hra : (recordRequest s size).atexit_registered ≠ 0 := by
    rw [r2]
    split_ifs with h0
    · decide
    · exact h0
  have hrw : wrapInt (recordRequest s size).num_requested
      = (recordRequest s size).num_requested := by
    rw [r1]
    split_ifs
    · exact wrapInt_congr _ _ (wrapInt_emod _)
    · exact wrapInt_congr _ _ (wrapInt_emod _)
  have hrr : (recordRequest s size).num_requested % 4294967296
      = (s.num_requested + (size : Int)
          - (if s.atexit_registered = 0 then 1024 else 0)) % 4294967296 := by
    rw [r1]
    have e1 := wrapInt_emod (wrapInt (s.num_requested + toInt size) - 1024)
    have e2 := wrapInt_emod (s.num_requested + toInt size)
    have e3 := toInt_emod size
    split_ifs <;> omega
  by_cases hz : ALIGN4 size = 0
  · by_cases hout : ∀ n, s.stdout ≠ .fresh n
    · obtain ⟨m, hs'⟩ := malloc_zero_quiet _ _ _ _ _ _ hz hout h
      have hst : s'.stdout = s.stdout := by rw [hs']; exact recordRequest_stdout s size
      have e0 : streamRequest s.stdout [(os, size)] = 0 := streamRequest_quiet _ _ hout
      refine ⟨by rw [hs']; exact hra, by rw [hs']; exact hrw, ?_, ?_⟩
      · rw [hs', e0]
        simp only [Nat.cast_zero, add_zero]
        exact hrr
      · intro reqs
        rw [hst, streamRequest_quiet _ _ hout, streamRequest_quiet _ _ hout,
          streamRequest_quiet _ _ hout]
    · push_neg at hout
      obtain ⟨n, hn⟩ := hout
      obtain ⟨f1, f2, f3⟩ := malloc_zero_fresh _ _ _ _ _ _ _ hz hn h
      obtain ⟨q1, q2, _, _⟩ := recordRequest_stats (recordRequest s size) n
      rw [if_neg hra] at q1 q2
      have e0 : ∀ reqs, streamRequest s.stdout ((os, size) :: reqs) = n := by
        intro reqs
        rw [hn]
        simp only [streamRequest, List.any_cons, hz, decide_True, Bool.true_or, if_true]
      refine ⟨by rw [f2, q2]; exact hra, ?_, ?_, ?_⟩
      · rw [f1, q1]
        exact wrapInt_congr _ _ (wrapInt_emod _)
      · rw [f1, q1, e0 []]
        have e1 := wrapInt_emod ((recordRequest s size).num_requested + toInt n)
        have e3 := toInt_emod n
        omega
      · intro reqs
        rw [e0 reqs, e0 [], streamRequest_quiet _ _ f3, add_zero]
  · obtain ⟨m1, m2, _, _⟩ := malloc_stats _ _ _ _ _ _ hz h
    have hst := malloc_stdout _ _ _ _ _ _ hz h
    have e0 : ∀ reqs, streamRequest s.stdout ((os, size) :: reqs)
        = streamRequest s.stdout reqs := by
      intro reqs
      cases s.stdout with
      | fresh n => simp only [streamRequest, List.any_cons, hz, decide_False, Bool.false_or]
      | buffered b n => rfl
      | unbuffered => rfl
    have e1 : streamRequest s.stdout [] = 0 := by
      cases s.stdout <;> rfl
    refine ⟨by rw [m2]; exact hra, by rw [m1]; exact hrw, ?_, ?_⟩
    · rw [m1, e0 [], e1]
      simp only [Nat.cast_zero, add_zero]
      exact hrr
    · intro reqs
      rw [e0 reqs, e0 [], e1, hst, zero_add]

/-- Once the exit handler is registered, a run of `malloc` calls adds the
requested sizes, those of the stream included, to `num_requested`, in 32
bits. -/
theorem runCalls_mallocs_requested (pol : Policy) :
    ∀ (reqs : List (Sbrk × Nat)) (s0 s : State), s0.atexit_registered ≠ 0 →
      wrapInt s0.num_requested = s0.num_requested →
      runCalls pol s0 (mallocCalls reqs) = some s →
      wrapInt s.num_requested = s.num_requested ∧
      s.num_requested % 4294967296
        = (s0.num_requested + ((reqs.map Prod.snd).sum : Nat)
            + (streamRequest s0.stdout reqs : Nat)) % 4294967296 := by
  intro reqs
  induction reqs with
  | nil =>
    intro s0 s _ hw h
    simp only [mallocCalls, List.map_nil, runCalls, Option.some.injEq] at h
    rw [← h]
    have e1 : streamRequest s0.stdout [] = 0 := by
      cases s0.stdout <;> rfl
    rw [e1]
    simp only [List.map_nil, List.sum_nil, Nat.cast_zero, add_zero]
    exact ⟨hw, trivial⟩
  | cons q reqs ih =>
    intro s0 s h0 _ h
    simp only [mallocCalls, List.map_cons, runCalls, Call.exec] at h
    cases hm : malloc pol q.1 s0 q.2 with
    | stuck => rw [hm] at h; cases h
    | abort s1 => rw [hm] at h; cases h
    | ret v s1 =>
      rw [hm] at h
      simp only at h
      obtain ⟨a1, a2, a3, a4⟩ := malloc_requested _ _ _ _ _ _ hm
      obtain ⟨i1, i2⟩ := ih s1 s a1 a2 h
      rw [if_neg h0] at a3
      refine ⟨i1, ?_⟩
      have e4 := a4 reqs
      rw [i2, e4]
      simp only [List.map_cons, List.sum_cons, Nat.cast_add]
      omega

/-- C1 (amended): a block handed out by `malloc(size)` is marked allocated and
its header reports a capacity of at least `ALIGN4(size)`.  A block carved by
`growHeap` reports exactly `ALIGN4(size)`; a reused block was free before the
call and keeps the capacity it had. -/
theorem malloc_header (pol : Policy) (os : Sbrk) (s s' : State) (size p : Nat)
    (h : malloc pol os s size = .ret (some p) s') :
    ∃ b, s'.blocks[p]? = some b ∧ b.free = false ∧ ALIGN4 size ≤ b.size ∧
      (s.blocks.length ≤ p → b.size = ALIGN4 size) ∧
      (p < s.blocks.length →
        ∃ b0, s.blocks[p]? = some b0 ∧ b0.free = true ∧ b.size = b0.size) := by
  obtain ⟨_, _, _, _, hc⟩ := malloc_ret_some _ _ _ _ _ _ h
  rcases hc with ⟨b, hb, hfree, hsz, hs', _⟩ | ⟨_, hp, _, _, X, hX, hs', _⟩
  · have hlt : p < s.blocks.length := getElem?_lt hb
    refine ⟨{ b with free := false }, ?_, rfl, hsz, fun hge => absurd hlt (by omega),
      fun _ => ⟨b, hb, hfree, rfl⟩⟩
    rw [hs']
    exact List.getElem?_set_self hlt
  · refine ⟨⟨ALIGN4 size, none, false⟩, ?_, rfl, le_refl _, fun _ => rfl,
      fun hlt => absurd hlt (by omega)⟩
    rw [hs', hp, ← hX, List.getElem?_append_right (le_refl _)]
    simp

/-- Witness for C1: the first `malloc(4)` of a process. -/
theorem malloc_header_witness :
    malloc .FIT .grown State.init 4 = .ret (some 0) heapAfterMalloc4 ∧
    ∃ b, heapAfterMalloc4.blocks[0]? = some b ∧ b.free = false ∧ ALIGN4 4 ≤ b.size ∧
      (State.init.blocks.length ≤ 0 → b.size = ALIGN4 4) ∧
      (0 < State.init.blocks.length →
        ∃ b0, State.init.blocks[0]? = some b0 ∧ b0.free = true ∧ b.size = b0.size) :=
  ⟨rfl, malloc_header .FIT .grown State.init heapAfterMalloc4 4 0 rfl⟩

/-- Counterexample to C1 as stated: after `malloc(8)` and `free`, the call
`malloc(4)` returns the same block, whose header still reports 8 bytes, while
`ALIGN4(4) = 4`. -/
theorem malloc_header_counterexample :
    returns .FIT State.init
        [(.grown, .malloc 8), (.grown, .free (some 0)), (.grown, .malloc 4)]
      = [some 0, none, some 0] ∧
    (runCalls .FIT State.init
        [(.grown, .malloc 8), (.grown, .free (some 0)), (.grown, .malloc 4)]).map State.blocks
      = some [⟨8, none, false⟩] ∧
    ALIGN4 4 = 4 := by
  decide

/-- C3 (amended): let `p = malloc(x)` succeed.  Under first-fit in every state,
under every policy when the call reused an existing block, and under next-fit
in every reachable state, `free(p)` followed by `malloc(x)` reuses a block `q`
whose address is not above that of `p`, adds one to the reuse counter and
leaves the heap-grow counter as it is; under first-fit and after a reuse `q` is
`p` itself. -/
theorem malloc_free_malloc (pol : Policy) (os os' : Sbrk) (s s1 : State) (x p : Nat)
    (h1 : malloc pol os s x = .ret (some p) s1)
    (hcase : pol = .FIT ∨ p < s.blocks.length ∨ (pol = .NEXT ∧ Reachable .NEXT s)) :
    ∃ s2 s3 q, free s1 (some p) = .ret () s2 ∧ malloc pol os' s2 x = .ret (some q) s3 ∧
      q ≤ p ∧ (pol = .FIT ∨ p < s.blocks.length → q = p) ∧
      s3.num_reuses = s2.num_reuses + 1 ∧ s3.num_grows = s2.num_grows := by
  by_cases hsame : pol = .FIT ∨ p < s.blocks.length
  · obtain ⟨s2, s3, hf, hm, hr, hg⟩ := malloc_free_malloc_same pol os os' s s1 x p h1 hsame
    exact ⟨s2, s3, p, hf, hm, le_refl _, fun _ => rfl, hr, hg⟩
  · have hnext : pol = .NEXT ∧ Reachable .NEXT s := by
      rcases hcase with h | h | h
      · exact absurd (Or.inl h) hsame
      · exact absurd (Or.inr h) hsame
      · exact h
    obtain ⟨hpol, hreach⟩ := hnext
    subst hpol
    have hge : s.blocks.length ≤ p := by
      by_contra hlt
      exact hsame (Or.inr (by omega))
    obtain ⟨s2, s3, q, hf, hm, hq, hr, hg⟩ :=
      malloc_free_malloc_next os os' s s1 x p hreach.linear_NEXT h1 hge
    exact ⟨s2, s3, q, hf, hm, hq, fun h => absurd h hsame, hr, hg⟩

/-- Witness for C3: the reachable next-fit state `heapNextFit`, in which
`malloc(8)` grows the heap by block 2. -/
theorem malloc_free_malloc_witness :
    ∃ s2 s3 q, free heapNextFitGrown (some 2) = .ret () s2 ∧
      malloc .NEXT .grown s2 8 = .ret (some q) s3 ∧
      q ≤ 2 ∧ (Policy.NEXT = .FIT ∨ 2 < heapNextFit.blocks.length → q = 2) ∧
      s3.num_reuses = s2.num_reuses + 1 ∧ s3.num_grows = s2.num_grows :=
  malloc_free_malloc .NEXT .grown .grown heapNextFit heapNextFitGrown 8 2 rfl
    (Or.inr (Or.inr ⟨rfl, .fresh 4096,
      [(.grown, .malloc 8), (.grown, .malloc 4), (.grown, .free (some 1)),
       (.grown, .malloc 4), (.grown, .free (some 0))], rfl⟩))

/-- Counterexample to C3 as stated.  Under best-fit a process calls `malloc(4)`,
frees the block and calls `malloc(4)` again: the second call returns block 1,
not block 0, the heap has grown twice and nothing was reused.  Under next-fit
the calls `malloc(8)`, `malloc(4)`, `free` of the second block, `malloc(4)`,
`free` of the first block lead to a state in which `malloc(8)` returns the new
block 2; after `free` of block 2 the call `malloc(8)` returns block 0. -/
theorem malloc_free_malloc_counterexample :
    returns .BEST State.init
        [(.grown, .malloc 4), (.grown, .free (some 0)), (.grown, .malloc 4)]
      = [some 0, none, some 1] ∧
    (runCalls .BEST State.init
        [(.grown, .malloc 4), (.grown, .free (some 0)), (.grown, .malloc 4)]).map
        (fun s => (s.num_grows, s.num_reuses))
      = some (2, 0) ∧
    returns .NEXT State.init
        [(.grown, .malloc 8), (.grown, .malloc 4), (.grown, .free (some 1)),
         (.grown, .malloc 4), (.grown, .free (some 0)),
         (.grown, .malloc 8), (.grown, .free (some 2)), (.grown, .malloc 8)]
      = [some 0, some 1, none, some 1, none, some 2, none, some 0] := by
  decide

/-- C4: `free` of an allocated block returns and marks the block free; a second
`free` of the same pointer ends in the failed assertion, in the state the
first call left (the free counter is not incremented again).  Any `free` of a
block whose flag is already set ends in the failed assertion. -/
theorem free_double (s : State) (p : Nat) (b : Block) (hb : s.blocks[p]? = some b) :
    (b.free = true → free s (some p) = .abort s) ∧
    (b.free = false → ∃ s1, free s (some p) = .ret () s1 ∧
      s1.blocks = s.blocks.set p { b with free := true } ∧
      s1.num_frees = s.num_frees + 1 ∧
      free s1 (some p) = .abort s1) := by
  refine ⟨fun hf => free_abort s p b hb hf, fun hf => ?_⟩
  refine ⟨_, free_eq s p b hb hf, rfl, rfl, ?_⟩
  exact free_abort _ p { b with free := true }
    (List.getElem?_set_self (getElem?_lt hb)) rfl

/-- Witness for C4: the one block of `heapTwoInts`. -/
theorem free_double_witness :
    heapTwoInts.blocks[0]? = some ⟨8, none, false⟩ ∧
    ∃ s1, free heapTwoInts (some 0) = .ret () s1 ∧
      s1.num_frees = heapTwoInts.num_frees + 1 ∧ free s1 (some 0) = .abort s1 := by
  obtain ⟨s1, h1, _, h3, h4⟩ := (free_double heapTwoInts 0 ⟨8, none, false⟩ rfl).2 rfl
  exact ⟨rfl, s1, h1, h3, h4⟩

/-- C6 (amended): when `n * size` is positive and does not overflow and the
inner `malloc(n * size)` hands out block `q`, whose recorded size is below
`2^63 - 32` so that its whole payload was reserved, `calloc(n, size)` returns
`q` with its first `n * size` payload bytes zero, all of them inside the
capacity of the block, and changes nothing else; the state before the call, a
reused block's old bytes included, is arbitrary. -/
theorem calloc_zeroed (pol : Policy) (os : Sbrk) (s s1 : State) (n size q : Nat) (b : Block)
    (hpos : 0 < n * size) (hlt : n * size < SIZE_MOD)
    (hm : malloc pol os s (n * size) = .ret (some q) s1)
    (hb : s1.blocks[q]? = some b) (hres : b.size < 9223372036854775776) :
    ∃ s', calloc pol os s n size = .ret (some q) s' ∧
      (∀ i, i < n * size → s'.mem q i = some 0) ∧
      (∀ k i, ¬ (k = q ∧ i < n * size) → s'.mem k i = s1.mem k i) ∧
      s'.blocks = s1.blocks ∧ b.free = false ∧ n * size ≤ b.size := by
  have hmod : n * size % SIZE_MOD = n * size := Nat.mod_eq_of_lt hlt
  obtain ⟨b', hbq, hfree, hsz⟩ := malloc_block _ _ _ _ _ _ hm
  rw [hb] at hbq
  simp only [Option.some.injEq] at hbq
  subst hbq
  obtain ⟨hz, _⟩ := malloc_ret_some _ _ _ _ _ _ hm
  have hle : n * size ≤ b.size := le_trans (ALIGN4_ge _ hz hlt) hsz
  have hms : memset s1 q 0 (n * size) = some { s1 with
      mem := fun k i => if k = q ∧ i < n * size then some 0 else s1.mem k i } := by
    unfold memset
    rw [hb]
    simp only
    rw [if_pos]
    unfold reserved
    rw [if_pos hres]
    exact hle
  unfold calloc
  simp only [hmod, hm, if_neg (Nat.pos_iff_ne_zero.mp hpos), hms]
  refine ⟨_, rfl, ?_, ?_, rfl, hfree, hle⟩
  · intro i hi
    simp only [hi, and_self, if_true]
  · intro k i hki
    simp only [if_neg hki]

/-- Witness for C6: `calloc(2, 4)` reuses a free block full of `0xff` bytes. -/
theorem calloc_zeroed_witness :
    ∃ s1, malloc .FIT .grown heapDirtyFree (2 * 4) = .ret (some 0) s1 ∧
      heapDirtyFree.mem 0 0 = some 255 ∧
      ∃ s', calloc .FIT .grown heapDirtyFree 2 4 = .ret (some 0) s' ∧
        (∀ i, i < 2 * 4 → s'.mem 0 i = some 0) ∧
        (∀ k i, ¬ (k = 0 ∧ i < 2 * 4) → s'.mem k i = s1.mem k i) ∧
        s'.blocks = s1.blocks ∧ Block.free ⟨8, none, false⟩ = false ∧
        2 * 4 ≤ Block.size ⟨8, none, false⟩ :=
  ⟨_, rfl, rfl,
    calloc_zeroed .FIT .grown heapDirtyFree _ 2 4 0 ⟨8, none, false⟩ (by decide) (by decide)
      rfl rfl (by decide)⟩

/-- Counterexample to C6 as stated: the product of `2^62 - 1` and `4` is
`2^64 - 4`, positive and without overflow.  The inner `malloc` succeeds: it
hands out block 0, whose header records `2^64 - 4` bytes, but the sum of header
and size has wrapped and the break has moved by 28 bytes only.  The fill of
`2^64 - 4` bytes does not stay inside what was reserved, and `calloc` does not
return. -/
theorem calloc_past_reserved_counterexample :
    0 < 4611686018427387903 * 4 ∧ 4611686018427387903 * 4 < SIZE_MOD ∧
    (malloc .FIT .grown State.init (4611686018427387903 * 4)).value? = some (some 0) ∧
    (malloc .FIT .grown State.init (4611686018427387903 * 4)).state?.map
        (fun s => (s.blocks, heapEnd s.blocks))
      = some ([⟨18446744073709551612, none, false⟩], 28) ∧
    (calloc .FIT .grown State.init 4611686018427387903 4).returned = false ∧
    (calloc .FIT .grown State.init 4611686018427387903 4).undefined = true := by
  decide

/-- C7 (amended): `calloc(n, size)` makes no overflow check.  When `n * size`
exceeds the largest `size_t`, it calls `malloc` with the wrapped product
`t = n * size mod 2^64`, which is less than the product.  Whenever that
`malloc(t)` hands out block `q` whose recorded size is below `2^63 - 32`,
`calloc` returns `q`, an allocated block of capacity at least `ALIGN4(t)` whose
first `t` bytes are zero.  When `t = 0` it does what `malloc(0)` does, and what
it returns is `NULL`. -/
theorem calloc_wraps (pol : Policy) (os : Sbrk) (s : State) (n size : Nat)
    (hov : SIZE_MOD ≤ n * size) :
    (∀ (q : Nat) (s1 : State) (b : Block),
      malloc pol os s (n * size % SIZE_MOD) = .ret (some q) s1 →
      s1.blocks[q]? = some b → b.size < 9223372036854775776 →
      ∃ s', calloc pol os s n size = .ret (some q) s' ∧
        (∀ i, i < n * size % SIZE_MOD → s'.mem q i = some 0) ∧
        s'.blocks = s1.blocks ∧ b.free = false ∧
        ALIGN4 (n * size % SIZE_MOD) ≤ b.size) ∧
    (n * size % SIZE_MOD = 0 →
      calloc pol os s n size = malloc pol os s 0 ∧
      ∀ v s', calloc pol os s n size = .ret v s' → v = none) ∧
    n * size % SIZE_MOD < n * size := by
  refine ⟨?_, ?_, lt_of_lt_of_le (Nat.mod_lt _ (by decide)) hov⟩
  · intro q s1 b hm hb hres
    obtain ⟨b', hbq, hfree, hsz⟩ := malloc_block _ _ _ _ _ _ hm
    rw [hb] at hbq
    simp only [Option.some.injEq] at hbq
    subst hbq
    obtain ⟨hz, _⟩ := malloc_ret_some _ _ _ _ _ _ hm
    have hne : n * size % SIZE_MOD ≠ 0 := by
      intro e
      rw [e] at hz
      exact hz ALIGN4_zero
    have hle : n * size % SIZE_MOD ≤ b.size :=
      le_trans (ALIGN4_ge _ hz (Nat.mod_lt _ (by decide))) hsz
    have hms : memset s1 q 0 (n * size % SIZE_MOD) = some { s1 with
        mem := fun k i => if k = q ∧ i < n * size % SIZE_MOD then some 0 else s1.mem k i } := by
      unfold memset
      rw [hb]
      simp only
      rw [if_pos]
      unfold reserved
      rw [if_pos hres]
      exact hle
    unfold calloc
    simp only [hm, if_neg hne, hms]
    refine ⟨_, rfl, ?_, rfl, hfree, hsz⟩
    intro i hi
    simp only [hi, and_self, if_true]
  · intro hzero
    have e : calloc pol os s n size = malloc pol os s 0 := by
      unfold calloc
      simp only [hzero, if_true]
      cases malloc pol os s 0 <;> rfl
    refine ⟨e, ?_⟩
    intro v s' h
    rw [e] at h
    exact malloc_z_none _ _ _ _ _ _ ALIGN4_zero h

/-- Witness for C7: `calloc(2^62 + 1, 4)`, whose product is `2^64 + 4`. -/
theorem calloc_wraps_witness :
    SIZE_MOD ≤ 4611686018427387905 * 4 ∧
    ∃ s1, malloc .FIT .grown State.init (4611686018427387905 * 4 % SIZE_MOD)
        = .ret (some 0) s1 ∧
      ∃ s', calloc .FIT .grown State.init 4611686018427387905 4 = .ret (some 0) s' ∧
        (∀ i, i < 4611686018427387905 * 4 % SIZE_MOD → s'.mem 0 i = some 0) ∧
        s'.blocks = s1.blocks ∧ Block.free ⟨4, none, false⟩ = false ∧
        ALIGN4 (4611686018427387905 * 4 % SIZE_MOD) ≤ Block.size ⟨4, none, false⟩ :=
  ⟨by decide, _, rfl,
   (calloc_wraps .FIT .grown State.init 4611686018427387905 4 (by decide)).1 0 _
      ⟨4, none, false⟩ rfl rfl (by decide)⟩

/-- Counterexample to C7 as stated: the product of `2^62 + 1` and `4` exceeds
the largest `size_t`, yet `calloc` returns a block, and the block has the
4 bytes of the wrapped product.  The product of `2^63 - 1` and `4` wraps to
`2^64 - 4`: the inner `malloc` hands out a block whose header records that
size on 28 reserved bytes, and the fill of `2^64 - 4` bytes has no defined
result; `calloc` does not return `NULL`. -/
theorem calloc_overflow_counterexample :
    SIZE_MOD ≤ 4611686018427387905 * 4 ∧
    4611686018427387905 * 4 % SIZE_MOD = 4 ∧
    (calloc .FIT .grown State.init 4611686018427387905 4).value? = some (some 0) ∧
    (calloc .FIT .grown State.init 4611686018427387905 4).state?.map State.blocks
      = some [⟨4, none, false⟩] ∧
    SIZE_MOD ≤ 9223372036854775807 * 4 ∧
    9223372036854775807 * 4 % SIZE_MOD = 18446744073709551612 ∧
    (malloc .FIT .grown State.init 18446744073709551612).value? = some (some 0) ∧
    (malloc .FIT .grown State.init 18446744073709551612).state?.map
        (fun s => (s.blocks, heapEnd s.blocks))
      = some ([⟨18446744073709551612, none, false⟩], 28) ∧
    (calloc .FIT .grown State.init 9223372036854775807 4).returned = false ∧
    (calloc .FIT .grown State.init 9223372036854775807 4).undefined = true := by
  decide

/-- C8 (amended): when the search reports no match and the OS does not extend
the break, `malloc` hands out no block, and the state in which the call ends
has the block table, the list head, the payload bytes and the counters of
mallocs, frees, reuses and grows of the state before the call.  This holds of
every request that does not align to 0, and of the others when `stdout` writes
through, so that the print of the zero-size branch touches no memory. -/
theorem malloc_oom_frame (pol : Policy) (os : Sbrk) (s : State) (size : Nat) (r : Search)
    (hz : ALIGN4 size ≠ 0 ∨ s.stdout = .unbuffered) (hos : os ≠ .grown)
    (hr : findFreeBlock pol (recordRequest s size) (recordRequest s size).heapList
        (ALIGN4 size) = some r)
    (hnone : r.curr = none) :
    (∀ p, (malloc pol os s size).value? ≠ some (some p)) ∧
    ∃ s', (malloc pol os s size).state? = some s' ∧
      s'.blocks = s.blocks ∧ s'.heapList = s.heapList ∧ s'.mem = s.mem ∧
      s'.num_mallocs = s.num_mallocs ∧ s'.num_frees = s.num_frees ∧
      s'.num_reuses = s.num_reuses ∧ s'.num_grows = s.num_grows := by
  obtain ⟨hb0, hm0, hh0, _, hnm0, hnf0, hnr0, hng0, _⟩ := recordRequest_frame s size
  obtain ⟨fb, fm, fh, fnm, fnf, fnr, fng, _, _⟩ := findFreeBlock_spec _ _ _ _ _ hr
  by_cases hz0 : ALIGN4 size = 0
  · have hout : s.stdout = .unbuffered := by
      rcases hz with h | h
      · exact absurd hz0 h
      · exact h
    rw [malloc_zero_eq pol os s size hz0 hout]
    exact ⟨fun p hp => by simp [Outcome.value?] at hp,
      _, rfl, hb0, hh0, hm0, hnm0, hnf0, hnr0, hng0⟩
  · cases os with
    | grown => exact absurd rfl hos
    | denied =>
      have e : malloc pol .denied s size = .abort r.st := by
        rw [malloc_nz _ _ _ _ hz0]
        unfold allocate
        rw [hr]
        simp only [hnone, growHeap]
      rw [e]
      exact ⟨fun p hp => by simp [Outcome.value?] at hp,
        _, rfl, by rw [fb, hb0], by rw [fh, hh0], by rw [fm, hm0], by rw [fnm, hnm0],
        by rw [fnf, hnf0], by rw [fnr, hnr0], by rw [fng, hng0]⟩
    | dead =>
      have e : malloc pol .dead s size = .ret none r.st := by
        rw [malloc_nz _ _ _ _ hz0]
        unfold allocate
        rw [hr]
        simp only [hnone, growHeap]
      rw [e]
      exact ⟨fun p hp => by simp [Outcome.value?] at hp,
        _, rfl, by rw [fb, hb0], by rw [fh, hh0], by rw [fm, hm0], by rw [fnm, hnm0],
        by rw [fnf, hnf0], by rw [fnr, hnr0], by rw [fng, hng0]⟩

/-- Witness for C8: a request of 4 bytes on a heap whose only block is in use,
with the break extension refused. -/
theorem malloc_oom_frame_witness :
    (∀ p, (malloc .FIT .denied heapTwoInts 4).value? ≠ some (some p)) ∧
    ∃ s', (malloc .FIT .denied heapTwoInts 4).state? = some s' ∧
      s'.blocks = heapTwoInts.blocks ∧ s'.heapList = heapTwoInts.heapList ∧
      s'.mem = heapTwoInts.mem ∧
      s'.num_mallocs = heapTwoInts.num_mallocs ∧ s'.num_frees = heapTwoInts.num_frees ∧
      s'.num_reuses = heapTwoInts.num_reuses ∧ s'.num_grows = heapTwoInts.num_grows :=
  malloc_oom_frame .FIT .denied heapTwoInts 4 ⟨none, some 0, recordRequest heapTwoInts 4⟩
    (Or.inl (by decide)) (by decide) rfl rfl

/-- Counterexample to C8 as stated, on the empty heap with a request of 4
bytes.  When `sbrk(0)` answers the break and the extension answers
`(void *)-1`, the call ends in the failed `assert(curr == prev)` instead of
returning.  When both answer `(void *)-1` the call returns `NULL`, but the
bytes-requested statistic has gone from 0 to -1020 and the largest-request
statistic from 0 to 4. -/
theorem malloc_oom_counterexample :
    (malloc .FIT .denied State.init 4).aborted = true ∧
    (malloc .FIT .denied State.init 4).returned = false ∧
    (malloc .FIT .dead State.init 4).value? = some none ∧
    (malloc .FIT .dead State.init 4).state?.map State.num_requested = some (-1020) ∧
    (malloc .FIT .dead State.init 4).state?.map State.max_heap = some 4 ∧
    State.init.num_requested = 0 ∧ State.init.max_heap = 0 := by
  decide

/-- C9 (the code at the failing input): under first-fit, two blocks of 4 bytes
are allocated one after the other and both are freed; the block table still
holds two free blocks of 4 bytes each, linked one behind the other, and the
coalesce counter is 0. -/
theorem free_leaves_adjacent_free_blocks :
    returns .FIT State.init
        [(.grown, .malloc 4), (.grown, .malloc 4), (.grown, .free (some 0)),
         (.grown, .free (some 1))]
      = [some 0, some 1, none, none] ∧
    (runCalls .FIT State.init
        [(.grown, .malloc 4), (.grown, .malloc 4), (.grown, .free (some 0)),
         (.grown, .free (some 1))]).map State.blocks
      = some [⟨4, some 1, true⟩, ⟨4, none, true⟩] ∧
    (runCalls .FIT State.init
        [(.grown, .malloc 4), (.grown, .malloc 4), (.grown, .free (some 0)),
         (.grown, .free (some 1))]).map State.num_coalesces
      = some 0 := by
  decide

/-- C10: under first-fit, on every state with acyclic links, `findFreeBlock`
returns, and what it returns is the first block of the list, in list order,
that is free with `size` bytes or more; that block has the lowest address of
all such blocks of the list; the result is `NULL` exactly when the list has no
such block; and `num_blocks` grows by the number of free blocks in front of the
returned block, the blocks behind it not being looked at. -/
theorem firstFit_lowest (s : State) (last : Option Nat) (size : Nat) (hwf : s.WF) :
    ∃ r, findFreeBlock .FIT s last size = some r ∧
      r.curr = s.list.find? (fitsB s.blocks size) ∧
      (∀ i, r.curr = some i → i ∈ s.list ∧ fitsB s.blocks size i = true ∧
        ∀ j ∈ s.list, fitsB s.blocks size j = true → i ≤ j) ∧
      (r.curr = none ↔ ∀ j ∈ s.list, fitsB s.blocks size j = false) ∧
      r.st.num_blocks = s.num_blocks +
        ((s.list.takeWhile (fun j => !fitsB s.blocks size j)).countP (isFreeB s.blocks) : Nat) ∧
      r.st.blocks = s.blocks := by
  obtain ⟨hl, hh, _⟩ := hwf
  have hc : ∀ k, s.heapList = some k →
      k < s.blocks.length ∧ s.blocks.length - k ≤ s.blocks.length := by
    intro k hk
    rw [hk] at hh
    simp only [Option.all_some, decide_eq_true_eq] at hh
    exact ⟨hh, Nat.sub_le _ _⟩
  obtain ⟨l, hloop⟩ := firstFitLoop_list s.blocks size hl s.blocks.length s.heapList last
    s.num_blocks hc
  simp only [findFreeBlock, hloop]
  refine ⟨_, rfl, rfl, ?_, ?_, rfl, rfl⟩
  · intro i hi
    have hi' : (listFrom s.blocks s.blocks.length s.heapList).find? (fitsB s.blocks size)
        = some i := hi
    exact ⟨List.mem_of_find?_eq_some hi', List.find?_some hi',
      listFrom_find_lowest s.blocks hl _ _ _ _ hi'⟩
  · show (listFrom s.blocks s.blocks.length s.heapList).find? (fitsB s.blocks size) = none ↔ _
    rw [List.find?_eq_none]
    simp only [State.list, Bool.not_eq_true]

/-- Witness for C10: a request of 12 bytes on `heapFourBlocks`. -/
theorem firstFit_lowest_witness :
    heapFourBlocks.list = [0, 1, 2, 3] ∧
    ∃ r, findFreeBlock .FIT heapFourBlocks none 12 = some r ∧
      r.curr = heapFourBlocks.list.find? (fitsB heapFourBlocks.blocks 12) ∧
      (∀ i, r.curr = some i → i ∈ heapFourBlocks.list ∧
        fitsB heapFourBlocks.blocks 12 i = true ∧
        ∀ j ∈ heapFourBlocks.list, fitsB heapFourBlocks.blocks 12 j = true → i ≤ j) ∧
      (r.curr = none ↔ ∀ j ∈ heapFourBlocks.list, fitsB heapFourBlocks.blocks 12 j = false) ∧
      r.st.num_blocks = heapFourBlocks.num_blocks +
        ((heapFourBlocks.list.takeWhile (fun j => !fitsB heapFourBlocks.blocks 12 j)).countP
          (isFreeB heapFourBlocks.blocks) : Nat) ∧
      r.st.blocks = heapFourBlocks.blocks :=
  ⟨by decide, firstFit_lowest heapFourBlocks none 12 (by decide)⟩

/-- C11 (the code at the failing input): under best-fit a process calls
`malloc(4)` and frees the block.  The list then holds one free block of exactly
4 bytes, yet `findFreeBlock` for 4 bytes reports no match, and a further
`malloc(4)` grows the heap by block 1 instead of reusing block 0. -/
theorem bestFit_misses_exact_fit :
    (runCalls .BEST State.init [(.grown, .malloc 4), (.grown, .free (some 0))]).map
        State.blocks
      = some [⟨4, none, true⟩] ∧
    (runCalls .BEST State.init [(.grown, .malloc 4), (.grown, .free (some 0))]).bind
        (fun s => (findFreeBlock .BEST s s.heapList 4).map Search.curr)
      = some none ∧
    returns .BEST State.init
        [(.grown, .malloc 4), (.grown, .free (some 0)), (.grown, .malloc 4)]
      = [some 0, none, some 1] := by
  decide

/-- C12 (the code at the failing input): under worst-fit a process allocates
blocks of 8 and 32 bytes and frees both.  For a request of 4 bytes the leftovers
are 4 and 28; `findFreeBlock` returns block 0, the one with the smaller
leftover, and `malloc(4)` hands out block 0. -/
theorem worstFit_takes_smallest_leftover :
    (runCalls .WORST State.init
        [(.grown, .malloc 8), (.grown, .malloc 32), (.grown, .free (some 0)),
         (.grown, .free (some 1))]).map State.blocks
      = some [⟨8, some 1, true⟩, ⟨32, none, true⟩] ∧
    (runCalls .WORST State.init
        [(.grown, .malloc 8), (.grown, .malloc 32), (.grown, .free (some 0)),
         (.grown, .free (some 1))]).bind
        (fun s => (findFreeBlock .WORST s s.heapList 4).map Search.curr)
      = some (some 0) ∧
    returns .WORST State.init
        [(.grown, .malloc 8), (.grown, .malloc 32), (.grown, .free (some 0)),
         (.grown, .free (some 1)), (.grown, .malloc 4)]
      = [some 0, some 1, none, none, some 0] := by
  decide

/-- C13 (amended): under next-fit, in every reachable state, when a free block
`j` of at least the requested size lies at or behind the cursor, or anywhere on
the list while the cursor is `NULL`, `findFreeBlock` returns a fitting block
between the cursor and `j`, and `malloc` hands out a block without growing the
heap. -/
theorem nextFit_from_cursor (s : State) (j : Nat) (hreach : Reachable .NEXT s)
    (hcur : ∀ c, s.lastList = some c → c ≤ j) :
    (∀ (last : Option Nat) (size : Nat), Fits s.blocks size j →
      ∃ r k, findFreeBlock .NEXT s last size = some r ∧ r.curr = some k ∧
        Fits s.blocks size k ∧ k ≤ j ∧ ∀ c, s.lastList = some c → c ≤ k) ∧
    (∀ (os : Sbrk) (x : Nat), ALIGN4 x ≠ 0 → Fits s.blocks (ALIGN4 x) j →
      ∃ k s', malloc .NEXT os s x = .ret (some k) s' ∧ s'.num_grows = s.num_grows ∧
        s'.blocks.length = s.blocks.length) := by
  have hlin := hreach.linear_NEXT
  constructor
  · intro last size hj
    obtain ⟨r, k, hr, hk, hfit, hkj, hck, _⟩ :=
      findFreeBlock_NEXT_finds s last size j hlin hj hcur
    exact ⟨r, k, hr, hk, hfit, hkj, hck⟩
  · intro os x hz hj
    obtain ⟨hb0, _, hh0, hl0, _, _, _, hng0, _⟩ := recordRequest_frame s x
    obtain ⟨r, k, hr, hk, hfit, _, _, hrb, hrg⟩ :=
      findFreeBlock_NEXT_finds (recordRequest s x) (recordRequest s x).heapList (ALIGN4 x) j
        (hlin.of_eq hb0 hh0 hl0) (by rw [hb0]; exact hj)
        (fun c hc => hcur c (by rw [← hl0]; exact hc))
    obtain ⟨b, hb, _, _⟩ := hfit
    have hm := malloc_of_found .NEXT os s x k r hz hr hk
    simp only [markUsed, hrb, hb, BLOCK_DATA] at hm
    refine ⟨k, _, hm, ?_, ?_⟩
    · simp only [hrg, hng0]
    · simp only [List.length_set, hb0]

/-- Witness for C13: the reachable next-fit state `heapNextFitCursor`, whose
cursor stands on the free block 1. -/
theorem nextFit_from_cursor_witness :
    (∀ (last : Option Nat) (size : Nat), Fits heapNextFitCursor.blocks size 1 →
      ∃ r k, findFreeBlock .NEXT heapNextFitCursor last size = some r ∧ r.curr = some k ∧
        Fits heapNextFitCursor.blocks size k ∧ k ≤ 1 ∧
        ∀ c, heapNextFitCursor.lastList = some c → c ≤ k) ∧
    (∀ (os : Sbrk) (x : Nat), ALIGN4 x ≠ 0 → Fits heapNextFitCursor.blocks (ALIGN4 x) 1 →
      ∃ k s', malloc .NEXT os heapNextFitCursor x = .ret (some k) s' ∧
        s'.num_grows = heapNextFitCursor.num_grows ∧
        s'.blocks.length = heapNextFitCursor.blocks.length) :=
  nextFit_from_cursor heapNextFitCursor 1
    ⟨.fresh 4096, [(.grown, .malloc 8), (.grown, .malloc 4), (.grown, .free (some 1)),
      (.grown, .malloc 4), (.grown, .free (some 1))], rfl⟩
    (fun c hc => by
      have : c = 1 := by
        simp only [heapNextFitCursor, Option.some.injEq] at hc
        exact hc.symm
      omega)

/-- Counterexample to C13 as stated: the next-fit calls `malloc(8)`, `malloc(4)`,
`free` of block 1, `malloc(4)`, `free` of block 0 lead to a list whose block 0
is free with 8 bytes while the cursor stands on block 1.  `findFreeBlock` for
8 bytes reports no match, and `malloc(8)` returns the new block 2 and the
heap-grow count goes from 2 to 3. -/
theorem nextFit_no_wrap_counterexample :
    (runCalls .NEXT State.init
        [(.grown, .malloc 8), (.grown, .malloc 4), (.grown, .free (some 1)),
         (.grown, .malloc 4), (.grown, .free (some 0))]).map
        (fun s => (s.blocks, s.lastList, s.num_grows))
      = some ([⟨8, some 1, true⟩, ⟨4, none, false⟩], some 1, 2) ∧
    (runCalls .NEXT State.init
        [(.grown, .malloc 8), (.grown, .malloc 4), (.grown, .free (some 1)),
         (.grown, .malloc 4), (.grown, .free (some 0))]).bind
        (fun s => (findFreeBlock .NEXT s s.heapList 8).map Search.curr)
      = some none ∧
    returns .NEXT State.init
        [(.grown, .malloc 8), (.grown, .malloc 4), (.grown, .free (some 1)),
         (.grown, .malloc 4), (.grown, .free (some 0)), (.grown, .malloc 8)]
      = [some 0, some 1, none, some 1, none, some 2] ∧
    (runCalls .NEXT State.init
        [(.grown, .malloc 8), (.grown, .malloc 4), (.grown, .free (some 1)),
         (.grown, .malloc 4), (.grown, .free (some 0)), (.grown, .malloc 8)]).map
        State.num_grows
      = some 3 := by
  decide

/-- C14 (the code at the failing input): under worst-fit three calls `malloc(4)`
grow the heap three times.  After the second call the list is block 0, block 1;
the third call links the new block 2 behind block 0, the list head, and the
list becomes block 0, block 2: block 1 is no longer on the list. -/
theorem worstFit_growth_drops_block :
    (runCalls .WORST State.init [(.grown, .malloc 4), (.grown, .malloc 4)]).map State.list
      = some [0, 1] ∧
    (runCalls .WORST State.init
        [(.grown, .malloc 4), (.grown, .malloc 4), (.grown, .malloc 4)]).map State.list
      = some [0, 2] ∧
    (runCalls .WORST State.init
        [(.grown, .malloc 4), (.grown, .malloc 4), (.grown, .malloc 4)]).map State.blocks
      = some [⟨4, some 2, false⟩, ⟨4, none, false⟩, ⟨4, none, false⟩] ∧
    (runCalls .WORST State.init [(.grown, .malloc 4), (.grown, .malloc 4)]).bind
        (fun s => (findFreeBlock .WORST s s.heapList 4).map Search.last)
      = some (some 0) := by
  decide

/-- C16: `realloc(NULL, n)` is `malloc(n)`: the same outcome, hence the same
return value and the same resulting state. -/
theorem realloc_null (pol : Policy) (os : Sbrk) (s : State) (n : Nat) :
    realloc pol os s none n = malloc pol os s n := by
  simp only [realloc]

/-- C17 (the code at the failing input): after `malloc(8)`, `malloc(4)` and
`malloc(6)` the statistic `max_heap` is 6, the last request that exceeded the
request before it, while the largest request was 8. -/
theorem max_heap_is_not_the_maximum :
    (runCalls .FIT State.init
        [(.grown, .malloc 8), (.grown, .malloc 4), (.grown, .malloc 6)]).map State.max_heap
      = some 6 ∧
    returns .FIT State.init
        [(.grown, .malloc 8), (.grown, .malloc 4), (.grown, .malloc 6)]
      = [some 0, some 1, some 2] ∧
    max 8 (max 4 6) = 8 := by
  decide

/-- C18 (amended): after one or more `malloc` calls from the initial state of a
process, whatever the state of its `stdout`, `num_requested` is, in 32 bits, the
sum of the sizes, plus the size of the buffer that the stream requests when one
of the calls prints and the stream has no buffer yet, minus the 1024 that the
first call takes off.  With the total below `2^31` nothing wraps; and when
every size is at least 1 and the sizes add up to less than `2^31`,
`num_requested` is the sum of the sizes minus 1024. -/
theorem num_requested_total (pol : Policy) (out : Stdout) (reqs : List (Sbrk × Nat))
    (s : State) (hne : reqs ≠ [])
    (hrun : runCalls pol { State.init with stdout := out } (mallocCalls reqs) = some s) :
    s.num_requested
      = wrapInt (((reqs.map Prod.snd).sum : Nat) + (streamRequest out reqs : Nat) - 1024) ∧
    ((reqs.map Prod.snd).sum + streamRequest out reqs < 2147483648 →
      s.num_requested
        = ((reqs.map Prod.snd).sum : Nat) + (streamRequest out reqs : Nat) - 1024) ∧
    ((∀ q ∈ reqs, 0 < q.2) → (reqs.map Prod.snd).sum < 2147483648 →
      s.num_requested = ((reqs.map Prod.snd).sum : Nat) - 1024) := by
  have hwrap : s.num_requested
      = wrapInt (((reqs.map Prod.snd).sum : Nat) + (streamRequest out reqs : Nat) - 1024) := by
    cases reqs with
    | nil => exact absurd rfl hne
    | cons q reqs =>
      simp only [mallocCalls, List.map_cons, runCalls, Call.exec] at hrun
      cases hm : malloc pol q.1 { State.init with stdout := out } q.2 with
      | stuck => rw [hm] at hrun; cases hrun
      | abort s1 => rw [hm] at hrun; cases hrun
      | ret v s1 =>
        rw [hm] at hrun
        simp only at hrun
        obtain ⟨a1, a2, a3, a4⟩ := malloc_requested _ _ _ _ _ _ hm
        obtain ⟨i1, i2⟩ := runCalls_mallocs_requested pol reqs s1 s a1 a2 hrun
        have hinit : ({ State.init with stdout := out } : State).atexit_registered = 0 := rfl
        have hreq : ({ State.init with stdout := out } : State).num_requested = 0 := rfl
        have hout : ({ State.init with stdout := out } : State).stdout = out := rfl
        rw [if_pos hinit, hreq, hout] at a3
        have e4 := a4 reqs
        rw [hout] at e4
        rw [← i1]
        apply wrapInt_congr
        rw [i2, e4]
        simp only [List.map_cons, List.sum_cons, Nat.cast_add]
        omega
  refine ⟨hwrap, fun hsum => ?_, fun hpos hsum => ?_⟩
  · rw [hwrap]
    apply wrapInt_small
    · omega
    · omega
  · have hzero : streamRequest out reqs = 0 := by
      have hany : reqs.any (fun q => decide (ALIGN4 q.2 = 0)) = false := by
        rw [List.any_eq_false]
        intro q hq
        have h1 := hpos q hq
        have h2 : q.2 ≤ (reqs.map Prod.snd).sum :=
          List.single_le_sum (fun _ _ => Nat.zero_le _) _ (List.mem_map_of_mem _ hq)
        have h3 := ALIGN4_ne_zero q.2 h1 (by omega)
        simp only [decide_eq_true_eq]
        exact h3
      cases out with
      | fresh n => simp only [streamRequest, hany, Bool.false_eq_true, if_false]
      | buffered b n => rfl
      | unbuffered => rfl
    rw [hwrap, hzero]
    simp only [Nat.cast_zero, add_zero]
    apply wrapInt_small
    · omega
    · omega

/-- Witness for C18: `malloc(8)`, `malloc(4)`, `malloc(6)` under first-fit,
where `num_requested` ends at `18 - 1024`; and `malloc(8)`, `malloc(0)`, where
the print of the second call has the stream request its 4096 bytes and
`num_requested` ends at `8 + 4096 - 1024`. -/
theorem num_requested_total_witness :
    (heapThreeMallocs.num_requested = -1006 ∧
      ((∀ q ∈ ([(Sbrk.grown, 8), (Sbrk.grown, 4), (Sbrk.grown, 6)] : List (Sbrk × Nat)),
          0 < q.2) →
        (([(Sbrk.grown, 8), (Sbrk.grown, 4), (Sbrk.grown, 6)] : List (Sbrk × Nat)).map
          Prod.snd).sum < 2147483648 →
        heapThreeMallocs.num_requested
          = ((([(Sbrk.grown, 8), (Sbrk.grown, 4), (Sbrk.grown, 6)] : List (Sbrk × Nat)).map
              Prod.snd).sum : Nat) - 1024)) ∧
    ∃ s, runCalls .FIT State.init (mallocCalls [(.grown, 8), (.grown, 0)]) = some s ∧
      s.num_requested = 3080 ∧
      streamRequest (.fresh 4096) [(.grown, 8), (.grown, 0)] = 4096 ∧
      s.num_requested
        = wrapInt (((([(Sbrk.grown, 8), (Sbrk.grown, 0)] : List (Sbrk × Nat)).map
              Prod.snd).sum : Nat)
            + (streamRequest (.fresh 4096) [(Sbrk.grown, 8), (Sbrk.grown, 0)] : Nat) - 1024) :=
  ⟨⟨by decide,
      (num_requested_total .FIT (.fresh 4096) [(.grown, 8), (.grown, 4), (.grown, 6)]
        heapThreeMallocs (by decide) rfl).2.2⟩,
    _, rfl, by decide, by decide,
    (num_requested_total .FIT (.fresh 4096) [(.grown, 8), (.grown, 0)] _ (by decide) rfl).1⟩

/-- Counterexample to C18 as stated: after the single call `malloc(4)` the
statistic `num_requested` is -1020, not 4, and after `malloc(8)`, `malloc(4)`,
`malloc(6)` it is -1006, not 18.  After `malloc(8)`, `malloc(0)` it is 3080,
neither 8 nor `8 - 1024`: the print of the second call had the stream request
4096 bytes.  After two calls `malloc(2147483647)` it is -1026. -/
theorem num_requested_counterexample :
    (runCalls .FIT State.init (mallocCalls [(.grown, 4)])).map State.num_requested
      = some (-1020) ∧
    (runCalls .FIT State.init
        (mallocCalls [(.grown, 8), (.grown, 4), (.grown, 6)])).map State.num_requested
      = some (-1006) ∧
    (runCalls .FIT State.init
        (mallocCalls [(.grown, 8), (.grown, 0)])).map State.num_requested
      = some 3080 ∧
    (runCalls .FIT State.init
        (mallocCalls [(.grown, 2147483647), (.grown, 2147483647)])).map State.num_requested
      = some (-1026) := by
  decide

/-- C20 (the code at the failing input): block 0 of `heapTwoInts` has a
capacity of 8 bytes and is the last block of the heap.  `realloc` of it to 12
bytes carves block 1 behind it and returns block 1.  The fresh payload of block
1 is zero-filled; after the copy its bytes 0 to 7 are the bytes of block 0, and
its bytes 8 to 11 are bytes the program cannot know, because they were read
from behind the payload of block 0: the copy has read 12 bytes, not
`min(8, 12)`. -/
theorem realloc_copies_new_size :
    heapTwoInts.blocks = [⟨8, none, false⟩] ∧
    (malloc .FIT .grown heapTwoInts 12).value? = some (some 1) ∧
    (malloc .FIT .grown heapTwoInts 12).state?.map
        (fun s => (List.range 12).map (s.mem 1))
      = some [some 0, some 0, some 0, some 0, some 0, some 0, some 0, some 0,
          some 0, some 0, some 0, some 0] ∧
    (realloc .FIT .grown heapTwoInts (some 0) 12).value? = some (some 1) ∧
    (realloc .FIT .grown heapTwoInts (some 0) 12).state?.map
        (fun s => (List.range 12).map (s.mem 1))
      = some [some 10, some 0, some 0, some 0, some 20, some 0, some 0, some 0,
          none, none, none, none] ∧
    (List.range 8).map (heapTwoInts.mem 0)
      = [some 10, some 0, some 0, some 0, some 20, some 0, some 0, some 0] := by
  decide

/-- C21: on a word of `w ≥ 2` bits, and so on the 64 bits of `size_t`,
`ALIGN4(s)` is `4 * ceil(s / 4)` modulo `2^w`, the ceiling being `(s + 3) / 4`:
for `1 ≤ s ≤ 2^w - 4` it is the least multiple of 4 that is at least `s`, it is
0 for `s = 0` and for `s > 2^w - 4`, and applying it twice is the same as
applying it once. -/
theorem ALIGN4_round_up (w s : Nat) (hw : 2 ≤ w) (hs : s < 2 ^ w) :
    ALIGN4w w s = (4 * ((s + 3) / 4)) % 2 ^ w ∧
    (1 ≤ s → s ≤ 2 ^ w - 4 →
      4 ∣ ALIGN4w w s ∧ s ≤ ALIGN4w w s ∧ ∀ m, 4 ∣ m → s ≤ m → ALIGN4w w s ≤ m) ∧
    (s = 0 → ALIGN4w w s = 0) ∧
    (2 ^ w - 4 < s → ALIGN4w w s = 0) ∧
    ALIGN4w w (ALIGN4w w s) = ALIGN4w w s ∧
    ALIGN4 s = ALIGN4w 64 s := by
  obtain ⟨K, hK⟩ : ∃ K, 2 ^ w = 4 * K := by
    refine ⟨2 ^ (w - 2), ?_⟩
    have : w = 2 + (w - 2) := by omega
    conv_lhs => rw [this, pow_add]
    norm_num
  have hA := ALIGN4w_eq w s hw hs
  have hlt : ALIGN4w w s < 2 ^ w := by
    rw [hA]; split_ifs <;> omega
  have hAA := ALIGN4w_eq w (ALIGN4w w s) hw hlt
  rw [hK] at hs hA hAA hlt ⊢
  refine ⟨?_, ?_, ?_, ?_, ?_, ?_⟩
  · rw [hA]
    by_cases h0 : s = 0
    · subst h0; simp
    · by_cases hbig : 4 * K - 4 < s
      · rw [if_pos (Or.inr hbig)]
        have e : 4 * ((s + 3) / 4) = 4 * K := by omega
        rw [e, Nat.mod_self]
      · rw [if_neg (by tauto), Nat.mod_eq_of_lt (by omega)]
        omega
  · intro h1 h2
    rw [hA, if_neg (by omega)]
    refine ⟨⟨(s - 1) / 4 + 1, by ring⟩, by omega, ?_⟩
    rintro m ⟨q, rfl⟩ hm
    omega
  · intro h0
    rw [hA, if_pos (Or.inl h0)]
  · intro hbig
    rw [hA, if_pos (Or.inr hbig)]
  · rw [hAA]
    clear hAA
    generalize ALIGN4w w s = a at hA hlt ⊢
    subst hA
    by_cases hc : s = 0 ∨ 4 * K - 4 < s
    · simp only [if_pos hc, true_or, if_true]
    · simp only [if_neg hc] at hlt ⊢
      rw [if_neg (by omega)]
      omega
  · rfl

/-- Witness for C21: the operand 5 on 64 bits, which is rounded up to 8. -/
theorem ALIGN4_round_up_witness :
    ALIGN4w 64 5 = 8 ∧
    ALIGN4w 64 5 = (4 * ((5 + 3) / 4)) % 2 ^ 64 ∧
    (1 ≤ 5 → 5 ≤ 2 ^ 64 - 4 →
      4 ∣ ALIGN4w 64 5 ∧ 5 ≤ ALIGN4w 64 5 ∧ ∀ m, 4 ∣ m → 5 ≤ m → ALIGN4w 64 5 ≤ m) ∧
    (5 = 0 → ALIGN4w 64 5 = 0) ∧
    (2 ^ 64 - 4 < 5 → ALIGN4w 64 5 = 0) ∧
    ALIGN4w 64 (ALIGN4w 64 5) = ALIGN4w 64 5 ∧
    ALIGN4 5 = ALIGN4w 64 5 :=
  ⟨by decide, ALIGN4_round_up 64 5 (by decide) (by decide)⟩

/-- C23: after any program run from the initial state, whatever the OS
answered to the break requests, `num_reuses + num_grows - num_mallocs` is the
number of `realloc` calls made with a pointer that is not `NULL`; when there
was no such call, `num_mallocs = num_reuses + num_grows`. -/
theorem counters_consistent (pol : Policy) (tr : List (Sbrk × Call)) (s : State)
    (hrun : runCalls pol State.init tr = some s) :
    s.num_reuses + s.num_grows - s.num_mallocs = (reallocMoves tr : Nat) ∧
    (reallocMoves tr = 0 → s.num_mallocs = s.num_reuses + s.num_grows) := by
  have h := (runCalls_effect pol tr State.init s hrun).1
  have h0 : State.init.num_reuses + State.init.num_grows - State.init.num_mallocs = 0 := rfl
  rw [h0, zero_add] at h
  refine ⟨h, ?_⟩
  intro hz
  rw [hz] at h
  simp only [Nat.cast_zero] at h
  omega

/-- Witness for C23: the first-fit run `malloc(8)`, `realloc` of that block to
12 bytes, `malloc(4)`: two heap growths, two reuses (one counted by `realloc`)
and three successful `malloc`s. -/
theorem counters_consistent_witness :
    ∃ s, runCalls .FIT State.init
        [(.grown, .malloc 8), (.grown, .realloc (some 0) 12), (.grown, .malloc 4)] = some s ∧
      (s.num_reuses, s.num_grows, s.num_mallocs) = (2, 2, 3) ∧
      reallocMoves
        [(.grown, .malloc 8), (.grown, .realloc (some 0) 12), (.grown, .malloc 4)] = 1 ∧
      s.num_reuses + s.num_grows - s.num_mallocs
        = (reallocMoves
            [(.grown, .malloc 8), (.grown, .realloc (some 0) 12), (.grown, .malloc 4)] : Nat) ∧
      (reallocMoves
          [(.grown, .malloc 8), (.grown, .realloc (some 0) 12), (.grown, .malloc 4)] = 0 →
        s.num_mallocs = s.num_reuses + s.num_grows) :=
  ⟨_, rfl, by decide, by decide,
    counters_consistent .FIT
      [(.grown, .malloc 8), (.grown, .realloc (some 0) 12), (.grown, .malloc 4)] _ rfl⟩

/-- C24: on every state with acyclic links whose listed blocks are all below
`2^31 - 1` bytes, and for every request size, `findFreeBlock` returns under
worst-fit the block it returns under best-fit.  That block is the one the words
of the claim describe: it is on the list, free and strictly larger than the
request, no free block of the list that is strictly larger than the request
has a smaller leftover, and it has the lowest address of those with that
leftover; the result is `NULL` exactly when no free block of the list is
strictly larger than the request. -/
theorem worstFit_same_as_bestFit (s : State) (last last' : Option Nat) (size : Nat)
    (hwf : s.WF) (hsz : ∀ k ∈ s.list, sizeAt s.blocks k < 2147483647) :
    ∃ rb rw, findFreeBlock .BEST s last size = some rb ∧
      findFreeBlock .WORST s last' size = some rw ∧
      rw.curr = rb.curr ∧
      rb.curr = smallestLeftoverBlock s size ∧
      (∀ k, rb.curr = some k →
        k ∈ s.list ∧ isFreeB s.blocks k = true ∧ size < sizeAt s.blocks k ∧
        ∀ j ∈ s.list, isFreeB s.blocks j = true → size < sizeAt s.blocks j →
          sizeAt s.blocks k - size ≤ sizeAt s.blocks j - size ∧
          (sizeAt s.blocks j - size = sizeAt s.blocks k - size → k ≤ j)) ∧
      (rb.curr = none ↔
        ∀ j ∈ s.list, ¬ (isFreeB s.blocks j = true ∧ size < sizeAt s.blocks j)) := by
  obtain ⟨hl, hh, _⟩ := hwf
  have hc : ∀ k, s.heapList = some k →
      k < s.blocks.length ∧ s.blocks.length - k ≤ s.blocks.length := by
    intro k hk
    rw [hk] at hh
    simp only [Option.all_some, decide_eq_true_eq] at hh
    exact ⟨hh, Nat.sub_le _ _⟩
  obtain ⟨r1, hr1, hc1⟩ := bestFitLoop_scan s.blocks size hl s.blocks.length s.heapList last
    none INT_MAX s.num_blocks hc hsz (Or.inl ⟨rfl, Or.inl rfl⟩)
  obtain ⟨r2, hr2, hc2⟩ := worstFitLoop_scan s.blocks size hl s.blocks.length s.heapList last'
    none INT_MIN s.num_blocks hc hsz (Or.inl ⟨rfl, Or.inr rfl⟩)
  obtain ⟨sp1, sp2⟩ := leftoverScan_spec s.blocks size s.list none
    (listFrom_pairwise s.blocks hl _ _) (fun k hk => by cases hk)
  have hlist : leftoverScan s.blocks size (listFrom s.blocks s.blocks.length s.heapList) none
      = leftoverScan s.blocks size s.list none := rfl
  rw [hlist] at hc1 hc2
  have hchar : ∀ k, r1.curr = some k →
      k ∈ s.list ∧ isFreeB s.blocks k = true ∧ size < sizeAt s.blocks k ∧
      ∀ j ∈ s.list, isFreeB s.blocks j = true → size < sizeAt s.blocks j →
        sizeAt s.blocks k - size ≤ sizeAt s.blocks j - size ∧
        (sizeAt s.blocks j - size = sizeAt s.blocks k - size → k ≤ j) := by
    intro k hk
    rw [hc1] at hk
    obtain ⟨hmem, hlk, hmin⟩ := sp2 k hk
    have hmem' : k ∈ s.list := by
      rcases hmem with hmem | hmem
      · cases hmem
      · exact hmem
    obtain ⟨hfk, hsk⟩ := (largerB_iff _ _ _).1 hlk
    exact ⟨hmem', hfk, hsk, fun j hj hfj hsj =>
      hmin j (Or.inr hj) ((largerB_iff _ _ _).2 ⟨hfj, hsj⟩)⟩
  have hnone : r1.curr = none ↔
      ∀ j ∈ s.list, ¬ (isFreeB s.blocks j = true ∧ size < sizeAt s.blocks j) := by
    constructor
    · intro h j hj hcand
      rw [hc1] at h
      have := (sp1 h).2 j hj
      rw [(largerB_iff _ _ _).2 hcand] at this
      cases this
    · intro h
      cases hk : r1.curr with
      | none => rfl
      | some k =>
        obtain ⟨hmem, hfk, hsk, _⟩ := hchar k hk
        exact absurd ⟨hfk, hsk⟩ (h k hmem)
  have hspec : r1.curr = smallestLeftoverBlock s size := by
    unfold smallestLeftoverBlock
    simp only
    cases hk : r1.curr with
    | none =>
      have hempty : (s.list.filter fun c =>
          isFreeB s.blocks c && decide (0 < sizeAt s.blocks c - size)) = [] := by
        rw [List.filter_eq_nil_iff]
        intro j hj hcand
        simp only [Bool.and_eq_true, decide_eq_true_eq] at hcand
        exact (hnone.1 hk) j hj ⟨hcand.1, by omega⟩
      rw [hempty]
      rfl
    | some k =>
      obtain ⟨hmem, hfk, hsk, hmin⟩ := hchar k hk
      symm
      rw [List.min?_eq_some_iff']
      constructor
      · simp only [List.mem_filter, List.all_eq_true, Bool.and_eq_true, decide_eq_true_eq]
        refine ⟨⟨hmem, hfk, by omega⟩, ?_⟩
        rintro j ⟨hj, hfj, hsj⟩
        exact (hmin j hj hfj (by omega)).1
      · intro j hj
        simp only [List.mem_filter, List.all_eq_true, Bool.and_eq_true, decide_eq_true_eq] at hj
        obtain ⟨⟨hj, hfj, hsj⟩, hall⟩ := hj
        have h1 := hall k ⟨hmem, hfk, by omega⟩
        have h2 := hmin j hj hfj (by omega)
        exact h2.2 (by omega)
  refine ⟨⟨r1.curr, r1.last, { s with num_blocks := r1.num_blocks }⟩,
    ⟨r2.curr, r2.last, { s with num_blocks := r2.num_blocks }⟩, ?_, ?_, ?_, hspec, hchar, hnone⟩
  · simp only [findFreeBlock, hr1]
  · simp only [findFreeBlock, hr2]
  · show r2.curr = r1.curr
    rw [hc1, hc2]

/-- Witness for C24: a request of 4 bytes on `heapFourBlocks`, whose free
blocks have 4, 16 and 16 bytes: both policies return block 2, the first of the
two blocks with the leftover 12. -/
theorem worstFit_same_as_bestFit_witness :
    smallestLeftoverBlock heapFourBlocks 4 = some 2 ∧
    ∃ rb rw, findFreeBlock .BEST heapFourBlocks none 4 = some rb ∧
      findFreeBlock .WORST heapFourBlocks none 4 = some rw ∧
      rw.curr = rb.curr ∧
      rb.curr = smallestLeftoverBlock heapFourBlocks 4 ∧
      (∀ k, rb.curr = some k →
        k ∈ heapFourBlocks.list ∧ isFreeB heapFourBlocks.blocks k = true ∧
        4 < sizeAt heapFourBlocks.blocks k ∧
        ∀ j ∈ heapFourBlocks.list, isFreeB heapFourBlocks.blocks j = true →
          4 < sizeAt heapFourBlocks.blocks j →
          sizeAt heapFourBlocks.blocks k - 4 ≤ sizeAt heapFourBlocks.blocks j - 4 ∧
          (sizeAt heapFourBlocks.blocks j - 4 = sizeAt heapFourBlocks.blocks k - 4 → k ≤ j)) ∧
      (rb.curr = none ↔
        ∀ j ∈ heapFourBlocks.list,
          ¬ (isFreeB heapFourBlocks.blocks j = true ∧ 4 < sizeAt heapFourBlocks.blocks j)) :=
  ⟨by decide, worstFit_same_as_bestFit heapFourBlocks none none 4 (by decide) (by decide)⟩

end MemAlloc
